import Mathlib

/-!
# Console — the execution core of the RAS shell (`src/console.hpp`)

A shallow embedding of `Console<Parser>`: the pipeline parser (`parse_cmd`), the command
builder (`setup_cmd`), the resolver (`verify_cmd`), the builtin dispatcher
(`execute_builtin_cmd`) and the launcher (`execute_cmd`, `execute`, `register_pipe`,
`unregister_pipe`), together with a small model of the POSIX calls they make.

Conventions.
* A `std::string` is the list of its characters (`Str`).
* `int` values (process indices, pipe offsets, registry keys) are integers. A value that a
  line of input can push out of the range of a 32-bit `int` is reduced to it by `to_int`:
  the result of `atoi`, and the registry keys `cmd.proc_id - 1` and
  `cmd.proc_id + cmd.pipe_to - 1` that `execute` computes (`|2147483647` is a pipe offset a
  line can carry), where the sum is taken with the two's complement wrap-around of the
  machine. The counter `proc_counter` itself is not reduced: it leaves the range only after
  `2 ^ 31` resolved commands.
* A function whose C++ text has undefined behaviour on some input (indexing an empty
  vector, building a `std::string` from a null pointer, handing a null pointer to
  `operator<<`) returns `none` / `Halt.undefined` on that input.
* Text sent to `std::cout` / `std::cerr` is appended to the `out` / `err` fields of the
  state; the error state of the streams is not modelled.
-/

namespace RAS

/-- A `std::string`, as the sequence of its characters. -/
abbrev Str := List Char

/-! ## Data model -/

/-- The record `struct Command`; the default values are those of the constructor
`Command() : proc_id(-1), pipe_to(0), filename()`. -/
structure Command where
  proc_id : Int := -1
  argv : List Str := []
  pipe_to : Int := 0
  filename : Str := []
deriving DecidableEq, Repr

/-- What a file descriptor refers to. -/
inductive FileObj where
  /-- an open file the shell process was started with (terminal, socket, ...) -/
  | stream (n : Nat)
  /-- the read end of the `p`-th pipe created by `pipe()` -/
  | pipe_read (p : Nat)
  /-- the write end of the `p`-th pipe created by `pipe()` -/
  | pipe_write (p : Nat)
  /-- a file opened by `open(name, O_CREAT | O_WRONLY, ...)` -/
  | file (name : Str)
deriving DecidableEq, Repr

/-- The descriptor table of a process: entry `fd` is what descriptor `fd` refers to, `none`
(or an index past the end) when the descriptor is closed. -/
abbrev FdTable := List (Option FileObj)

/-- What descriptor `fd` refers to in table `t`. -/
def fd_get (t : FdTable) (fd : Nat) : Option FileObj :=
  match t, fd with
  | [], _ => none
  | o :: _, 0 => o
  | _ :: t, n + 1 => fd_get t n

/-- Table `t` with descriptor `fd` made to refer to `o` (`none`: closed). -/
def fd_set (t : FdTable) (fd : Nat) (o : Option FileObj) : FdTable :=
  match t, fd with
  | [], 0 => [o]
  | [], n + 1 => none :: fd_set [] n o
  | _ :: t, 0 => o :: t
  | x :: t, n + 1 => x :: fd_set t n o

/-- The lowest-numbered descriptor that is not open: the one POSIX hands out next. -/
def lowest_free : FdTable → Nat
  | [] => 0
  | none :: _ => 0
  | some _ :: t => lowest_free t + 1

/-- POSIX `dup2(oldfd, newfd)`: fails without effect when `oldfd` is not open; otherwise
`newfd` (silently closed first if open) refers to the same object as `oldfd`. -/
def dup2 (t : FdTable) (oldfd newfd : Nat) : FdTable :=
  match fd_get t oldfd with
  | none => t
  | some o => fd_set t newfd (some o)

/-- POSIX `close(fd)`. -/
def close (t : FdTable) (fd : Nat) : FdTable :=
  match fd_get t fd with
  | none => t
  | some _ => fd_set t fd none

/-- How a forked child of `execute` ends. -/
inductive ChildEnd where
  /-- `execvp` succeeded: the program image was replaced -/
  | replaced
  /-- the child called `exit(status)` -/
  | exited (status : Int)
  /-- `execvp` returned (it failed): the child leaves the `if` and returns from `execute` -/
  | returned
  /-- `execvp` was handed an empty argument vector (`argv[0]` is the null pointer) -/
  | undefined
deriving DecidableEq, Repr

/-- A child process forked by `execute`, observed at the point where it stops running the
shell's code. -/
structure Proc where
  /-- `cmd.argv` of the command the child was forked for -/
  argv : List Str
  /-- the child's descriptor table at that point (at the `execvp` call, or at `exit`) -/
  fds : FdTable
  /-- text the child itself wrote to `std::cerr` -/
  err : Str
  ending : ChildEnd
deriving DecidableEq, Repr

/-- The `Console` object together with the state of the shell process it runs in. The first
three fields are the data members of the class. -/
structure Console where
  cmd_line : Str := []
  /-- the member `std::map<int, std::tuple<int, int>> pipe_lookup`: key, then the tuple
  `(fd[0], fd[1])` of the pipe, i.e. (read end, write end) -/
  pipe_lookup : List (Int × (Nat × Nat)) := []
  proc_counter : Int := 0
  /-- the process environment (`getenv` / `setenv`) -/
  env : List (Str × Str) := []
  /-- the descriptor table of the shell process -/
  fds : FdTable := []
  /-- everything written to `std::cout` so far -/
  out : Str := []
  /-- everything written to `std::cerr` so far -/
  err : Str := []
  /-- number of pipes created by `pipe()` so far -/
  pipes : Nat := 0
  /-- the children forked so far, oldest first -/
  procs : List Proc := []
deriving DecidableEq, Repr

/-- Why the shell process stops running `Console` code. -/
inductive Halt where
  /-- the C++ text has undefined behaviour at this point -/
  | undefined
  /-- the shell called `exit(status)`; `sh` is its state at that moment -/
  | exited (status : Int) (sh : Console)
deriving DecidableEq, Repr

/-- The parts of the operating system the shell consults, as fixed answers. -/
structure Kernel where
  /-- `access(path, F_OK) == 0` -/
  access : Str → Bool
  /-- whether `open(path, O_CREAT | O_WRONLY, mode)` succeeds -/
  can_open : Str → Bool
  /-- whether `execvp(path, ...)` succeeds -/
  can_exec : Str → Bool
  /-- whether the `fork()` made when `k` children exist already succeeds -/
  fork_ok : Nat → Bool
  /-- whether the `pipe()` made when `k` pipes were created already succeeds -/
  pipe_ok : Nat → Bool
  /-- whether the `wait()` for the `k`-th child succeeds -/
  wait_ok : Nat → Bool

/-- The policy class `Parser` that `Console` inherits from; its text is not part of
`console.hpp`, so its two `split` forms are parameters of the embedding. -/
structure Parser where
  /-- `Parser::split(line)` -/
  split : Str → List Str
  /-- `Parser::split(text, delimiter)` -/
  split_by : Str → Str → List Str

/-! ## Environment store -/

/-- C `getenv(name)`; `none` is the null pointer. -/
def getenv (env : List (Str × Str)) (name : Str) : Option Str :=
  env.lookup name

/-- C `setenv(name, value, 1)`: fails without effect when `name` is empty or contains
an equals sign; otherwise `name` is bound to `value`, replacing an earlier binding. -/
def setenv (env : List (Str × Str)) (name value : Str) : List (Str × Str) :=
  if name = [] ∨ '=' ∈ name then env
  else (name, value) :: env.filter (fun kv => kv.1 ≠ name)

/-! ## Pipeline parser: `parse_cmd` (lines 76-108) -/

/-- The `for (auto &token : tokens)` loop of `parse_cmd`, with the two vectors it updates;
returns them as they are after the last token. -/
def parse_loop : List Str → List (List Str) → List Str → List (List Str) × List Str
  | [], result, single_command => (result, single_command)
  | token :: tokens, result, single_command =>
    let single_command := single_command ++ [token]
    let is_pipe_symbol := decide ('|' ∈ token)
    if is_pipe_symbol then parse_loop tokens (result ++ [single_command]) []
    else parse_loop tokens result single_command

/-- `Console::parse_cmd`: the parse tree together with the state after the call. -/
def parse_cmd (P : Parser) (sh : Console) (cmd_line : Str) : List (List Str) × Console :=
  if '/' ∈ cmd_line then
    ([], { sh with out := sh.out ++ "Permission denied.\n".toList })
  else
    let r := parse_loop (P.split cmd_line) [] []
    if r.2.length ≠ 0 then (r.1 ++ [r.2], sh) else (r.1, sh)

/-! ## Command builder: `setup_cmd` (lines 111-148) -/

/-- C `isspace` in the "C" locale. -/
def is_space (c : Char) : Bool :=
  c = ' ' || c = '\t' || c = '\n' || c = '\x0b' || c = '\x0c' || c = '\r'

/-- The value of the longest run of decimal digits at the head of the text, continuing the
value `acc` read so far. -/
def digits_value : List Char → Nat → Nat
  | [], acc => acc
  | c :: cs, acc => if c.isDigit then digits_value cs (acc * 10 + (c.toNat - 48)) else acc

/-- The range of `long` (64 bits): `strtol` saturates at its two ends. -/
def clamp_long (x : Int) : Int :=
  if x < -(2 ^ 63) then -(2 ^ 63) else if x > 2 ^ 63 - 1 then 2 ^ 63 - 1 else x

/-- Reduction to `int` (32 bits, two's complement): the conversion of a `long`, and the
value of an `int` sum whose mathematical value is `x`. -/
def to_int (x : Int) : Int :=
  (x + 2 ^ 31) % 2 ^ 32 - 2 ^ 31

/-- C `atoi`, as `(int) strtol(s, NULL, 10)`: leading white space is skipped, an optional
sign is read, then the longest run of digits; the value is 0 when there is no digit. Reading
stops at the first character that is not a digit, so also at the end of a C string. -/
def atoi (s : Str) : Int :=
  match s.dropWhile is_space with
  | '-' :: ds => to_int (clamp_long (-(digits_value ds 0 : Int)))
  | '+' :: ds => to_int (clamp_long (digits_value ds 0))
  | ds => to_int (clamp_long (digits_value ds 0))

/-- Lines 119-129, the pipe directive: from the segment `argv`, the value given to
`cmd.pipe_to` and the segment as it is afterwards. `argv.back()` of an empty segment is
undefined (`none`). -/
def setup_pipe (argv : List Str) : Option (Int × List Str) :=
  match argv.getLast? with
  | none => none
  | some back =>
    if '|' ∈ back then
      let pipe_to : Int := if back.length ≠ 1 then atoi (back.drop 1) else 1
      some (pipe_to, argv.dropLast)
    else
      some (0, argv)

/-- Lines 131-138, the output redirection: from the segment `argv`, the value given to
`cmd.filename` and the segment as it is afterwards. -/
def setup_file (argv : List Str) : Str × List Str :=
  if argv.length > 2 then
    if argv.getD (argv.length - 2) [] = ">".toList then
      (argv.getLastD [], argv.take (argv.length - 2))
    else ([], argv)
  else ([], argv)

/-- The body of the loop of `setup_cmd` (lines 117-142): the `Command` built from one
segment. -/
def setup_one (argv : List Str) : Option Command :=
  match setup_pipe argv with
  | none => none
  | some (pipe_to, argv) =>
    let r := setup_file argv
    some { proc_id := -1, argv := r.2, pipe_to := pipe_to, filename := r.1 }

/-- The loop `for (auto &argv : parsed_cmd)` of `setup_cmd`. -/
def setup_loop : List (List Str) → Option (List Command)
  | [] => some []
  | argv :: rest =>
    match setup_one argv with
    | none => none
    | some cmd =>
      match setup_loop rest with
      | none => none
      | some commands => some (cmd :: commands)

/-! ## Command resolver: `verify_cmd`, `is_file_exist` (lines 151-178, 312-323) -/

/-- The local `testname` of `is_file_exist`: `prefix + "/" + filename`. -/
def testname (dir filename : Str) : Str :=
  dir ++ "/".toList ++ filename

/-- `Console::is_file_exist(filename, dir)`: the returned flag, and `filename` as it is after
the call (the parameter is a reference and is overwritten on a hit). -/
def is_file_exist (K : Kernel) (filename dir : Str) : Bool × Str :=
  let is_exist := K.access (testname dir filename)
  (is_exist, if is_exist then testname dir filename else filename)

/-- The inner loop `for (auto &path : paths)` of `verify_cmd` for a command with argument
vector `argv`: `some (some argv1)` on the first hit, `argv1` being the vector with its head
rewritten; `some none` when every directory was tried in vain; `none` when `cmd.argv[0]` is
evaluated on an empty vector. -/
def verify_paths (K : Kernel) (argv : List Str) : List Str → Option (Option (List Str))
  | [] => some none
  | path :: paths =>
    match argv with
    | [] => none
    | a0 :: args =>
      let r := is_file_exist K a0 path
      if r.1 then some (some (r.2 :: args)) else verify_paths K argv paths

/-- The loop `for (auto &cmd : commands)` of `verify_cmd`, started with `proc_counter` at
`counter`: the commands and the counter afterwards. -/
def verify_loop (K : Kernel) (paths : List Str) : Int → List Command → Option (List Command × Int)
  | counter, [] => some ([], counter)
  | counter, cmd :: rest =>
    match verify_paths K cmd.argv paths with
    | none => none
    | some none => some (cmd :: rest, counter)
    | some (some argv1) =>
      match verify_loop K paths (counter + 1) rest with
      | none => none
      | some (rest1, counter1) =>
        some ({ cmd with proc_id := counter, argv := argv1 } :: rest1, counter1)

/-- `Console::verify_cmd`. `std::string path_all(getenv("PATH"))` is undefined when `PATH`
is not set. -/
def verify_cmd (P : Parser) (K : Kernel) (sh : Console) (commands : List Command) :
    Option (List Command × Console) :=
  match getenv sh.env "PATH".toList with
  | none => none
  | some path_all =>
    let paths := P.split_by path_all ":".toList
    match verify_loop K paths sh.proc_counter commands with
    | none => none
    | some (commands1, counter1) => some (commands1, { sh with proc_counter := counter1 })

/-- `Console::setup_cmd`. -/
def setup_cmd (P : Parser) (K : Kernel) (sh : Console) (parsed_cmd : List (List Str)) :
    Option (List Command × Console) :=
  match setup_loop parsed_cmd with
  | none => none
  | some commands => verify_cmd P K sh commands

/-! ## Builtin dispatcher: `execute_builtin_cmd` (lines 181-208) -/

/-- The statement `std::cout << cmd[1] << "=" << getenv(cmd[1].c_str()) << "\n"`. When the
variable is not set `getenv` gives the null pointer, which `operator<<` may not be handed:
the statement is undefined (`none`). -/
def print_env (sh : Console) (name : Str) : Option Console :=
  match getenv sh.env name with
  | some value => some { sh with out := sh.out ++ name ++ "=".toList ++ value ++ "\n".toList }
  | none => none

/-- The loop of `execute_builtin_cmd`, entered at the test `it != commands.end()` with the
iterator `it` at offset `it` from `commands.begin()`. The iterator of a `std::vector` is a
position in its storage: `commands.erase(it)` moves the later elements down by one and
leaves `it` where it is, and the `++it` of the loop header then steps over the element that
has moved into that place. The result is the returned flag, the vector and the state;
`none` when an element is read at or past `commands.end()`, `cmd[0]` of an empty vector
is read, or `printenv` is asked for a variable that is not set. `fuel` bounds the number of
iterations; `commands.size() + 1` is never reached. -/
def builtin_loop : Nat → Console → List Command → Nat → Option (Bool × List Command × Console)
  | 0, _, _, _ => none
  | fuel + 1, sh, commands, it =>
    if it = commands.length then some (true, commands, sh)
    else
      match commands.get? it with
      | none => none
      | some c =>
        match c.argv with
        | [] => none
        | a0 :: _ =>
          if a0 = "printenv".toList then
            match (if c.argv.length = 2 then print_env sh (c.argv.getD 1 []) else some sh) with
            | none => none
            | some sh1 =>
              let commands1 := commands.eraseIdx it
              if commands1.length < 1 then some (true, commands1, sh1)
              else builtin_loop fuel sh1 commands1 (it + 1)
          else if a0 = "setenv".toList then
            let sh1 :=
              if c.argv.length = 3 then
                { sh with env := setenv sh.env (c.argv.getD 1 []) (c.argv.getD 2 []) }
              else sh
            let commands1 := commands.eraseIdx it
            if commands1.length < 1 then some (true, commands1, sh1)
            else builtin_loop fuel sh1 commands1 (it + 1)
          else if a0 = "exit".toList then some (false, commands, sh)
          else if commands.length < 1 then some (true, commands, sh)
          else builtin_loop fuel sh commands (it + 1)

/-- `Console::execute_builtin_cmd`: the returned flag, `commands` as the call leaves it, and
the state. -/
def execute_builtin_cmd (sh : Console) (commands : List Command) :
    Option (Bool × List Command × Console) :=
  builtin_loop (commands.length + 1) sh commands 0

/-! ## Pipe registry: `register_pipe`, `unregister_pipe` (lines 326-356) -/

/-- Lines 335-342 of `register_pipe` when `pipe(fd)` succeeds: the kernel hands out the two
lowest free descriptors, `fd[0]` for the read end and `fd[1]` for the write end, and the
tuple `(fd[0], fd[1])` is stored under `pipe_id`. -/
def open_pipe (sh : Console) (pipe_id : Int) : Console :=
  let fd0 := lowest_free sh.fds
  let t1 := fd_set sh.fds fd0 (some (.pipe_read sh.pipes))
  let fd1 := lowest_free t1
  let t2 := fd_set t1 fd1 (some (.pipe_write sh.pipes))
  { sh with
    fds := t2, pipes := sh.pipes + 1,
    pipe_lookup := (pipe_id, (fd0, fd1)) :: sh.pipe_lookup }

/-- `Console::register_pipe`. -/
def register_pipe (K : Kernel) (sh : Console) (pipe_id : Int) : Except Halt Console :=
  match sh.pipe_lookup.lookup pipe_id with
  | some _ => .ok sh
  | none =>
    if K.pipe_ok sh.pipes then .ok (open_pipe sh pipe_id)
    else .error (.exited 1 { sh with err := sh.err ++ "Pipe open failed!\n".toList })

/-- `Console::unregister_pipe`: `std::get<PIPEIN>` is `fd[1]`, `std::get<PIPEOUT>` is
`fd[0]`. -/
def unregister_pipe (sh : Console) (pipe_id : Int) : Console :=
  match sh.pipe_lookup.lookup pipe_id with
  | none => sh
  | some (fd0, fd1) =>
    { sh with
      fds := close (close sh.fds fd1) fd0,
      pipe_lookup := sh.pipe_lookup.filter (fun e => e.1 ≠ pipe_id) }

/-! ## Process launcher: `execute`, `execute_cmd` (lines 210-224, 239-309) -/

/-- The call `execvp(argv[0], argv.data())` in a child whose descriptor table is `t`. -/
def exec_child (K : Kernel) (cmd : Command) (t : FdTable) : Proc :=
  match cmd.argv with
  | [] => { argv := cmd.argv, fds := t, err := [], ending := .undefined }
  | a0 :: _ =>
    { argv := cmd.argv, fds := t, err := [],
      ending := if K.can_exec a0 then .replaced else .returned }

/-- The branch `child_pid == CHILD` of `execute` (lines 258-297), run on the copy of the
shell state `sh` that `fork()` gives the child. The keys `cmd.proc_id - 1` and
`cmd.proc_id + cmd.pipe_to - 1` are `int` values. -/
def execute_child (K : Kernel) (sh : Console) (cmd : Command) : Proc :=
  let need_pipe := decide (cmd.pipe_to > 0)
  let need_file := decide (cmd.filename.length > 0)
  let t1 : FdTable :=
    match sh.pipe_lookup.lookup (to_int (cmd.proc_id - 1)) with
    | some (fd0, fd1) => close (dup2 sh.fds fd0 0) fd1
    | none => sh.fds
  let t2 : FdTable :=
    if need_pipe then
      match sh.pipe_lookup.lookup (to_int (cmd.proc_id + cmd.pipe_to - 1)) with
      | some (fd0, fd1) =>
        let t := close (dup2 t1 fd1 1) fd0
        if need_file then close t fd1 else t
      | none => t1
    else t1
  if need_file then
    if K.can_open cmd.filename then
      let filefd := lowest_free t2
      exec_child K cmd (dup2 (fd_set t2 filefd (some (.file cmd.filename))) filefd 1)
    else
      { argv := cmd.argv, fds := t2, err := "File open failed!\n".toList, ending := .exited 1 }
  else exec_child K cmd t2

/-- The shell's side of `execute` from the successful `fork()` up to the `wait` (lines
256-300): the child runs its branch on a copy of the state, the shell unregisters the pipe
keyed `cmd.proc_id - 1`. The child is appended to `procs`. -/
def execute_parent (K : Kernel) (sh : Console) (cmd : Command) : Console :=
  unregister_pipe { sh with procs := sh.procs ++ [execute_child K sh cmd] }
    (to_int (cmd.proc_id - 1))

/-- `Console::execute`, as run by the shell process. -/
def execute (K : Kernel) (sh : Console) (cmd : Command) : Except Halt Console :=
  let need_pipe := decide (cmd.pipe_to > 0)
  match (if need_pipe then register_pipe K sh (to_int (cmd.proc_id + cmd.pipe_to - 1))
      else .ok sh) with
  | .error h => .error h
  | .ok sh1 =>
    if K.fork_ok sh1.procs.length then
      let sh2 := execute_parent K sh1 cmd
      if K.wait_ok sh1.procs.length then .ok sh2
      else .error (.exited 1 { sh2 with err := sh2.err ++ "Wait child failed.\n".toList })
    else
      .error (.exited 1 { sh1 with err := sh1.err ++ "fork child failed.\n".toList })

/-- `Console::execute_cmd`. -/
def execute_cmd (K : Kernel) : Console → List Command → Except Halt Console
  | sh, [] => .ok sh
  | sh, cmd :: rest =>
    if cmd.proc_id ≠ -1 then
      match execute K sh cmd with
      | .error h => .error h
      | .ok sh1 => execute_cmd K sh1 rest
    else
      match cmd.argv with
      | [] => .error .undefined
      | a0 :: _ =>
        .ok { sh with err := sh.err ++ "Unknown command: [".toList ++ a0 ++ "].\n".toList }

/-! ## The read loop: `run` (lines 59-73) -/

/-- `Console::get_MOTD`. -/
def get_MOTD : Str :=
  "****************************************\n".toList ++
  "** Welcome to the information server. **\n".toList ++
  "****************************************\n".toList

/-- The body of the `while` loop of `run` for the line held in `cmd_line`; the flag tells
whether the loop goes on (`false`: the `break` was taken). -/
def run_line (P : Parser) (K : Kernel) (sh : Console) : Except Halt (Bool × Console) :=
  let parsed := parse_cmd P sh sh.cmd_line
  match setup_cmd P K parsed.2 parsed.1 with
  | none => .error .undefined
  | some (commands, sh1) =>
    match execute_builtin_cmd sh1 commands with
    | none => .error .undefined
    | some (false, _, sh2) => .ok (false, sh2)
    | some (true, commands1, sh2) =>
      match execute_cmd K sh2 commands1 with
      | .error h => .error h
      | .ok sh3 => .ok (true, sh3)

/-- The `while (get_command())` loop of `run` on the lines still to be read from standard
input; `get_command` prints the prompt, then reads a line, and fails at the end of input. -/
def run_loop (P : Parser) (K : Kernel) : Console → List Str → Except Halt Console
  | sh, [] => .ok { sh with out := sh.out ++ "% ".toList }
  | sh, line :: lines =>
    match run_line P K { sh with out := sh.out ++ "% ".toList, cmd_line := line } with
    | .error h => .error h
    | .ok (false, sh1) => .ok sh1
    | .ok (true, sh1) => run_loop P K sh1 lines

/-- `Console::run`, with the lines that standard input holds. -/
def run (P : Parser) (K : Kernel) (sh : Console) (lines : List Str) : Except Halt Console :=
  run_loop P K { sh with out := sh.out ++ get_MOTD } lines

/-- The constructor `Console()`, in a process started with environment `env` and descriptor
table `fds`. -/
def Console.init (env : List (Str × Str)) (fds : FdTable) : Console :=
  { proc_counter := 0, env := setenv env "PATH".toList "bin:.".toList, fds := fds }

/-! ## A concrete setting for worked examples -/

/-- The loop of `split_chars`: `cur` is the token being read. -/
def split_chars_loop (delims : Str) : Str → Str → List Str
  | [], cur => if cur = [] then [] else [cur]
  | c :: cs, cur =>
    if c ∈ delims then
      if cur = [] then split_chars_loop delims cs [] else cur :: split_chars_loop delims cs []
    else split_chars_loop delims cs (cur ++ [c])

/-- Modelled from the spec: the tokenizer `split(text, delimiter)` of the Parser component,
whose text is not in `console.hpp`: the maximal runs of characters of `text` that are not
in `delims`, in order. -/
def split_chars (delims : Str) (text : Str) : List Str :=
  split_chars_loop delims text []

/-- Modelled from the spec: a Parser policy, `split(line)` cutting the line at blanks and
tabs. Used for worked examples only; every general statement below is about an arbitrary
`Parser`. -/
def parser_on_blanks : Parser :=
  { split := split_chars " \t".toList, split_by := fun text delims => split_chars delims text }

/-- A kernel in which every call succeeds and exactly the listed paths exist. -/
def kernel_with (files : List Str) : Kernel :=
  { access := fun path => decide (path ∈ files),
    can_open := fun _ => true,
    can_exec := fun path => decide (path ∈ files),
    fork_ok := fun _ => true,
    pipe_ok := fun _ => true,
    wait_ok := fun _ => true }

/-- The descriptor table of a shell started on a terminal: descriptors 0, 1 and 2 open. -/
def std_fds : FdTable :=
  [some (.stream 0), some (.stream 1), some (.stream 2)]

/-! ## Notions used in the statements -/

/-- Lines 244-247 of `execute` when no `pipe()` call fails: the state once the registry holds
an entry for the key `cmd.proc_id + cmd.pipe_to - 1` (an `int`) of a command with
`pipe_to > 0`. -/
def ensure_pipe (sh : Console) (cmd : Command) : Console :=
  if cmd.pipe_to > 0 then
    match sh.pipe_lookup.lookup (to_int (cmd.proc_id + cmd.pipe_to - 1)) with
    | some _ => sh
    | none => open_pipe sh (to_int (cmd.proc_id + cmd.pipe_to - 1))
  else sh

/-- The kernel never refuses a process, a pipe or a wait. -/
def Kernel.no_exhaustion (K : Kernel) : Prop :=
  (∀ k, K.fork_ok k = true) ∧ (∀ k, K.pipe_ok k = true) ∧ (∀ k, K.wait_ok k = true)

/-- The name of the command (`argv[0]` as `setup_cmd` leaves it) exists in one of the
directories `paths`: the test `access(dir + "/" + argv[0], F_OK) == 0` succeeds for
some `dir`. -/
def on_path (K : Kernel) (paths : List Str) (c : Command) : Bool :=
  paths.any (fun dir => K.access (testname dir (c.argv.headD [])))

/-- The commands of a pipeline `a | b | ... | z` as `execute_cmd` receives them when every
stage is resolved: process indices `p`, `p + 1`, ... (none of them the sentinel -1), no
output file, `pipe_to = 1` on every stage but the last and `pipe_to = 0` on the last. -/
def linear_pipeline : Int → List Command → Bool
  | _, [] => false
  | p, [c] => c.proc_id = p && c.proc_id ≠ -1 && c.filename = [] && c.pipe_to = 0
  | p, c :: c1 :: rest =>
    c.proc_id = p && c.proc_id ≠ -1 && c.filename = [] && c.pipe_to = 1
      && linear_pipeline (p + 1) (c1 :: rest)

/-- The state of the shell between two stages of a linear pipeline. Its standard input and
output are open. `inbound = none`: the registry is empty. `inbound = some (q, r, w)`: the
registry holds the single entry `key ↦ (r, w)`, where `r` and `w` are open on the read end
and the write end of pipe `q`, and are neither 0 nor 1. -/
def stage_inv (s : Console) (key : Int) (inbound : Option (Nat × Nat × Nat)) : Prop :=
  fd_get s.fds 0 ≠ none ∧ fd_get s.fds 1 ≠ none ∧
  match inbound with
  | none => s.pipe_lookup = []
  | some (q, r, w) =>
    s.pipe_lookup = [(key, (r, w))] ∧
    fd_get s.fds r = some (.pipe_read q) ∧ fd_get s.fds w = some (.pipe_write q) ∧
    r ≠ 0 ∧ r ≠ 1 ∧ w ≠ 0 ∧ w ≠ 1 ∧ r ≠ w

/-- The standard input that the stage launched next from state `s` gets, by `stage_inv`: the
read end of the inbound pipe if there is one, else the shell's own standard input. -/
def stage_stdin (s : Console) (inbound : Option (Nat × Nat × Nat)) : Option FileObj :=
  match inbound with
  | none => fd_get s.fds 0
  | some (q, _, _) => some (.pipe_read q)

/-- The pipe registry agrees with the descriptor table of the shell: descriptors 0 and 1
are open; the two descriptors of every registered pipe are open, differ from each other and
are neither 0 nor 1; pipes registered under different keys share no descriptor. This is so
for a fresh `Console` in a shell started with standard input and output open, and
`register_pipe` and `unregister_pipe` keep it so (`pipe()` hands out descriptors that are
not open). -/
def registry_ok (s : Console) : Prop :=
  fd_get s.fds 0 ≠ none ∧ fd_get s.fds 1 ≠ none ∧
  (∀ k r w, s.pipe_lookup.lookup k = some (r, w) →
    r ≠ 0 ∧ r ≠ 1 ∧ w ≠ 0 ∧ w ≠ 1 ∧ r ≠ w ∧ fd_get s.fds r ≠ none ∧ fd_get s.fds w ≠ none) ∧
  (∀ k1 k2 r1 w1 r2 w2, k1 ≠ k2 → s.pipe_lookup.lookup k1 = some (r1, w1) →
    s.pipe_lookup.lookup k2 = some (r2, w2) → r1 ≠ r2 ∧ r1 ≠ w2 ∧ w1 ≠ r2 ∧ w1 ≠ w2)

/-- The read ends of pipes in the descriptor table of the shell: each belongs to a pipe
created so far and is open at one descriptor only. This is so for a shell started without a
pipe among its descriptors, and `register_pipe` and `unregister_pipe` keep it so (the shell
never duplicates a descriptor; only a child does, in its own table). -/
def read_ends_ok (s : Console) : Prop :=
  (∀ j p, fd_get s.fds j = some (.pipe_read p) → p < s.pipes) ∧
  (∀ j1 j2 p, fd_get s.fds j1 = some (.pipe_read p) →
    fd_get s.fds j2 = some (.pipe_read p) → j1 = j2)

/-! # Theorems -/

/-! ## The pipeline parser -/

theorem parse_loop_flatten (toks : List Str) (res : List (List Str)) (cur : List Str) :
    (parse_loop toks res cur).1.flatten ++ (parse_loop toks res cur).2
      = res.flatten ++ cur ++ toks := by
  induction toks generalizing res cur with
  | nil => simp [parse_loop]
  | cons t toks ih =>
    simp only [parse_loop]
    split
    · rw [ih]; simp
    · rw [ih]; simp

theorem parse_loop_no_pipe (toks : List Str) (res : List (List Str)) (cur : List Str)
    (h : ∀ u ∈ toks, '|' ∉ u) : parse_loop toks res cur = (res, cur ++ toks) := by
  induction toks generalizing res cur with
  | nil => simp [parse_loop]
  | cons t toks ih =>
    have ht : '|' ∉ t := h t (by simp)
    simp only [parse_loop, ht, decide_False, Bool.false_eq_true, if_false]
    rw [ih _ _ (fun u hu => h u (by simp [hu]))]
    simp

theorem parse_loop_closed (toks : List Str) (res : List (List Str)) (cur : List Str)
    (hres : ∀ seg ∈ res, (∃ t, seg.getLast? = some t ∧ '|' ∈ t) ∧ ∀ u ∈ seg.dropLast, '|' ∉ u)
    (hcur : ∀ u ∈ cur, '|' ∉ u) :
    (∀ seg ∈ (parse_loop toks res cur).1,
      (∃ t, seg.getLast? = some t ∧ '|' ∈ t) ∧ ∀ u ∈ seg.dropLast, '|' ∉ u) ∧
    (∀ u ∈ (parse_loop toks res cur).2, '|' ∉ u) := by
  induction toks generalizing res cur with
  | nil => simpa [parse_loop] using ⟨hres, hcur⟩
  | cons t toks ih =>
    simp only [parse_loop]
    split
    · rename_i ht
      apply ih
      · intro seg hseg
        rcases List.mem_append.1 hseg with h | h
        · exact hres seg h
        · simp only [List.mem_singleton] at h
          subst h
          refine ⟨⟨t, by simp, by simpa using ht⟩, ?_⟩
          simpa using hcur
      · simp
    · rename_i ht
      apply ih _ _ hres
      intro u hu
      rcases List.mem_append.1 hu with h | h
      · exact hcur u h
      · simp only [List.mem_singleton] at h
        subst h
        simpa using ht

theorem parse_loop_tail (pre : List Str) (t : Str) (post : List Str) (res : List (List Str))
    (cur : List Str) (ht : '|' ∈ t) (hpost : ∀ u ∈ post, '|' ∉ u) :
    (parse_loop (pre ++ t :: post) res cur).2 = post := by
  induction pre generalizing res cur with
  | nil =>
    simp only [List.nil_append, parse_loop, ht, decide_True, if_true]
    rw [parse_loop_no_pipe _ _ _ hpost]; simp
  | cons x pre ih =>
    simp only [List.cons_append, parse_loop]
    split <;> exact ih _ _

/-- What `parse_cmd` returns for a line without a path separator. -/
theorem parse_cmd_eq (P : Parser) (sh : Console) (line : Str) (h : '/' ∉ line) :
    parse_cmd P sh line =
      (if (parse_loop (P.split line) [] []).2 = [] then (parse_loop (P.split line) [] []).1
        else (parse_loop (P.split line) [] []).1 ++ [(parse_loop (P.split line) [] []).2], sh) := by
  unfold parse_cmd
  simp only [h, if_false]
  by_cases h2 : (parse_loop (P.split line) [] []).2 = []
  · simp [h2]
  · have : (parse_loop (P.split line) [] []).2.length ≠ 0 := by
      simpa [List.length_eq_zero] using h2
    simp [h2]

/-- C5: for a line without the path separator, the segments of `parse_cmd` concatenate to
the tokens of `split`; inside a segment only the last token can hold the pipe symbol; every
segment but the final one ends with a pipe-bearing token; the tokens after the last
pipe-bearing token make up the final segment; and there is no segment exactly when there is
no token. -/
theorem parse_cmd_partitions_tokens (P : Parser) (sh : Console) (line : Str)
    (hline : '/' ∉ line) :
    (parse_cmd P sh line).1.flatten = P.split line ∧
    (∀ seg ∈ (parse_cmd P sh line).1, ∀ u ∈ seg.dropLast, '|' ∉ u) ∧
    (∀ seg ∈ (parse_cmd P sh line).1.dropLast, ∃ t, seg.getLast? = some t ∧ '|' ∈ t) ∧
    (∀ pre t post, P.split line = pre ++ t :: post → '|' ∈ t → (∀ u ∈ post, '|' ∉ u) →
      post ≠ [] → (parse_cmd P sh line).1.getLast? = some post) ∧
    ((parse_cmd P sh line).1 = [] ↔ P.split line = []) := by
  have hfl := parse_loop_flatten (P.split line) [] []
  have hcl := parse_loop_closed (P.split line) [] [] (by simp) (by simp)
  rw [parse_cmd_eq P sh line hline]
  simp only [List.flatten_nil, List.nil_append] at hfl
  by_cases h2 : (parse_loop (P.split line) [] []).2 = []
  · simp only [h2, if_true]
    rw [h2, List.append_nil] at hfl
    refine ⟨hfl, fun seg hs => (hcl.1 seg hs).2, fun seg hs => (hcl.1 seg (List.mem_of_mem_dropLast hs)).1, ?_, ?_⟩
    · intro pre t post hsplit ht hpost hne
      have := parse_loop_tail pre t post [] [] ht hpost
      rw [← hsplit, h2] at this
      exact absurd this.symm hne
    · constructor
      · intro h; rw [← hfl, h]; rfl
      · intro h
        cases hr : (parse_loop (P.split line) [] []).1 with
        | nil => rfl
        | cons seg rest =>
          exfalso
          obtain ⟨⟨t, ht, _⟩, _⟩ := hcl.1 seg (by simp [hr])
          rw [hr, h] at hfl
          simp at hfl
          simp [hfl.1] at ht
  · simp only [h2, if_false]
    refine ⟨by simpa using hfl, ?_, ?_, ?_, ?_⟩
    · intro seg hs u hu
      rcases List.mem_append.1 hs with h | h
      · exact (hcl.1 seg h).2 u hu
      · simp only [List.mem_singleton] at h
        subst h
        exact hcl.2 u (List.mem_of_mem_dropLast hu)
    · intro seg hs
      rw [List.dropLast_concat] at hs
      exact (hcl.1 seg hs).1
    · intro pre t post hsplit ht hpost _
      have := parse_loop_tail pre t post [] [] ht hpost
      rw [← hsplit] at this
      simp [this]
    · constructor
      · intro h; simp at h
      · intro h
        rw [h] at h2
        simp [parse_loop] at h2

theorem parse_cmd_partitions_tokens_witness :
    '/' ∉ "ls -l | cat".toList ∧
    (parse_cmd parser_on_blanks {} "ls -l | cat".toList).1.flatten
      = parser_on_blanks.split "ls -l | cat".toList ∧
    ((parse_cmd parser_on_blanks {} "ls -l | cat".toList).1 = []
      ↔ parser_on_blanks.split "ls -l | cat".toList = []) :=
  ⟨by decide,
   (parse_cmd_partitions_tokens parser_on_blanks {} "ls -l | cat".toList (by decide)).1,
   (parse_cmd_partitions_tokens parser_on_blanks {} "ls -l | cat".toList (by decide)).2.2.2.2⟩

/-! ## Registry keys are `int` values -/

theorem to_int_of_range (x : Int) (h1 : -(2 ^ 31) ≤ x) (h2 : x < 2 ^ 31) : to_int x = x := by
  unfold to_int
  norm_num at h1 h2 ⊢
  omega

theorem to_int_ne (a b : Int) (h1 : 0 < b - a) (h2 : b - a < 2 ^ 32) : to_int a ≠ to_int b := by
  unfold to_int
  norm_num at h1 h2 ⊢
  omega

theorem to_int_beq (a b : Int) (h1 : 0 < b - a) (h2 : b - a < 2 ^ 32) :
    (to_int a == to_int b) = false ∧ (to_int b == to_int a) = false := by
  have h := to_int_ne a b h1 h2
  exact ⟨beq_eq_false_iff_ne.mpr h, beq_eq_false_iff_ne.mpr (Ne.symm h)⟩

/-! ## The launcher: what one `execute` does -/

theorem execute_eq (K : Kernel) (sh : Console) (cmd : Command) (hK : K.no_exhaustion) :
    execute K sh cmd = .ok (execute_parent K (ensure_pipe sh cmd) cmd) := by
  obtain ⟨hf, hp, hw⟩ := hK
  unfold execute ensure_pipe register_pipe
  by_cases h : cmd.pipe_to > 0
  · cases hl : sh.pipe_lookup.lookup (to_int (cmd.proc_id + cmd.pipe_to - 1)) <;>
      simp [h, hl, hf, hp, hw]
  · simp [h, hf, hw]

@[simp] theorem unregister_pipe_procs (sh : Console) (k : Int) :
    (unregister_pipe sh k).procs = sh.procs := by
  unfold unregister_pipe; split <;> rfl

@[simp] theorem unregister_pipe_err (sh : Console) (k : Int) :
    (unregister_pipe sh k).err = sh.err := by
  unfold unregister_pipe; split <;> rfl

@[simp] theorem unregister_pipe_out (sh : Console) (k : Int) :
    (unregister_pipe sh k).out = sh.out := by
  unfold unregister_pipe; split <;> rfl

@[simp] theorem ensure_pipe_procs (sh : Console) (cmd : Command) :
    (ensure_pipe sh cmd).procs = sh.procs := by
  unfold ensure_pipe open_pipe; split
  · split <;> rfl
  · rfl

@[simp] theorem ensure_pipe_err (sh : Console) (cmd : Command) :
    (ensure_pipe sh cmd).err = sh.err := by
  unfold ensure_pipe open_pipe; split
  · split <;> rfl
  · rfl

@[simp] theorem ensure_pipe_out (sh : Console) (cmd : Command) :
    (ensure_pipe sh cmd).out = sh.out := by
  unfold ensure_pipe open_pipe; split
  · split <;> rfl
  · rfl

@[simp] theorem execute_parent_procs (K : Kernel) (sh : Console) (cmd : Command) :
    (execute_parent K sh cmd).procs = sh.procs ++ [execute_child K sh cmd] := by
  simp [execute_parent]

@[simp] theorem execute_parent_err (K : Kernel) (sh : Console) (cmd : Command) :
    (execute_parent K sh cmd).err = sh.err := by
  simp [execute_parent]

@[simp] theorem execute_parent_out (K : Kernel) (sh : Console) (cmd : Command) :
    (execute_parent K sh cmd).out = sh.out := by
  simp [execute_parent]

@[simp] theorem exec_child_argv (K : Kernel) (cmd : Command) (t : FdTable) :
    (exec_child K cmd t).argv = cmd.argv := by
  unfold exec_child; split <;> rfl

@[simp] theorem exec_child_fds (K : Kernel) (cmd : Command) (t : FdTable) :
    (exec_child K cmd t).fds = t := by
  unfold exec_child; split <;> rfl

@[simp] theorem execute_child_argv (K : Kernel) (sh : Console) (cmd : Command) :
    (execute_child K sh cmd).argv = cmd.argv := by
  unfold execute_child
  simp only
  split
  · split <;> simp
  · simp

/-! ## C1 -/

/-- C1: for a line that holds the path separator, `parse_cmd` returns no segment and emits
exactly the rejection message; `setup_cmd` then builds no command, `execute_builtin_cmd`
returns true, `execute_cmd` launches nothing, and the whole pass of the read loop leaves the
state as it was but for that message (in particular the list of children). -/
theorem path_separator_rejects_line (P : Parser) (K : Kernel) (sh : Console)
    (line path_all : Str) (hsep : '/' ∈ line)
    (hpath : getenv sh.env "PATH".toList = some path_all) :
    parse_cmd P sh line = ([], { sh with out := sh.out ++ "Permission denied.\n".toList }) ∧
    setup_cmd P K (parse_cmd P sh line).2 (parse_cmd P sh line).1
      = some ([], (parse_cmd P sh line).2) ∧
    execute_builtin_cmd (parse_cmd P sh line).2 [] = some (true, [], (parse_cmd P sh line).2) ∧
    execute_cmd K (parse_cmd P sh line).2 [] = .ok (parse_cmd P sh line).2 ∧
    run_line P K { sh with cmd_line := line }
      = .ok (true, { sh with cmd_line := line, out := sh.out ++ "Permission denied.\n".toList }) ∧
    (parse_cmd P sh line).2.procs = sh.procs := by
  have hparse : ∀ s : Console, parse_cmd P s line
      = ([], { s with out := s.out ++ "Permission denied.\n".toList }) := by
    intro s; simp [parse_cmd, hsep]
  have hsetup : ∀ s : Console, s.env = sh.env → setup_cmd P K s [] = some ([], s) := by
    intro s hs
    unfold setup_cmd verify_cmd
    simp only [setup_loop, hs, hpath, verify_loop]
    rw [← hs]
  rw [hparse sh]
  refine ⟨rfl, hsetup _ rfl, by simp [execute_builtin_cmd, builtin_loop], by simp [execute_cmd], ?_, rfl⟩
  simp only [run_line, hparse]
  rw [hsetup { sh with cmd_line := line, out := sh.out ++ "Permission denied.\n".toList } rfl]
  simp [execute_builtin_cmd, builtin_loop, execute_cmd]

theorem path_separator_rejects_line_witness :
    '/' ∈ "bin/ls".toList ∧
    getenv (Console.init [] std_fds).env "PATH".toList = some "bin:.".toList ∧
    run_line parser_on_blanks (kernel_with []) { Console.init [] std_fds with cmd_line := "bin/ls".toList }
      = .ok (true, { Console.init [] std_fds with
          cmd_line := "bin/ls".toList, out := "Permission denied.\n".toList }) :=
  ⟨by decide, by decide,
   (path_separator_rejects_line parser_on_blanks (kernel_with []) (Console.init [] std_fds)
      "bin/ls".toList "bin:.".toList (by decide) (by decide)).2.2.2.2.1⟩

/-! ## C3 -/

/-- C3: when the kernel refuses nothing, `execute_cmd` launches one child for each command
that precedes the first command with `proc_id = -1`, in order and each for its own command,
and no other; when there is such a command, the one message naming its `argv[0]` is what
is added to the error stream (nothing is added otherwise); standard output is untouched. -/
theorem execute_cmd_stops_at_unresolved (K : Kernel) (sh : Console) (commands : List Command)
    (hK : K.no_exhaustion)
    (hargv : ∀ c, (commands.dropWhile (fun c => decide (c.proc_id ≠ -1))).head? = some c →
      c.argv ≠ []) :
    ∃ sh1 launched,
      execute_cmd K sh commands = .ok sh1 ∧
      sh1.procs = sh.procs ++ launched ∧
      launched.map Proc.argv
        = (commands.takeWhile (fun c => decide (c.proc_id ≠ -1))).map Command.argv ∧
      List.Forall₂ (fun p c => ∃ s, p = execute_child K s c) launched
        (commands.takeWhile (fun c => decide (c.proc_id ≠ -1))) ∧
      sh1.err = sh.err ++
        (match commands.dropWhile (fun c => decide (c.proc_id ≠ -1)) with
         | [] => []
         | c :: _ => "Unknown command: [".toList ++ c.argv.headD [] ++ "].\n".toList) ∧
      sh1.out = sh.out := by
  induction commands generalizing sh with
  | nil => exact ⟨sh, [], by simp [execute_cmd]⟩
  | cons cmd rest ih =>
    by_cases h : cmd.proc_id = -1
    · have hne : cmd.argv ≠ [] := hargv cmd (by simp [List.dropWhile, h])
      obtain ⟨a0, args, ha⟩ := List.exists_cons_of_ne_nil hne
      refine ⟨{ sh with err := sh.err ++ "Unknown command: [".toList ++ a0 ++ "].\n".toList }, [], ?_⟩
      simp [execute_cmd, h, ha, List.takeWhile, List.dropWhile]
    · have hrest : ∀ c, (rest.dropWhile (fun c => decide (c.proc_id ≠ -1))).head? = some c →
          c.argv ≠ [] := by
        intro c hc
        apply hargv c
        simpa [List.dropWhile, h] using hc
      obtain ⟨sh1, launched, hex, hprocs, hargvs, hall, herr, hout⟩ :=
        ih (execute_parent K (ensure_pipe sh cmd) cmd) hrest
      refine ⟨sh1, execute_child K (ensure_pipe sh cmd) cmd :: launched, ?_, ?_, ?_, ?_, ?_, ?_⟩
      · simp [execute_cmd, h, execute_eq K sh cmd hK, hex]
      · simp [hprocs]
      · simp [List.takeWhile, h, hargvs]
      · simp only [List.takeWhile, h, ne_eq, not_false_eq_true, decide_True]
        exact List.Forall₂.cons ⟨_, rfl⟩ hall
      · simpa [List.dropWhile, h] using herr
      · simpa using hout

theorem execute_cmd_stops_at_unresolved_witness :
    ∃ sh1 launched,
      execute_cmd (kernel_with []) (Console.init [] std_fds)
        [{ proc_id := 0, argv := ["bin/a".toList] }, { argv := ["x".toList], pipe_to := 1 },
         { proc_id := 1, argv := ["bin/b".toList] }] = .ok sh1 ∧
      sh1.procs = launched ∧
      launched.map Proc.argv = [["bin/a".toList]] ∧
      sh1.err = "Unknown command: [x].\n".toList := by
  obtain ⟨sh1, launched, h1, h2, h3, _, h5, _⟩ :=
    execute_cmd_stops_at_unresolved (kernel_with []) (Console.init [] std_fds)
      [{ proc_id := 0, argv := ["bin/a".toList] }, { argv := ["x".toList], pipe_to := 1 },
       { proc_id := 1, argv := ["bin/b".toList] }]
      ⟨fun _ => rfl, fun _ => rfl, fun _ => rfl⟩ (by decide)
  exact ⟨sh1, launched, h1, by simpa [Console.init] using h2, by simpa using h3, by simpa [Console.init] using h5⟩

/-! ## The resolver -/

theorem verify_paths_cons (K : Kernel) (a0 : Str) (args : List Str) (paths : List Str) :
    verify_paths K (a0 :: args) paths
      = some ((paths.find? (fun dir => K.access (testname dir a0))).map
          (fun dir => testname dir a0 :: args)) := by
  induction paths with
  | nil => rfl
  | cons d paths ih =>
    simp only [verify_paths, is_file_exist, List.find?]
    cases h : K.access (testname d a0)
    · simpa using ih
    · simp

theorem any_eq_find_isSome {α : Type} (p : α → Bool) (l : List α) :
    l.any p = (l.find? p).isSome := by
  induction l with
  | nil => rfl
  | cons x l ih =>
    simp only [List.any_cons, List.find?]
    cases h : p x <;> simp [ih]

theorem verify_loop_spec (K : Kernel) (paths : List Str) (commands : List Command)
    (counter : Int) (hargv : ∀ c ∈ commands, c.argv ≠ []) :
    ∃ commands1,
      verify_loop K paths counter commands
        = some (commands1, counter + ((commands.takeWhile (on_path K paths)).length : Nat)) ∧
      commands1.length = commands.length ∧
      commands1.map Command.proc_id
        = (List.range (commands.takeWhile (on_path K paths)).length).map
            (fun (i : Nat) => counter + (i : Int))
          ++ (commands.drop (commands.takeWhile (on_path K paths)).length).map Command.proc_id := by
  induction commands generalizing counter with
  | nil => exact ⟨[], by simp [verify_loop]⟩
  | cons cmd rest ih =>
    obtain ⟨a0, args, ha⟩ := List.exists_cons_of_ne_nil (hargv cmd (by simp))
    have hon : on_path K paths cmd
        = (paths.find? (fun dir => K.access (testname dir a0))).isSome := by
      simp [on_path, ha, any_eq_find_isSome]
    cases hf : paths.find? (fun dir => K.access (testname dir a0)) with
    | none =>
      rw [hf] at hon
      refine ⟨cmd :: rest, ?_⟩
      simp [verify_loop, ha, verify_paths_cons, hf, List.takeWhile, hon]
    | some d =>
      rw [hf] at hon
      obtain ⟨rest1, h1, h2, h3⟩ := ih (counter + 1) (fun c hc => hargv c (by simp [hc]))
      refine ⟨{ cmd with proc_id := counter, argv := testname d a0 :: args } :: rest1, ?_, ?_, ?_⟩
      · simp only [verify_loop, ha, verify_paths_cons, hf, Option.map_some', h1, List.takeWhile, hon,
          Option.isSome_some, List.length_cons]
        congr 2
        push_cast
        ring
      · simp [h2]
      · simp only [List.map_cons, h3, List.takeWhile, hon, Option.isSome_some, List.length_cons,
          List.drop_succ_cons, List.range_succ_eq_map, List.map_map, List.cons_append]
        congr 2
        · simp
        · apply List.map_congr_left
          intro i _
          simp only [Function.comp, Nat.succ_eq_add_one]
          push_cast
          ring

/-- C4: with `PATH` set, commands that all have a non-empty `argv` and are fresh from
`setup_cmd` (`proc_id = -1`), and a counter that is not negative: `verify_cmd` returns, and
with `k` the length of the longest prefix of commands whose names all exist in some `PATH`
directory, the first `k` commands get the consecutive indices `proc_counter`,
`proc_counter + 1`, ... (none of them -1) while the command at position `k` and all later
ones keep -1; the counter advances by `k`. -/
theorem verify_cmd_resolves_longest_prefix (P : Parser) (K : Kernel) (sh : Console)
    (commands : List Command) (path_all : Str)
    (hpath : getenv sh.env "PATH".toList = some path_all)
    (hargv : ∀ c ∈ commands, c.argv ≠ [])
    (hfresh : ∀ c ∈ commands, c.proc_id = -1)
    (hctr : 0 ≤ sh.proc_counter) :
    ∃ commands1 sh1,
      verify_cmd P K sh commands = some (commands1, sh1) ∧
      commands1.length = commands.length ∧
      commands1.map Command.proc_id
        = (List.range
            (commands.takeWhile (on_path K (P.split_by path_all ":".toList))).length).map
            (fun (i : Nat) => sh.proc_counter + (i : Int))
          ++ List.replicate
            (commands.length
              - (commands.takeWhile (on_path K (P.split_by path_all ":".toList))).length) (-1) ∧
      (∀ c ∈ commands1.take
          (commands.takeWhile (on_path K (P.split_by path_all ":".toList))).length,
        c.proc_id ≠ -1) ∧
      (∀ c ∈ commands1.drop
          (commands.takeWhile (on_path K (P.split_by path_all ":".toList))).length,
        c.proc_id = -1) ∧
      sh1.proc_counter = sh.proc_counter
        + ((commands.takeWhile (on_path K (P.split_by path_all ":".toList))).length : Nat) := by
  obtain ⟨commands1, h1, h2, h3⟩ :=
    verify_loop_spec K (P.split_by path_all ":".toList) commands sh.proc_counter hargv
  generalize hk : (commands.takeWhile (on_path K (P.split_by path_all ":".toList))).length = k
    at h1 h3 ⊢
  have hdrop : (commands.drop k).map Command.proc_id = List.replicate (commands.length - k) (-1) := by
    apply List.eq_replicate_iff.2
    refine ⟨by simp, ?_⟩
    intro x hx
    obtain ⟨c, hc, rfl⟩ := List.mem_map.1 hx
    exact hfresh c (List.mem_of_mem_drop hc)
  rw [hdrop] at h3
  have htake : (commands1.take k).map Command.proc_id
      = (List.range k).map (fun (i : Nat) => sh.proc_counter + (i : Int)) := by
    rw [List.map_take, h3, List.take_left']
    simp
  have hdrop1 : (commands1.drop k).map Command.proc_id
      = List.replicate (commands.length - k) (-1) := by
    rw [List.map_drop, h3, List.drop_left']
    simp
  refine ⟨commands1, { sh with proc_counter := sh.proc_counter + (k : Nat) }, ?_, h2, h3, ?_, ?_, rfl⟩
  · unfold verify_cmd
    simp only [hpath, h1]
  · intro c hc
    have : c.proc_id ∈ (commands1.take k).map Command.proc_id := List.mem_map_of_mem _ hc
    rw [htake] at this
    obtain ⟨i, _, hi⟩ := List.mem_map.1 this
    omega
  · intro c hc
    have : c.proc_id ∈ (commands1.drop k).map Command.proc_id := List.mem_map_of_mem _ hc
    rw [hdrop1] at this
    exact (List.mem_replicate.1 this).2

theorem verify_cmd_resolves_longest_prefix_witness :
    ∃ commands1 sh1,
      verify_cmd parser_on_blanks (kernel_with ["bin/a".toList, "./b".toList, "bin/d".toList])
        (Console.init [] std_fds)
        [{ argv := ["a".toList] }, { argv := ["b".toList] }, { argv := ["c".toList] },
         { argv := ["d".toList] }] = some (commands1, sh1) ∧
      commands1.map Command.proc_id = [0, 1, -1, -1] ∧
      sh1.proc_counter = 2 := by
  obtain ⟨commands1, sh1, h1, _, h3, _, _, h6⟩ :=
    verify_cmd_resolves_longest_prefix parser_on_blanks
      (kernel_with ["bin/a".toList, "./b".toList, "bin/d".toList]) (Console.init [] std_fds)
      [{ argv := ["a".toList] }, { argv := ["b".toList] }, { argv := ["c".toList] },
       { argv := ["d".toList] }] "bin:.".toList (by decide) (by decide) (by decide) (by decide)
  refine ⟨commands1, sh1, h1, ?_, ?_⟩
  · rw [h3]; decide
  · rw [h6]; decide

/-! ## The command builder -/

theorem digits_value_append (L ds : List Char) (acc : Nat) (hL : ∀ c ∈ L, c.isDigit = true) :
    digits_value (L ++ ds) acc
      = digits_value ds (L.foldl (fun a c => a * 10 + (c.toNat - 48)) acc) := by
  induction L generalizing acc with
  | nil => rfl
  | cons c L ih =>
    have hc : c.isDigit = true := hL c (by simp)
    simp only [List.cons_append, digits_value, hc, if_true, List.foldl_cons]
    exact ih _ (fun x hx => hL x (by simp [hx]))

theorem digitChar_isDigit (d : Nat) (hd : d < 10) :
    (Nat.digitChar d).isDigit = true ∧ (Nat.digitChar d).toNat - 48 = d := by
  interval_cases d <;> exact ⟨by decide, by decide⟩

theorem toDigitsCore_spec (n : Nat) : ∀ fuel, n < fuel →
    ∃ L : List Char, (∀ ds, Nat.toDigitsCore 10 fuel n ds = L ++ ds) ∧
      (∀ c ∈ L, c.isDigit = true) ∧ L ≠ [] ∧
      L.foldl (fun a c => a * 10 + (c.toNat - 48)) 0 = n := by
  induction n using Nat.strong_induction_on with
  | _ n ih =>
    intro fuel hfuel
    obtain ⟨f, rfl⟩ : ∃ f, fuel = f + 1 := ⟨fuel - 1, by omega⟩
    have hd := digitChar_isDigit (n % 10) (Nat.mod_lt _ (by decide))
    by_cases h0 : n / 10 = 0
    · refine ⟨[Nat.digitChar (n % 10)], ?_, ?_, by simp, ?_⟩
      · intro ds; simp [Nat.toDigitsCore, h0]
      · simpa using hd.1
      · simp only [List.foldl_cons, List.foldl_nil, hd.2]
        omega
    · obtain ⟨L, hL1, hL2, _, hL4⟩ := ih (n / 10) (by omega) f (by omega)
      refine ⟨L ++ [Nat.digitChar (n % 10)], ?_, ?_, by simp, ?_⟩
      · intro ds; simp [Nat.toDigitsCore, h0, hL1]
      · intro c hc
        rcases List.mem_append.1 hc with h | h
        · exact hL2 c h
        · simp only [List.mem_singleton] at h; rw [h]; exact hd.1
      · simp only [List.foldl_append, hL4, List.foldl_cons, List.foldl_nil, hd.2]
        omega

theorem isDigit_not_space (c : Char) (hc : c.isDigit = true) : is_space c = false := by
  cases h : is_space c
  · rfl
  · exfalso
    simp only [is_space, Bool.or_eq_true, decide_eq_true_eq] at h
    rcases h with ((((h | h) | h) | h) | h) | h <;> rw [h] at hc <;> exact absurd hc (by decide)

/-- `atoi` on the decimal digits of a number that fits in an `int`. -/
theorem atoi_toDigits (N : Nat) (hN : N < 2 ^ 31) : atoi (Nat.toDigits 10 N) = N := by
  obtain ⟨L, hL1, hL2, hL3, hL4⟩ := toDigitsCore_spec N (N + 1) (by omega)
  have hL : Nat.toDigits 10 N = L := by simpa [Nat.toDigits] using hL1 []
  obtain ⟨c, cs, rfl⟩ := List.exists_cons_of_ne_nil hL3
  have hc : c.isDigit = true := hL2 c (by simp)
  have hval : digits_value (c :: cs) 0 = N := by
    have := digits_value_append (c :: cs) [] 0 hL2
    simpa [digits_value, hL4] using this
  have hfits : to_int (clamp_long (N : Int)) = N := by
    have h63 : (N : Int) < 2 ^ 31 := by exact_mod_cast hN
    simp only [clamp_long, to_int]
    norm_num at h63 ⊢
    split_ifs <;> omega
  rw [hL]
  unfold atoi
  have hdw : (c :: cs).dropWhile is_space = c :: cs := by
    simp [List.dropWhile, isDigit_not_space c hc]
  rw [hdw]
  split
  · rename_i ds heq
    simp only [List.cons.injEq] at heq
    rw [heq.1] at hc
    exact absurd hc (by decide)
  · rename_i ds heq
    simp only [List.cons.injEq] at heq
    rw [heq.1] at hc
    exact absurd hc (by decide)
  · rw [hval]; exact hfits

theorem exists_snoc {α : Type} (l : List α) (h : l ≠ []) : ∃ init y, l = init ++ [y] :=
  ⟨l.dropLast, l.getLast h, (List.dropLast_concat_getLast h).symm⟩

theorem setup_pipe_concat (front : List Str) (back : Str) :
    setup_pipe (front ++ [back])
      = some (if '|' ∈ back then
                ((if back.length ≠ 1 then atoi (back.drop 1) else 1), front)
              else (0, front ++ [back])) := by
  unfold setup_pipe
  rw [List.getLast?_concat]
  simp only [List.dropLast_concat]
  split <;> rfl

theorem setup_file_redirect (pre : List Str) (f : Str) (hpre : pre ≠ []) :
    setup_file (pre ++ [">".toList, f]) = (f, pre) := by
  have hlen : (pre ++ [">".toList, f]).length = pre.length + 2 := by simp
  have hpos : 0 < pre.length := List.length_pos.2 hpre
  unfold setup_file
  rw [hlen]
  have h1 : (pre ++ [">".toList, f]).getD (pre.length + 2 - 2) [] = ">".toList := by
    rw [Nat.add_sub_cancel, List.getD_append_right _ _ _ _ (le_refl _)]
    simp
  rw [h1]
  simp only [gt_iff_lt, show 2 < pre.length + 2 by omega, if_true, Nat.add_sub_cancel,
    List.take_left']
  congr 1
  have := List.getLastD_concat [] f (pre ++ [">".toList])
  rwa [List.append_assoc, List.singleton_append] at this

/-- The two cases of lines 131-138. -/
theorem setup_file_spec (rem : List Str) :
    (2 < rem.length ∧ rem.dropLast.getLast? = some ">".toList →
      setup_file rem = (rem.getLastD [], rem.dropLast.dropLast)) ∧
    (rem.length ≤ 2 ∨ rem.dropLast.getLast? ≠ some ">".toList →
      setup_file rem = ([], rem)) := by
  constructor
  · rintro ⟨hlen, hgt⟩
    obtain ⟨init, y, rfl⟩ := exists_snoc rem (by intro h; subst h; simp at hlen)
    rw [List.dropLast_concat] at hgt
    obtain ⟨pre, x, rfl⟩ := exists_snoc init (by intro h; subst h; simp at hgt)
    have hx : x = ">".toList := by
      rw [List.getLast?_concat] at hgt
      exact Option.some.inj hgt
    subst hx
    have hpre : pre ≠ [] := by
      intro h; subst h; simp at hlen
    have := setup_file_redirect pre y hpre
    rw [List.append_assoc, List.singleton_append, this, ← List.singleton_append,
      ← List.append_assoc, List.getLastD_concat, List.dropLast_concat, List.dropLast_concat]
  · intro h
    unfold setup_file
    by_cases hlen : rem.length > 2
    · rcases h with h | h
      · omega
      · obtain ⟨init, y, rfl⟩ := exists_snoc rem (by intro h; subst h; simp at hlen)
        obtain ⟨pre, x, rfl⟩ := exists_snoc init (by intro h; subst h; simp at hlen)
        have hx : x ≠ ">".toList := by
          rw [List.dropLast_concat, List.getLast?_concat] at h
          exact fun e => h (by rw [e])
        have h1 : (pre ++ [x] ++ [y]).getD ((pre ++ [x] ++ [y]).length - 2) [] = x := by
          have : (pre ++ [x] ++ [y]).length - 2 = pre.length := by simp
          rw [this, List.append_assoc, List.getD_append_right _ _ _ _ (le_refl _)]
          simp
        rw [h1]
        simp only [hlen, if_true, hx, if_false]
    · simp [hlen]

theorem setup_file_keeps_front (rem : List Str) : ∃ rest, rem = (setup_file rem).2 ++ rest := by
  unfold setup_file
  split
  · split
    · exact ⟨rem.drop (rem.length - 2), (List.take_append_drop _ _).symm⟩
    · exact ⟨[], by simp⟩
  · exact ⟨[], by simp⟩

theorem setup_loop_spec (segs : List (List Str)) (hseg : ∀ seg ∈ segs, seg ≠ []) :
    ∃ cmds, setup_loop segs = some cmds ∧
      List.Forall₂ (fun c seg => setup_one seg = some c) cmds segs := by
  induction segs with
  | nil => exact ⟨[], rfl, List.Forall₂.nil⟩
  | cons seg segs ih =>
    obtain ⟨cmds, h1, h2⟩ := ih (fun s hs => hseg s (by simp [hs]))
    obtain ⟨front, back, rfl⟩ := exists_snoc seg (hseg seg (by simp))
    have hone : ∃ c, setup_one (front ++ [back]) = some c := by
      unfold setup_one
      rw [setup_pipe_concat]
      exact ⟨_, rfl⟩
    obtain ⟨c, hc⟩ := hone
    exact ⟨c :: cmds, by simp [setup_loop, hc, h1], List.Forall₂.cons hc h2⟩

theorem verify_loop_frame (K : Kernel) (paths : List Str) (commands : List Command) :
    ∀ (counter : Int) (commands1 : List Command) (counter1 : Int),
      verify_loop K paths counter commands = some (commands1, counter1) →
      List.Forall₂ (fun c1 c => c1.pipe_to = c.pipe_to ∧ c1.filename = c.filename ∧
        c1.argv.tail = c.argv.tail) commands1 commands := by
  induction commands with
  | nil =>
    intro counter commands1 counter1 h
    simp only [verify_loop, Option.some.injEq, Prod.mk.injEq] at h
    rw [← h.1]; exact List.Forall₂.nil
  | cons cmd rest ih =>
    intro counter commands1 counter1 h
    have hrefl : ∀ l : List Command, List.Forall₂ (fun c1 c => c1.pipe_to = c.pipe_to ∧
        c1.filename = c.filename ∧ c1.argv.tail = c.argv.tail) l l := by
      intro l; induction l with
      | nil => exact List.Forall₂.nil
      | cons x l ihl => exact List.Forall₂.cons ⟨rfl, rfl, rfl⟩ ihl
    cases ha : cmd.argv with
    | nil =>
      cases paths with
      | nil =>
        simp only [verify_loop, verify_paths, Option.some.injEq, Prod.mk.injEq] at h
        rw [← h.1]; exact hrefl _
      | cons d ds => simp [verify_loop, verify_paths, ha] at h
    | cons a0 args =>
      simp only [verify_loop, ha, verify_paths_cons] at h
      cases hf : paths.find? (fun dir => K.access (testname dir a0)) with
      | none =>
        simp only [hf, Option.map_none', Option.some.injEq, Prod.mk.injEq] at h
        rw [← h.1]; exact hrefl _
      | some d =>
        simp only [hf, Option.map_some'] at h
        cases hr : verify_loop K paths (counter + 1) rest with
        | none => simp [hr] at h
        | some r =>
          obtain ⟨rest1, c1⟩ := r
          simp only [hr, Option.some.injEq, Prod.mk.injEq] at h
          rw [← h.1]
          exact List.Forall₂.cons ⟨rfl, rfl, by simp [ha]⟩ (ih _ _ _ hr)

/-- C6: the pipe directive. For a segment `front ++ [back]`: a last token that is exactly
the pipe symbol gives `pipe_to = 1`; a pipe symbol followed by the decimal digits of a
number `N` below `2 ^ 31` gives `pipe_to = N`; whenever the last token holds a pipe symbol
it is taken off, `argv` is drawn from the tokens before it and, when none of those holds a
pipe symbol, the token is not in `argv`; a last token without pipe symbol gives
`pipe_to = 0` and the whole segment goes on to the redirection step. And `setup_cmd`, on
segments that are not empty and leave a non-empty `argv`, with `PATH` set, returns one
command per segment, in segment order. -/
theorem setup_cmd_pipe_directive (P : Parser) (K : Kernel) (sh : Console)
    (segs : List (List Str)) (path_all : Str)
    (hpath : getenv sh.env "PATH".toList = some path_all)
    (hseg : ∀ seg ∈ segs, seg ≠ [])
    (hargv : ∀ seg ∈ segs, ∀ c, setup_one seg = some c → c.argv ≠ []) :
    (∀ (front : List Str) (back : Str),
      (back = "|".toList →
        setup_one (front ++ [back]) = some
          { proc_id := -1, argv := (setup_file front).2, pipe_to := 1,
            filename := (setup_file front).1 }) ∧
      (∀ N : Nat, N < 2 ^ 31 → back = '|' :: Nat.toDigits 10 N →
        setup_one (front ++ [back]) = some
          { proc_id := -1, argv := (setup_file front).2, pipe_to := (N : Int),
            filename := (setup_file front).1 }) ∧
      ('|' ∈ back →
        ∃ c, setup_one (front ++ [back]) = some c ∧ (∃ rest, front = c.argv ++ rest) ∧
          ((∀ u ∈ front, '|' ∉ u) → back ∉ c.argv)) ∧
      ('|' ∉ back →
        setup_one (front ++ [back]) = some
          { proc_id := -1, argv := (setup_file (front ++ [back])).2, pipe_to := 0,
            filename := (setup_file (front ++ [back])).1 })) ∧
    ∃ cmds commands1 sh1,
      setup_loop segs = some cmds ∧
      List.Forall₂ (fun c seg => setup_one seg = some c) cmds segs ∧
      setup_cmd P K sh segs = some (commands1, sh1) ∧
      commands1.length = segs.length ∧
      List.Forall₂ (fun c1 c => c1.pipe_to = c.pipe_to ∧ c1.filename = c.filename ∧
        c1.argv.tail = c.argv.tail) commands1 cmds := by
  constructor
  · intro front back
    refine ⟨?_, ?_, ?_, ?_⟩
    · intro hb
      subst hb
      unfold setup_one
      rw [setup_pipe_concat]
      rfl
    · intro N hN hb
      have hlen : back.length ≠ 1 := by
        obtain ⟨L, hL1, _, hL3, _⟩ := toDigitsCore_spec N (N + 1) (by omega)
        have hL : Nat.toDigits 10 N = L := by simpa [Nat.toDigits] using hL1 []
        rw [hb, hL]
        simpa [List.length_eq_zero] using hL3
      have hmem : '|' ∈ back := by rw [hb]; simp
      unfold setup_one
      rw [setup_pipe_concat]
      simp only [hmem, if_true, hlen, ne_eq, not_false_eq_true]
      rw [hb, List.drop_one, List.tail_cons, atoi_toDigits N hN]
    · intro hmem
      obtain ⟨rest, hrest⟩ := setup_file_keeps_front front
      refine ⟨_, by unfold setup_one; rw [setup_pipe_concat], ⟨rest, ?_⟩, ?_⟩
      · simpa [hmem] using hrest
      · intro hfront hin
        simp only [hmem, if_true] at hin
        have : back ∈ front := by rw [hrest]; exact List.mem_append_left _ hin
        exact hfront back this hmem
    · intro hmem
      unfold setup_one
      rw [setup_pipe_concat]
      simp only [hmem, if_false]
  · obtain ⟨cmds, h1, h2⟩ := setup_loop_spec segs hseg
    have hne : ∀ c ∈ cmds, c.argv ≠ [] := by
      intro c hc
      have hall : ∀ (cs : List Command) (ss : List (List Str)),
          List.Forall₂ (fun c seg => setup_one seg = some c) cs ss →
          ∀ c ∈ cs, ∃ seg ∈ ss, setup_one seg = some c := by
        intro cs ss hf
        induction hf with
        | nil => intro c hc; simp at hc
        | cons hx _ ih =>
          intro c hc
          rcases List.mem_cons.1 hc with rfl | hc
          · exact ⟨_, by simp, hx⟩
          · obtain ⟨seg, hs, hseg⟩ := ih c hc
            exact ⟨seg, by simp [hs], hseg⟩
      obtain ⟨seg, hs, hone⟩ := hall cmds segs h2 c hc
      exact hargv seg hs c hone
    obtain ⟨commands1, hv, hlen, _⟩ :=
      verify_loop_spec K (P.split_by path_all ":".toList) cmds sh.proc_counter hne
    refine ⟨cmds, commands1,
      { sh with proc_counter := sh.proc_counter
          + (((cmds.takeWhile (on_path K (P.split_by path_all ":".toList))).length : Nat) : Int) },
      h1, h2, ?_, ?_, verify_loop_frame K _ cmds _ _ _ hv⟩
    · unfold setup_cmd verify_cmd
      simp only [h1, hpath, hv]
    · rw [hlen, h2.length_eq]

theorem setup_cmd_pipe_directive_witness :
    ∃ cmds commands1 sh1,
      setup_loop [["ls".toList, "|3".toList], ["cat".toList]] = some cmds ∧
      List.Forall₂ (fun c seg => setup_one seg = some c) cmds
        [["ls".toList, "|3".toList], ["cat".toList]] ∧
      setup_cmd parser_on_blanks (kernel_with ["bin/ls".toList]) (Console.init [] std_fds)
        [["ls".toList, "|3".toList], ["cat".toList]] = some (commands1, sh1) ∧
      commands1.length = [["ls".toList, "|3".toList], ["cat".toList]].length ∧
      List.Forall₂ (fun c1 c => c1.pipe_to = c.pipe_to ∧ c1.filename = c.filename ∧
        c1.argv.tail = c.argv.tail) commands1 cmds :=
  (setup_cmd_pipe_directive parser_on_blanks (kernel_with ["bin/ls".toList])
    (Console.init [] std_fds) [["ls".toList, "|3".toList], ["cat".toList]] "bin:.".toList
    (by decide) (by decide) (by decide)).2

/-- C7: the output redirection. With `rem` the segment once the pipe directive, if any, is
taken off: when `rem` has more than two tokens and its second-to-last token is exactly `>`,
the built command has the last token of `rem` as `filename` and `rem` without its last two
tokens as `argv`; in every other case `filename` is empty and `argv` is `rem`. -/
theorem setup_cmd_output_redirection (seg : List Str) (hseg : seg ≠ []) :
    ∃ (p : Int) (rem : List Str),
      setup_pipe seg = some (p, rem) ∧
      rem = (if '|' ∈ seg.getLastD [] then seg.dropLast else seg) ∧
      (2 < rem.length ∧ rem.dropLast.getLast? = some ">".toList →
        setup_one seg = some
          { proc_id := -1, argv := rem.dropLast.dropLast, pipe_to := p,
            filename := rem.getLastD [] }) ∧
      (rem.length ≤ 2 ∨ rem.dropLast.getLast? ≠ some ">".toList →
        setup_one seg = some { proc_id := -1, argv := rem, pipe_to := p, filename := [] }) := by
  obtain ⟨front, back, rfl⟩ := exists_snoc seg hseg
  have hp := setup_pipe_concat front back
  by_cases hmem : '|' ∈ back
  · simp only [hmem, if_true] at hp
    refine ⟨_, front, hp, by simp [List.getLastD_concat, hmem], ?_, ?_⟩
    · intro h
      unfold setup_one
      rw [hp]
      simp only [(setup_file_spec front).1 h]
    · intro h
      unfold setup_one
      rw [hp]
      simp only [(setup_file_spec front).2 h]
  · simp only [hmem, if_false] at hp
    refine ⟨0, front ++ [back], hp, by simp [List.getLastD_concat, hmem], ?_, ?_⟩
    · intro h
      unfold setup_one
      rw [hp]
      simp only [(setup_file_spec (front ++ [back])).1 h]
    · intro h
      unfold setup_one
      rw [hp]
      simp only [(setup_file_spec (front ++ [back])).2 h]

theorem setup_cmd_output_redirection_witness :
    ["ls".toList, "-l".toList, ">".toList, "out.txt".toList, "|".toList] ≠ [] ∧
    ∃ (p : Int) (rem : List Str),
      setup_pipe ["ls".toList, "-l".toList, ">".toList, "out.txt".toList, "|".toList]
        = some (p, rem) ∧
      rem = ["ls".toList, "-l".toList, ">".toList, "out.txt".toList] ∧
      setup_one ["ls".toList, "-l".toList, ">".toList, "out.txt".toList, "|".toList]
        = some { proc_id := -1, argv := ["ls".toList, "-l".toList], pipe_to := p,
                 filename := "out.txt".toList } := by
  refine ⟨by decide, ?_⟩
  obtain ⟨p, rem, h1, h2, h3, _⟩ := setup_cmd_output_redirection
    ["ls".toList, "-l".toList, ">".toList, "out.txt".toList, "|".toList] (by decide)
  have hrem : rem = ["ls".toList, "-l".toList, ">".toList, "out.txt".toList] := by
    rw [h2]; decide
  refine ⟨p, rem, h1, hrem, ?_⟩
  have := h3 (by rw [hrem]; decide)
  rw [this, hrem]
  rfl

/-! ## Descriptor tables -/

theorem fd_get_nil (fd : Nat) : fd_get [] fd = none := by
  cases fd <;> rfl

theorem fd_get_fd_set (t : FdTable) (i : Nat) (o : Option FileObj) (j : Nat) :
    fd_get (fd_set t i o) j = if j = i then o else fd_get t j := by
  induction t generalizing i j with
  | nil =>
    induction i generalizing j with
    | zero =>
      cases j with
      | zero => simp [fd_set, fd_get]
      | succ j => simp [fd_set, fd_get, fd_get_nil]
    | succ i ih =>
      cases j with
      | zero => simp [fd_set, fd_get]
      | succ j => simp [fd_set, fd_get, ih, fd_get_nil]
  | cons x t ih =>
    cases i with
    | zero =>
      cases j with
      | zero => simp [fd_set, fd_get]
      | succ j => simp [fd_set, fd_get]
    | succ i =>
      cases j with
      | zero => simp [fd_set, fd_get]
      | succ j => simp [fd_set, fd_get, ih]

theorem fd_get_lowest_free (t : FdTable) : fd_get t (lowest_free t) = none := by
  induction t with
  | nil => rfl
  | cons x t ih =>
    cases x with
    | none => rfl
    | some o => simpa [lowest_free, fd_get] using ih

theorem fd_get_close (t : FdTable) (a j : Nat) :
    fd_get (close t a) j = if j = a then none else fd_get t j := by
  unfold close
  cases h : fd_get t a with
  | none =>
    by_cases hj : j = a
    · simp [hj, h]
    · simp [hj]
  | some o => simp [fd_get_fd_set]

theorem fd_get_dup2 (t : FdTable) (a b j : Nat) :
    fd_get (dup2 t a b) j
      = if j = b ∧ fd_get t a ≠ none then fd_get t a else fd_get t j := by
  unfold dup2
  cases h : fd_get t a with
  | none => simp
  | some o => simp [fd_get_fd_set]

/-- A descriptor that is open is not the one handed out next. -/
theorem lowest_free_ne (t : FdTable) (fd : Nat) (h : fd_get t fd ≠ none) :
    lowest_free t ≠ fd := by
  intro e
  rw [← e, fd_get_lowest_free] at h
  exact h rfl

/-! ## C8 -/

/-- C8: a command with a non-empty output file name that can be opened, launched by
`execute` (the kernel refusing nothing): the child reaches `execvp` with a descriptor table
in which standard output is the opened file, whatever `pipe_to` is and whatever the pipe
registry holds. -/
theorem file_redirection_supersedes_pipe (K : Kernel) (sh : Console) (cmd : Command)
    (hK : K.no_exhaustion) (hfile : cmd.filename ≠ [])
    (hopen : K.can_open cmd.filename = true) :
    ∃ sh1 t,
      execute K sh cmd = .ok sh1 ∧
      sh1.procs = sh.procs ++ [exec_child K cmd t] ∧
      fd_get t 1 = some (.file cmd.filename) ∧
      fd_get (exec_child K cmd t).fds 1 = some (.file cmd.filename) := by
  have hlen : cmd.filename.length > 0 := List.length_pos.2 hfile
  have hchild : ∀ s : Console, ∃ t, execute_child K s cmd = exec_child K cmd t ∧
      fd_get t 1 = some (.file cmd.filename) := by
    intro s
    unfold execute_child
    simp only [hlen, decide_True, if_true, hopen]
    refine ⟨_, rfl, ?_⟩
    rw [fd_get_dup2]
    simp [fd_get_fd_set]
  obtain ⟨t, ht, h1⟩ := hchild (ensure_pipe sh cmd)
  refine ⟨_, t, execute_eq K sh cmd hK, ?_, h1, ?_⟩
  · simp [ht]
  · simpa using h1

theorem file_redirection_supersedes_pipe_witness :
    ∃ sh1 t,
      execute (kernel_with ["bin/ls".toList]) (Console.init [] std_fds)
        { proc_id := 0, argv := ["bin/ls".toList], pipe_to := 1, filename := "out.txt".toList }
        = .ok sh1 ∧
      sh1.procs = (Console.init [] std_fds).procs ++
        [exec_child (kernel_with ["bin/ls".toList])
          { proc_id := 0, argv := ["bin/ls".toList], pipe_to := 1, filename := "out.txt".toList }
          t] ∧
      fd_get t 1 = some (.file "out.txt".toList) ∧
      fd_get (exec_child (kernel_with ["bin/ls".toList])
          { proc_id := 0, argv := ["bin/ls".toList], pipe_to := 1, filename := "out.txt".toList }
          t).fds 1 = some (.file "out.txt".toList) :=
  file_redirection_supersedes_pipe (kernel_with ["bin/ls".toList]) (Console.init [] std_fds)
    { proc_id := 0, argv := ["bin/ls".toList], pipe_to := 1, filename := "out.txt".toList }
    ⟨fun _ => rfl, fun _ => rfl, fun _ => rfl⟩ (by decide) rfl

/-! ## C2: a linear pipeline -/

theorem open_pipe_spec (s : Console) (id : Int) :
    ∃ r w,
      (open_pipe s id).pipe_lookup = (id, (r, w)) :: s.pipe_lookup ∧
      (open_pipe s id).pipes = s.pipes + 1 ∧
      (open_pipe s id).procs = s.procs ∧
      (∀ j, fd_get (open_pipe s id).fds j
        = if j = w then some (.pipe_write s.pipes)
          else if j = r then some (.pipe_read s.pipes) else fd_get s.fds j) ∧
      r ≠ w ∧ (∀ j, fd_get s.fds j ≠ none → r ≠ j ∧ w ≠ j) := by
  refine ⟨lowest_free s.fds,
    lowest_free (fd_set s.fds (lowest_free s.fds) (some (.pipe_read s.pipes))),
    rfl, rfl, rfl, ?_, ?_, ?_⟩
  · intro j
    simp only [open_pipe, fd_get_fd_set]
  · intro e
    have := fd_get_lowest_free (fd_set s.fds (lowest_free s.fds) (some (.pipe_read s.pipes)))
    rw [← e, fd_get_fd_set] at this
    simp at this
  · intro j hj
    refine ⟨lowest_free_ne _ _ hj, lowest_free_ne _ _ ?_⟩
    rw [fd_get_fd_set]
    split
    · simp
    · exact hj

theorem stage_last (K : Kernel) (s : Console) (c : Command)
    (inbound : Option (Nat × Nat × Nat))
    (hinv : stage_inv s (to_int (c.proc_id - 1)) inbound) (hfile : c.filename = [])
    (hpt : c.pipe_to = 0) :
    stage_inv (execute_parent K (ensure_pipe s c) c) (to_int c.proc_id) none ∧
    ∃ t, execute_child K (ensure_pipe s c) c = exec_child K c t ∧
      fd_get t 0 = stage_stdin s inbound ∧
      fd_get t 1 = fd_get s.fds 1 := by
  obtain ⟨h0, h1, hreg⟩ := hinv
  have hens : ensure_pipe s c = s := by simp [ensure_pipe, hpt]
  rw [hens]
  cases inbound with
  | none =>
    simp only at hreg
    refine ⟨⟨?_, ?_, ?_⟩, s.fds, ?_, rfl, rfl⟩
    · simpa [execute_parent, unregister_pipe, hreg] using h0
    · simpa [execute_parent, unregister_pipe, hreg] using h1
    · simp [execute_parent, unregister_pipe, hreg]
    · simp [execute_child, hpt, hfile, hreg]
  | some i =>
    obtain ⟨q, r, w⟩ := i
    simp only at hreg
    obtain ⟨hl, hr, hw, r0, r1, w0, w1, hrw⟩ := hreg
    refine ⟨⟨?_, ?_, ?_⟩, close (dup2 s.fds r 0) w, ?_, ?_, ?_⟩
    · simpa [execute_parent, unregister_pipe, hl, fd_get_close, Ne.symm r0, Ne.symm w0] using h0
    · simpa [execute_parent, unregister_pipe, hl, fd_get_close, Ne.symm r1, Ne.symm w1] using h1
    · simp [execute_parent, unregister_pipe, hl]
    · simp [execute_child, hpt, hfile, hl]
    · simp [fd_get_close, fd_get_dup2, Ne.symm w0, hr, stage_stdin]
    · simp [fd_get_close, fd_get_dup2, Ne.symm w1]

theorem stage_mid (K : Kernel) (s : Console) (c : Command)
    (inbound : Option (Nat × Nat × Nat))
    (hinv : stage_inv s (to_int (c.proc_id - 1)) inbound) (hfile : c.filename = [])
    (hpt : c.pipe_to = 1) :
    (∃ r w, stage_inv (execute_parent K (ensure_pipe s c) c) (to_int c.proc_id) (some (s.pipes, r, w))) ∧
    ∃ t, execute_child K (ensure_pipe s c) c = exec_child K c t ∧
      fd_get t 0 = stage_stdin s inbound ∧
      fd_get t 1 = some (.pipe_write s.pipes) := by
  obtain ⟨h0, h1, hreg⟩ := hinv
  have hkey : to_int (c.proc_id + c.pipe_to - 1) = to_int c.proc_id := by
    rw [hpt]; congr 1; omega
  obtain ⟨hne, hne2⟩ := to_int_beq (c.proc_id - 1) c.proc_id (by omega) (by norm_num)
  obtain ⟨r, w, hlk, hpipes, hprocs, hfds, hrw, hfresh⟩ := open_pipe_spec s (to_int c.proc_id)
  obtain ⟨r0, w0⟩ := hfresh 0 h0
  obtain ⟨r1, w1⟩ := hfresh 1 h1
  have hens : ensure_pipe s c = open_pipe s (to_int c.proc_id) := by
    unfold ensure_pipe
    rw [hkey]
    cases inbound with
    | none =>
      simp only at hreg
      simp [hpt, hreg]
    | some i =>
      obtain ⟨q, r2, w2⟩ := i
      simp only at hreg
      simp [hpt, hreg.1, List.lookup, hne2]
  rw [hens]
  have hnp : decide (c.pipe_to > 0) = true := by rw [hpt]; decide
  have hnf : decide (c.filename.length > 0) = false := by rw [hfile]; decide
  cases inbound with
  | none =>
    simp only at hreg
    have hprev : (open_pipe s (to_int c.proc_id)).pipe_lookup.lookup (to_int (c.proc_id - 1)) = none := by
      rw [hlk, hreg]; simp [List.lookup, hne]
    have hnext : (open_pipe s (to_int c.proc_id)).pipe_lookup.lookup (to_int (c.proc_id + c.pipe_to - 1))
        = some (r, w) := by
      rw [hkey, hlk]; simp [List.lookup]
    refine ⟨⟨r, w, ?_, ?_, ?_⟩, close (dup2 (open_pipe s (to_int c.proc_id)).fds w 1) r, ?_, ?_, ?_⟩
    · simp only [execute_parent, unregister_pipe, hprev, hfds]
      simpa [Ne.symm r0, Ne.symm w0] using h0
    · simp only [execute_parent, unregister_pipe, hprev, hfds]
      simpa [Ne.symm r1, Ne.symm w1] using h1
    · simp only [execute_parent, unregister_pipe, hprev]
      simp only [hfds, hlk, hreg]
      simp [hrw, Ne.symm hrw, r0, r1, w0, w1]
    · unfold execute_child
      simp only [hnp, hnf, hprev, hnext, if_true, Bool.false_eq_true, if_false]
    · simp [fd_get_close, fd_get_dup2, hfds, Ne.symm r0, Ne.symm w0, stage_stdin]
    · simp [fd_get_close, fd_get_dup2, hfds, Ne.symm r1, Ne.symm w1]
  | some i =>
    obtain ⟨q, r2, w2⟩ := i
    simp only at hreg
    obtain ⟨hl, hr2, hw2, r20, r21, w20, w21, hrw2⟩ := hreg
    obtain ⟨rr2, wr2⟩ := hfresh r2 (by rw [hr2]; simp)
    obtain ⟨rw2, ww2⟩ := hfresh w2 (by rw [hw2]; simp)
    have hprev : (open_pipe s (to_int c.proc_id)).pipe_lookup.lookup (to_int (c.proc_id - 1)) = some (r2, w2) := by
      rw [hlk, hl]; simp [List.lookup, hne]
    have hnext : (open_pipe s (to_int c.proc_id)).pipe_lookup.lookup (to_int (c.proc_id + c.pipe_to - 1))
        = some (r, w) := by
      rw [hkey, hlk]; simp [List.lookup]
    refine ⟨⟨r, w, ?_, ?_, ?_⟩,
      close (dup2 (close (dup2 (open_pipe s (to_int c.proc_id)).fds r2 0) w2) w 1) r, ?_, ?_, ?_⟩
    · simp only [execute_parent, unregister_pipe, hprev, fd_get_close, hfds]
      simpa [Ne.symm r0, Ne.symm w0, Ne.symm r20, Ne.symm w20] using h0
    · simp only [execute_parent, unregister_pipe, hprev, fd_get_close, hfds]
      simpa [Ne.symm r1, Ne.symm w1, Ne.symm r21, Ne.symm w21] using h1
    · simp only [execute_parent, unregister_pipe, hprev]
      simp only [fd_get_close, hfds, hlk, hl]
      have hd : to_int c.proc_id ≠ to_int (c.proc_id - 1) :=
        Ne.symm (to_int_ne (c.proc_id - 1) c.proc_id (by omega) (by norm_num))
      simp [hrw, Ne.symm hrw, r0, r1, w0, w1, rr2, wr2, rw2, ww2, hne2, List.filter, hd]
    · unfold execute_child
      simp only [hnp, hnf, hprev, hnext, if_true, Bool.false_eq_true, if_false]
    · simp [fd_get_close, fd_get_dup2, hfds, r0, w0, r20, w20, rr2, wr2, rw2, ww2, hrw, hrw2,
        Ne.symm r0, Ne.symm w0, Ne.symm r20, Ne.symm w20, Ne.symm rr2, Ne.symm wr2, Ne.symm rw2,
        Ne.symm ww2, Ne.symm hrw, Ne.symm hrw2, hr2, hw2, stage_stdin]
    · simp [fd_get_close, fd_get_dup2, hfds, r1, w1, r21, w21, rr2, wr2, rw2, ww2, hrw, hrw2,
        Ne.symm r1, Ne.symm w1, Ne.symm r21, Ne.symm w21, Ne.symm rr2, Ne.symm wr2, Ne.symm rw2,
        Ne.symm ww2, Ne.symm hrw, Ne.symm hrw2, hr2, hw2, r0, w0, r20, w20,
        Ne.symm r0, Ne.symm w0, Ne.symm r20, Ne.symm w20]

theorem pipeline_chain (K : Kernel) (hK : K.no_exhaustion) :
    ∀ (cmds : List Command) (p : Int) (s : Console) (inbound : Option (Nat × Nat × Nat)),
      linear_pipeline p cmds = true → stage_inv s (to_int (p - 1)) inbound →
      ∃ s1 launched,
        execute_cmd K s cmds = .ok s1 ∧
        s1.procs = s.procs ++ launched ∧
        launched.map Proc.argv = cmds.map Command.argv ∧
        s1.pipe_lookup = [] ∧
        (∃ first, launched.head? = some first ∧
          fd_get first.fds 0 = stage_stdin s inbound) ∧
        List.Chain' (fun a b => ∃ q, fd_get a.fds 1 = some (.pipe_write q) ∧
          fd_get b.fds 0 = some (.pipe_read q)) launched := by
  intro cmds
  induction cmds with
  | nil => intro p s inbound h; simp [linear_pipeline] at h
  | cons c rest ih =>
    intro p s inbound hlin hinv
    cases rest with
    | nil =>
      simp only [linear_pipeline, Bool.and_eq_true, decide_eq_true_eq] at hlin
      obtain ⟨⟨⟨hp, hres⟩, hfile⟩, hpt⟩ := hlin
      rw [← hp] at hinv
      obtain ⟨hinv1, t, hchild, hin, _⟩ := stage_last K s c inbound hinv hfile hpt
      refine ⟨execute_parent K (ensure_pipe s c) c, [exec_child K c t], ?_, ?_, ?_, hinv1.2.2, ?_, ?_⟩
      · simp [execute_cmd, hres, execute_eq K s c hK]
      · simp [hchild]
      · simp
      · exact ⟨_, rfl, by simpa using hin⟩
      · exact List.chain'_singleton _
    | cons c1 rest1 =>
      simp only [linear_pipeline, Bool.and_eq_true, decide_eq_true_eq] at hlin
      obtain ⟨⟨⟨⟨hp, hres⟩, hfile⟩, hpt⟩, hrest⟩ := hlin
      rw [← hp] at hinv hrest
      obtain ⟨⟨r, w, hinv1⟩, t, hchild, hin, hout⟩ := stage_mid K s c inbound hinv hfile hpt
      have hinv2 : stage_inv (execute_parent K (ensure_pipe s c) c) (to_int (c.proc_id + 1 - 1))
          (some (s.pipes, r, w)) := by
        rw [show c.proc_id + 1 - 1 = c.proc_id by omega]; exact hinv1
      obtain ⟨s1, launched, hex, hprocs, hargv, hreg, ⟨first, hfirst, hfin⟩, hchain⟩ :=
        ih (c.proc_id + 1) _ _ hrest hinv2
      refine ⟨s1, exec_child K c t :: launched, ?_, ?_, ?_, hreg, ?_, ?_⟩
      · rw [execute_cmd]
        simp only [hres, ne_eq, not_false_eq_true, if_true, execute_eq K s c hK, hex]
      · rw [hprocs]; simp [hchild]
      · simp [hargv]
      · exact ⟨_, rfl, by simpa using hin⟩
      · obtain ⟨l2, rfl⟩ : ∃ l2, launched = first :: l2 := by
          cases launched with
          | nil => simp at hfirst
          | cons x l2 => simp at hfirst; exact ⟨l2, by rw [hfirst]⟩
        refine List.Chain'.cons ⟨s.pipes, by simpa using hout, ?_⟩ hchain
        simpa using hfin

/-- C2: a linear pipeline of `n ≥ 1` resolved commands, launched from an empty registry by a
shell whose standard input and output are open, the kernel refusing nothing: `execute_cmd`
returns, it has forked exactly one child per command (in order, each for its command), the
standard output of every stage is the write end of the pipe whose read end is the standard
input of the next stage, and the registry is empty again. -/
theorem linear_pipeline_wiring (K : Kernel) (sh : Console) (cmds : List Command) (p : Int)
    (hK : K.no_exhaustion) (hpipe : linear_pipeline p cmds = true)
    (hreg : sh.pipe_lookup = [])
    (hin : fd_get sh.fds 0 ≠ none) (hout : fd_get sh.fds 1 ≠ none) :
    ∃ sh1 launched,
      execute_cmd K sh cmds = .ok sh1 ∧
      sh1.procs = sh.procs ++ launched ∧
      launched.length = cmds.length ∧
      launched.map Proc.argv = cmds.map Command.argv ∧
      List.Chain' (fun a b => ∃ q, fd_get a.fds 1 = some (.pipe_write q) ∧
        fd_get b.fds 0 = some (.pipe_read q)) launched ∧
      sh1.pipe_lookup = [] := by
  obtain ⟨sh1, launched, h1, h2, h3, h4, _, h6⟩ :=
    pipeline_chain K hK cmds p sh none hpipe ⟨hin, hout, hreg⟩
  refine ⟨sh1, launched, h1, h2, ?_, h3, h6, h4⟩
  have := congrArg List.length h3
  simpa using this

theorem linear_pipeline_wiring_witness :
    ∃ sh1 launched,
      execute_cmd (kernel_with ["bin/a".toList, "bin/b".toList, "bin/c".toList])
        (Console.init [] std_fds)
        [{ proc_id := 0, argv := ["bin/a".toList], pipe_to := 1 },
         { proc_id := 1, argv := ["bin/b".toList], pipe_to := 1 },
         { proc_id := 2, argv := ["bin/c".toList] }] = .ok sh1 ∧
      sh1.procs = (Console.init [] std_fds).procs ++ launched ∧
      launched.length = 3 ∧
      launched.map Proc.argv = [["bin/a".toList], ["bin/b".toList], ["bin/c".toList]] ∧
      List.Chain' (fun a b => ∃ q, fd_get a.fds 1 = some (.pipe_write q) ∧
        fd_get b.fds 0 = some (.pipe_read q)) launched ∧
      sh1.pipe_lookup = [] :=
  linear_pipeline_wiring (kernel_with ["bin/a".toList, "bin/b".toList, "bin/c".toList])
    (Console.init [] std_fds)
    [{ proc_id := 0, argv := ["bin/a".toList], pipe_to := 1 },
     { proc_id := 1, argv := ["bin/b".toList], pipe_to := 1 },
     { proc_id := 2, argv := ["bin/c".toList] }] 0
    ⟨fun _ => rfl, fun _ => rfl, fun _ => rfl⟩ (by decide) rfl (by decide) (by decide)

/-! ## C9: the skip pipe `a |2 b c` -/

theorem testname_has_separator (dir name : Str) : '/' ∈ testname dir name := by
  simp [testname]

theorem testname_not_builtin (dir name : Str) :
    testname dir name ≠ "printenv".toList ∧ testname dir name ≠ "setenv".toList ∧
    testname dir name ≠ "exit".toList := by
  have h := testname_has_separator dir name
  refine ⟨?_, ?_, ?_⟩ <;> intro e <;> rw [e] at h <;> exact absurd h (by decide)

/-- C9, as stated, fails: on the line `a |2 b c`, with `a`, `b` and `c` all present in
`bin`, two children are forked, one for `a` and one for `b` with the argument `c`; `a`
writes into pipe 0, and no child has the read end of that pipe (or of any pipe) as its
standard input: `c` is not launched. -/
theorem skip_pipe_counterexample :
    (match run_line parser_on_blanks (kernel_with ["bin/a".toList, "bin/b".toList, "bin/c".toList])
        { Console.init [] std_fds with cmd_line := "a |2 b c".toList } with
      | .ok (_, sh1) => sh1.procs.map (fun p => (p.argv, fd_get p.fds 0, fd_get p.fds 1))
      | .error _ => [])
      = [(["bin/a".toList], some (.stream 0), some (.pipe_write 0)),
         (["bin/b".toList, "c".toList], some (.stream 0), some (.stream 1))] := by
  decide

/-- A stage with `pipe_to = 2` launched from an empty registry: its standard output is the
write end of a new pipe, stored under the key `proc_id + 1` (as an `int`), and stays
registered. -/
theorem skip_stage (K : Kernel) (s : Console) (c : Command)
    (hreg : s.pipe_lookup = []) (hin : fd_get s.fds 0 ≠ none) (hout : fd_get s.fds 1 ≠ none)
    (hfile : c.filename = []) (hpt : c.pipe_to = 2) :
    ∃ r w t,
      (execute_parent K (ensure_pipe s c) c).pipe_lookup = [(to_int (c.proc_id + 1), (r, w))] ∧
      (execute_parent K (ensure_pipe s c) c).procs = s.procs ++ [exec_child K c t] ∧
      (execute_parent K (ensure_pipe s c) c).pipes = s.pipes + 1 ∧
      (∀ j, fd_get (execute_parent K (ensure_pipe s c) c).fds j
        = if j = w then some (.pipe_write s.pipes)
          else if j = r then some (.pipe_read s.pipes) else fd_get s.fds j) ∧
      r ≠ 0 ∧ r ≠ 1 ∧ w ≠ 0 ∧ w ≠ 1 ∧ r ≠ w ∧
      fd_get t 0 = fd_get s.fds 0 ∧ fd_get t 1 = some (.pipe_write s.pipes) := by
  have hkey : to_int (c.proc_id + c.pipe_to - 1) = to_int (c.proc_id + 1) := by
    rw [hpt]; congr 1; omega
  have hne := (to_int_beq (c.proc_id - 1) (c.proc_id + 1) (by omega) (by norm_num)).1
  obtain ⟨r, w, hlk, hpipes, hprocs, hfds, hrw, hfresh⟩ := open_pipe_spec s (to_int (c.proc_id + 1))
  obtain ⟨r0, w0⟩ := hfresh 0 hin
  obtain ⟨r1, w1⟩ := hfresh 1 hout
  have hens : ensure_pipe s c = open_pipe s (to_int (c.proc_id + 1)) := by
    unfold ensure_pipe
    rw [hkey]
    simp [hpt, hreg]
  rw [hens]
  have hnp : decide (c.pipe_to > 0) = true := by rw [hpt]; decide
  have hnf : decide (c.filename.length > 0) = false := by rw [hfile]; decide
  have hprev : (open_pipe s (to_int (c.proc_id + 1))).pipe_lookup.lookup (to_int (c.proc_id - 1)) = none := by
    rw [hlk, hreg]; simp [List.lookup, hne]
  have hnext : (open_pipe s (to_int (c.proc_id + 1))).pipe_lookup.lookup (to_int (c.proc_id + c.pipe_to - 1))
      = some (r, w) := by
    rw [hkey, hlk]; simp [List.lookup]
  have hchild : execute_child K (open_pipe s (to_int (c.proc_id + 1))) c
      = exec_child K c (close (dup2 (open_pipe s (to_int (c.proc_id + 1))).fds w 1) r) := by
    unfold execute_child
    simp only [hnp, hnf, hprev, hnext, if_true, Bool.false_eq_true, if_false]
  refine ⟨r, w, close (dup2 (open_pipe s (to_int (c.proc_id + 1))).fds w 1) r, ?_, ?_, ?_, ?_,
    r0, r1, w0, w1, hrw, ?_, ?_⟩
  · simp only [execute_parent, unregister_pipe, hprev]
    rw [hlk, hreg]
  · simp only [execute_parent, unregister_pipe, hprev]
    rw [hprocs, hchild]
  · simp only [execute_parent, unregister_pipe, hprev]
    exact hpipes
  · intro j
    simp only [execute_parent, unregister_pipe, hprev]
    exact hfds j
  · simp [fd_get_close, fd_get_dup2, hfds, Ne.symm r0, Ne.symm w0]
  · simp [fd_get_close, fd_get_dup2, hfds, Ne.symm r1, Ne.symm w1]

/-- A stage without pipe directive and without output file, launched while the registry
holds only an entry under its own index: the child gets the shell's descriptor table as it
is, and the registry is left alone. -/
theorem bypassed_stage (K : Kernel) (s : Console) (c : Command) (r w : Nat)
    (hreg : s.pipe_lookup = [(to_int c.proc_id, (r, w))])
    (hfile : c.filename = []) (hpt : c.pipe_to = 0) :
    execute_parent K (ensure_pipe s c) c
      = { s with procs := s.procs ++ [exec_child K c s.fds] } := by
  have hne := (to_int_beq (c.proc_id - 1) c.proc_id (by omega) (by norm_num)).1
  have hens : ensure_pipe s c = s := by simp [ensure_pipe, hpt]
  have hprev : s.pipe_lookup.lookup (to_int (c.proc_id - 1)) = none := by
    rw [hreg]; simp [List.lookup, hne]
  have hchild : execute_child K s c = exec_child K c s.fds := by
    unfold execute_child
    simp [hpt, hfile, hprev]
  rw [hens]
  simp only [execute_parent, unregister_pipe, hprev, hchild]

/-- C9, amended: on the line `a |2 b c`, tokenised as `a`, `|2`, `b`, `c`, with `a` and `b`
found on `PATH`, an empty registry, standard input and output open, a counter that is not
negative and a kernel that refuses nothing, one pass of the read loop forks exactly two
children: one for `a`, whose standard output is the write end of a new pipe, and one for
`b` with the argument `c`, whose standard input and output are those of the shell. The pipe
stays registered under the key `proc_counter + 1`, for the stage with index
`proc_counter + 2` to read. The key is an `int`: it is `proc_counter + 1` itself whenever
that number is one, so for every counter up to `2 ^ 31 - 2`. -/
theorem skip_pipe_wiring (P : Parser) (K : Kernel) (sh : Console) (path_all : Str)
    (hsplit : P.split "a |2 b c".toList = ["a".toList, "|2".toList, "b".toList, "c".toList])
    (hpath : getenv sh.env "PATH".toList = some path_all)
    (ha : on_path K (P.split_by path_all ":".toList) { argv := ["a".toList] } = true)
    (hb : on_path K (P.split_by path_all ":".toList) { argv := ["b".toList, "c".toList] } = true)
    (hK : K.no_exhaustion) (hreg : sh.pipe_lookup = [])
    (hin : fd_get sh.fds 0 ≠ none) (hout : fd_get sh.fds 1 ≠ none)
    (hctr : 0 ≤ sh.proc_counter) :
    ∃ sh1 da db r w ta tb,
      run_line P K { sh with cmd_line := "a |2 b c".toList } = .ok (true, sh1) ∧
      sh1.procs = sh.procs ++
        [exec_child K { proc_id := sh.proc_counter, argv := [testname da "a".toList],
                        pipe_to := 2 } ta,
         exec_child K { proc_id := sh.proc_counter + 1,
                        argv := [testname db "b".toList, "c".toList] } tb] ∧
      fd_get ta 0 = fd_get sh.fds 0 ∧ fd_get ta 1 = some (.pipe_write sh.pipes) ∧
      fd_get tb 0 = fd_get sh.fds 0 ∧ fd_get tb 1 = fd_get sh.fds 1 ∧
      sh1.pipe_lookup = [(to_int (sh.proc_counter + 1), (r, w))] ∧
      (sh.proc_counter + 1 < 2 ^ 31 → sh1.pipe_lookup = [(sh.proc_counter + 1, (r, w))]) ∧
      fd_get sh1.fds r = some (.pipe_read sh.pipes) ∧
      fd_get sh1.fds w = some (.pipe_write sh.pipes) := by
  obtain ⟨da, hda⟩ : ∃ da, (P.split_by path_all ":".toList).find?
      (fun dir => K.access (testname dir "a".toList)) = some da := by
    have h := ha
    rw [on_path, any_eq_find_isSome] at h
    exact Option.isSome_iff_exists.1 h
  obtain ⟨db, hdb⟩ : ∃ db, (P.split_by path_all ":".toList).find?
      (fun dir => K.access (testname dir "b".toList)) = some db := by
    have h := hb
    rw [on_path, any_eq_find_isSome] at h
    exact Option.isSome_iff_exists.1 h
  have hparse : parse_cmd P { sh with cmd_line := "a |2 b c".toList } "a |2 b c".toList
      = ([["a".toList, "|2".toList], ["b".toList, "c".toList]],
         { sh with cmd_line := "a |2 b c".toList }) := by
    rw [parse_cmd_eq _ _ _ (by decide), hsplit]
    rfl
  have hloop : setup_loop [["a".toList, "|2".toList], ["b".toList, "c".toList]]
      = some [{ argv := ["a".toList], pipe_to := 2 }, { argv := ["b".toList, "c".toList] }] := by
    decide
  have hsetup : setup_cmd P K { sh with cmd_line := "a |2 b c".toList }
        [["a".toList, "|2".toList], ["b".toList, "c".toList]]
      = some ([{ proc_id := sh.proc_counter, argv := [testname da "a".toList], pipe_to := 2 },
               { proc_id := sh.proc_counter + 1, argv := [testname db "b".toList, "c".toList] }],
              { sh with cmd_line := "a |2 b c".toList, proc_counter := sh.proc_counter + 1 + 1 }) := by
    unfold setup_cmd verify_cmd
    simp only [hloop, hpath, verify_loop, verify_paths_cons, hda, hdb, Option.map_some']
  obtain ⟨na1, na2, na3⟩ := testname_not_builtin da "a".toList
  obtain ⟨nb1, nb2, nb3⟩ := testname_not_builtin db "b".toList
  have hbuiltin : ∀ s : Console, execute_builtin_cmd s
        [{ proc_id := sh.proc_counter, argv := [testname da "a".toList], pipe_to := 2 },
         { proc_id := sh.proc_counter + 1, argv := [testname db "b".toList, "c".toList] }]
      = some (true,
        [{ proc_id := sh.proc_counter, argv := [testname da "a".toList], pipe_to := 2 },
         { proc_id := sh.proc_counter + 1, argv := [testname db "b".toList, "c".toList] }], s) := by
    intro s
    simp only [execute_builtin_cmd, builtin_loop, List.length_cons, List.length_nil,
      List.get?_cons_zero, List.get?_cons_succ]
    rw [if_neg na1, if_neg na2, if_neg na3]
    simp only [Nat.reduceAdd, Nat.reduceEqDiff, Nat.reduceLT, Nat.lt_irrefl, if_false,
      List.get?_cons_zero, List.get?_cons_succ, Nat.zero_add]
    rw [if_neg nb1, if_neg nb2, if_neg nb3]
    simp
  obtain ⟨r, w, ta, h1, h2, h3, h4, r0, r1, w0, w1, hrw, h5, h6⟩ :=
    skip_stage K { sh with cmd_line := "a |2 b c".toList, proc_counter := sh.proc_counter + 1 + 1 }
      { proc_id := sh.proc_counter, argv := [testname da "a".toList], pipe_to := 2 }
      hreg hin hout rfl rfl
  have h7 := bypassed_stage K _
    { proc_id := sh.proc_counter + 1, argv := [testname db "b".toList, "c".toList] } r w h1 rfl rfl
  generalize hS3 : execute_parent K
    (ensure_pipe { sh with cmd_line := "a |2 b c".toList, proc_counter := sh.proc_counter + 1 + 1 }
      { proc_id := sh.proc_counter, argv := [testname da "a".toList], pipe_to := 2 })
    { proc_id := sh.proc_counter, argv := [testname da "a".toList], pipe_to := 2 } = S3
    at h1 h2 h3 h4 h7
  refine ⟨{ S3 with procs := S3.procs ++ [exec_child K
      { proc_id := sh.proc_counter + 1, argv := [testname db "b".toList, "c".toList] } S3.fds] },
    da, db, r, w, ta, S3.fds, ?_, ?_, h5, h6, ?_, ?_, ?_, ?_, ?_, ?_⟩
  · simp only [run_line, hparse, hsetup, hbuiltin]
    have e1 : sh.proc_counter ≠ -1 := by omega
    have e2 : sh.proc_counter + 1 ≠ -1 := by omega
    simp only [execute_cmd, e1, e2, ne_eq, not_false_eq_true, if_true, execute_eq _ _ _ hK, hS3,
      h7]
  · simp [h2]
  · simpa [Ne.symm r0, Ne.symm w0] using h4 0
  · simpa [Ne.symm r1, Ne.symm w1] using h4 1
  · exact h1
  · intro hlt
    rw [← to_int_of_range (sh.proc_counter + 1) (by norm_num; omega) hlt]
    exact h1
  · simpa [hrw] using h4 r
  · simpa using h4 w

theorem skip_pipe_wiring_witness :
    ∃ sh1 da db r w ta tb,
      run_line parser_on_blanks (kernel_with ["bin/a".toList, "bin/b".toList, "bin/c".toList])
        { Console.init [] std_fds with cmd_line := "a |2 b c".toList } = .ok (true, sh1) ∧
      sh1.procs = (Console.init [] std_fds).procs ++
        [exec_child (kernel_with ["bin/a".toList, "bin/b".toList, "bin/c".toList])
          { proc_id := (Console.init [] std_fds).proc_counter,
            argv := [testname da "a".toList], pipe_to := 2 } ta,
         exec_child (kernel_with ["bin/a".toList, "bin/b".toList, "bin/c".toList])
          { proc_id := (Console.init [] std_fds).proc_counter + 1,
            argv := [testname db "b".toList, "c".toList] } tb] ∧
      fd_get ta 0 = fd_get (Console.init [] std_fds).fds 0 ∧
      fd_get ta 1 = some (.pipe_write (Console.init [] std_fds).pipes) ∧
      fd_get tb 0 = fd_get (Console.init [] std_fds).fds 0 ∧
      fd_get tb 1 = fd_get (Console.init [] std_fds).fds 1 ∧
      sh1.pipe_lookup = [(to_int ((Console.init [] std_fds).proc_counter + 1), (r, w))] ∧
      ((Console.init [] std_fds).proc_counter + 1 < 2 ^ 31 →
        sh1.pipe_lookup = [((Console.init [] std_fds).proc_counter + 1, (r, w))]) ∧
      fd_get sh1.fds r = some (.pipe_read (Console.init [] std_fds).pipes) ∧
      fd_get sh1.fds w = some (.pipe_write (Console.init [] std_fds).pipes) :=
  skip_pipe_wiring parser_on_blanks (kernel_with ["bin/a".toList, "bin/b".toList, "bin/c".toList])
    (Console.init [] std_fds) "bin:.".toList (by decide) (by decide) (by decide) (by decide)
    ⟨fun _ => rfl, fun _ => rfl, fun _ => rfl⟩ rfl (by decide) (by decide) (by decide)

/-! ## C10: the builtin dispatcher -/

/-- C10 fails on the code: for the commands of the line `printenv PATH | printenv PATH`,
`execute_builtin_cmd` prints `PATH` once and returns true with the second `printenv`
command still in the sequence: after `commands.erase(it)` the iterator stands on the
element that moved into the freed place, and the `++it` of the loop header steps over it. -/
theorem builtin_erase_skips_next :
    execute_builtin_cmd (Console.init [] std_fds)
      [{ argv := ["printenv".toList, "PATH".toList], pipe_to := 1 },
       { argv := ["printenv".toList, "PATH".toList] }]
      = some (true, [{ argv := ["printenv".toList, "PATH".toList] }],
          { Console.init [] std_fds with out := "PATH=bin:.\n".toList }) := by
  decide

/-! ## C11: `exit` after a removed builtin -/

/-- C11 fails on the code: for the commands of the line `printenv PATH | exit`,
`execute_builtin_cmd` returns true with the `exit` command still in the sequence (the `++it`
that follows `commands.erase(it)` steps over it), and `run` goes on: fed that line and then
the line `a`, it prints two more prompts and launches `a`. -/
theorem exit_after_builtin_is_skipped :
    execute_builtin_cmd (Console.init [] std_fds)
      [{ argv := ["printenv".toList, "PATH".toList], pipe_to := 1 }, { argv := ["exit".toList] }]
      = some (true, [{ argv := ["exit".toList] }],
          { Console.init [] std_fds with out := "PATH=bin:.\n".toList }) ∧
    (match run parser_on_blanks (kernel_with ["bin/a".toList]) (Console.init [] std_fds)
        ["printenv PATH | exit".toList, "a".toList] with
      | .ok sh1 => (sh1.out, sh1.err, sh1.procs.map Proc.argv)
      | .error _ => ([], [], []))
      = (get_MOTD ++ "% PATH=bin:.\n% % ".toList, "Unknown command: [exit].\n".toList,
         [["bin/a".toList]]) := by
  constructor <;> decide

/-! ## C12: `setenv` then `printenv` -/

theorem lookup_filter_ne (env : List (Str × Str)) (n m : Str) (h : m ≠ n) :
    (env.filter (fun kv => kv.1 ≠ n)).lookup m = env.lookup m := by
  induction env with
  | nil => rfl
  | cons kv env ih =>
    obtain ⟨k, v⟩ := kv
    by_cases hk : k = n
    · subst hk
      have : (m == k) = false := by rw [beq_eq_false_iff_ne]; exact h
      simpa [List.filter, List.lookup, this] using ih
    · by_cases hm : m = k
      · subst hm
        simp [List.filter, hk, List.lookup]
      · have : (m == k) = false := by rw [beq_eq_false_iff_ne]; exact hm
        simpa [List.filter, hk, List.lookup, this] using ih

/-- What `getenv` finds after a `setenv` that succeeds. -/
theorem getenv_setenv (env : List (Str × Str)) (n v m : Str) (h1 : n ≠ []) (h2 : '=' ∉ n) :
    getenv (setenv env n v) m = if m = n then some v else getenv env m := by
  unfold getenv setenv
  rw [if_neg (by simp [h1, h2])]
  by_cases hm : m = n
  · subst hm
    simp [List.lookup]
  · have : (m == n) = false := by rw [beq_eq_false_iff_ne]; exact hm
    simp only [List.lookup, this, hm, if_false]
    exact lookup_filter_ne env n m hm

/-- A command whose name is found in no directory is left alone by `verify_cmd`. -/
theorem verify_cmd_not_found (P : Parser) (K : Kernel) (sh : Console) (c : Command)
    (a0 : Str) (args : List Str) (path_all : Str)
    (hpath : getenv sh.env "PATH".toList = some path_all)
    (ha : c.argv = a0 :: args) (hno : ∀ dir, K.access (testname dir a0) = false) :
    verify_cmd P K sh [c] = some ([c], sh) := by
  have hf : (P.split_by path_all ":".toList).find? (fun dir => K.access (testname dir a0))
      = none := by
    apply List.find?_eq_none.2
    intro d _
    simp [hno d]
  unfold verify_cmd
  simp only [hpath, verify_loop, ha, verify_paths_cons, hf, Option.map_none']

/-- A line of blank-separated words without pipe symbol is one segment. -/
theorem parse_cmd_single (P : Parser) (sh : Console) (line : Str) (toks : List Str)
    (hline : '/' ∉ line) (hsplit : P.split line = toks) (hne : toks ≠ [])
    (hpipe : ∀ u ∈ toks, '|' ∉ u) :
    parse_cmd P sh line = ([toks], sh) := by
  rw [parse_cmd_eq P sh line hline, hsplit, parse_loop_no_pipe toks [] [] hpipe]
  simp [hne]

/-- The two builtins when neither name is hidden by a file: `NAME` a non-empty token
without `=`, `/`, `|` that is not `>`, `VALUE` a token without `/` or `|`, `PATH` set, and
no file named `setenv` or `printenv` in any directory. The line `setenv NAME VALUE` builds
one command, `execute_builtin_cmd` binds
`NAME` to `VALUE` and leaves the sequence empty, and the pass changes nothing else; the line
`printenv NAME` run next builds one command, `execute_builtin_cmd` leaves the sequence empty,
and the pass adds exactly `NAME=VALUE` and a newline to standard output. No child is forked
in either pass. -/
theorem setenv_then_printenv (P : Parser) (K : Kernel) (sh : Console)
    (NAME VALUE path_all : Str)
    (hsplit1 : P.split ("setenv ".toList ++ NAME ++ " ".toList ++ VALUE)
      = ["setenv".toList, NAME, VALUE])
    (hsplit2 : P.split ("printenv ".toList ++ NAME) = ["printenv".toList, NAME])
    (hN1 : NAME ≠ []) (hN2 : '=' ∉ NAME) (hN3 : NAME ≠ ">".toList)
    (hN4 : '/' ∉ NAME) (hN5 : '|' ∉ NAME) (hV1 : '/' ∉ VALUE) (hV2 : '|' ∉ VALUE)
    (hpath : getenv sh.env "PATH".toList = some path_all)
    (hset : ∀ dir, K.access (testname dir "setenv".toList) = false)
    (hprint : ∀ dir, K.access (testname dir "printenv".toList) = false) :
    setup_cmd P K { sh with cmd_line := "setenv ".toList ++ NAME ++ " ".toList ++ VALUE }
        (parse_cmd P { sh with cmd_line := "setenv ".toList ++ NAME ++ " ".toList ++ VALUE }
          ("setenv ".toList ++ NAME ++ " ".toList ++ VALUE)).1
      = some ([{ argv := ["setenv".toList, NAME, VALUE] }],
          { sh with cmd_line := "setenv ".toList ++ NAME ++ " ".toList ++ VALUE }) ∧
    execute_builtin_cmd { sh with cmd_line := "setenv ".toList ++ NAME ++ " ".toList ++ VALUE }
        [{ argv := ["setenv".toList, NAME, VALUE] }]
      = some (true, [],
          { sh with cmd_line := "setenv ".toList ++ NAME ++ " ".toList ++ VALUE,
                    env := setenv sh.env NAME VALUE }) ∧
    run_line P K { sh with cmd_line := "setenv ".toList ++ NAME ++ " ".toList ++ VALUE }
      = .ok (true,
          { sh with cmd_line := "setenv ".toList ++ NAME ++ " ".toList ++ VALUE,
                    env := setenv sh.env NAME VALUE }) ∧
    setup_cmd P K
        { sh with cmd_line := "printenv ".toList ++ NAME, env := setenv sh.env NAME VALUE }
        (parse_cmd P
          { sh with cmd_line := "printenv ".toList ++ NAME, env := setenv sh.env NAME VALUE }
          ("printenv ".toList ++ NAME)).1
      = some ([{ argv := ["printenv".toList, NAME] }],
          { sh with cmd_line := "printenv ".toList ++ NAME, env := setenv sh.env NAME VALUE }) ∧
    execute_builtin_cmd
        { sh with cmd_line := "printenv ".toList ++ NAME, env := setenv sh.env NAME VALUE }
        [{ argv := ["printenv".toList, NAME] }]
      = some (true, [],
          { sh with cmd_line := "printenv ".toList ++ NAME, env := setenv sh.env NAME VALUE,
                    out := sh.out ++ NAME ++ "=".toList ++ VALUE ++ "\n".toList }) ∧
    run_line P K
        { sh with cmd_line := "printenv ".toList ++ NAME, env := setenv sh.env NAME VALUE }
      = .ok (true,
          { sh with cmd_line := "printenv ".toList ++ NAME, env := setenv sh.env NAME VALUE,
                    out := sh.out ++ NAME ++ "=".toList ++ VALUE ++ "\n".toList }) := by
  have hl1 : '/' ∉ "setenv ".toList ++ NAME ++ " ".toList ++ VALUE := by
    simp [List.mem_append, hN4, hV1]
  have hl2 : '/' ∉ "printenv ".toList ++ NAME := by
    simp [List.mem_append, hN4]
  have hp1 : ∀ s : Console, parse_cmd P s ("setenv ".toList ++ NAME ++ " ".toList ++ VALUE)
      = ([["setenv".toList, NAME, VALUE]], s) := by
    intro s
    apply parse_cmd_single P s _ _ hl1 hsplit1 (by simp)
    intro u hu
    simp only [List.mem_cons, List.mem_singleton, List.not_mem_nil, or_false] at hu
    rcases hu with rfl | rfl | rfl
    · decide
    · exact hN5
    · exact hV2
  have hp2 : ∀ s : Console, parse_cmd P s ("printenv ".toList ++ NAME)
      = ([["printenv".toList, NAME]], s) := by
    intro s
    apply parse_cmd_single P s _ _ hl2 hsplit2 (by simp)
    intro u hu
    simp only [List.mem_cons, List.mem_singleton, List.not_mem_nil, or_false] at hu
    rcases hu with rfl | rfl
    · decide
    · exact hN5
  have hN3b : NAME ≠ ['>'] := hN3
  have hs1 : setup_loop [["setenv".toList, NAME, VALUE]]
      = some [{ argv := ["setenv".toList, NAME, VALUE] }] := by
    simp [setup_loop, setup_one, setup_pipe, hV2, setup_file, hN3b]
  have hs2 : setup_loop [["printenv".toList, NAME]]
      = some [{ argv := ["printenv".toList, NAME] }] := by
    simp [setup_loop, setup_one, setup_pipe, hN5, setup_file]
  have hpath2 : getenv (setenv sh.env NAME VALUE) "PATH".toList
      = some (if "PATH".toList = NAME then VALUE else path_all) := by
    rw [getenv_setenv _ _ _ _ hN1 hN2, hpath]
    split <;> rfl
  have hsetup1 : setup_cmd P K
        { sh with cmd_line := "setenv ".toList ++ NAME ++ " ".toList ++ VALUE }
        [["setenv".toList, NAME, VALUE]]
      = some ([{ argv := ["setenv".toList, NAME, VALUE] }],
          { sh with cmd_line := "setenv ".toList ++ NAME ++ " ".toList ++ VALUE }) := by
    unfold setup_cmd
    rw [hs1]
    exact verify_cmd_not_found P K _ _ "setenv".toList [NAME, VALUE] path_all hpath rfl hset
  have hsetup2 : setup_cmd P K
        { sh with cmd_line := "printenv ".toList ++ NAME, env := setenv sh.env NAME VALUE }
        [["printenv".toList, NAME]]
      = some ([{ argv := ["printenv".toList, NAME] }],
          { sh with cmd_line := "printenv ".toList ++ NAME, env := setenv sh.env NAME VALUE }) := by
    unfold setup_cmd
    rw [hs2]
    exact verify_cmd_not_found P K _ _ "printenv".toList [NAME] _ hpath2 rfl hprint
  have hb1 : execute_builtin_cmd
        { sh with cmd_line := "setenv ".toList ++ NAME ++ " ".toList ++ VALUE }
        [{ argv := ["setenv".toList, NAME, VALUE] }]
      = some (true, [],
          { sh with cmd_line := "setenv ".toList ++ NAME ++ " ".toList ++ VALUE,
                    env := setenv sh.env NAME VALUE }) := by
    simp [execute_builtin_cmd, builtin_loop]
  have hget : getenv (setenv sh.env NAME VALUE) NAME = some VALUE := by
    rw [getenv_setenv _ _ _ _ hN1 hN2, if_pos rfl]
  have hb2 : execute_builtin_cmd
        { sh with cmd_line := "printenv ".toList ++ NAME, env := setenv sh.env NAME VALUE }
        [{ argv := ["printenv".toList, NAME] }]
      = some (true, [],
          { sh with cmd_line := "printenv ".toList ++ NAME, env := setenv sh.env NAME VALUE,
                    out := sh.out ++ NAME ++ "=".toList ++ VALUE ++ "\n".toList }) := by
    simp [execute_builtin_cmd, builtin_loop, print_env, hget]
  refine ⟨?_, hb1, ?_, ?_, hb2, ?_⟩
  · rw [hp1]; exact hsetup1
  · simp only [run_line, hp1, hsetup1, hb1, execute_cmd]
  · rw [hp2]; exact hsetup2
  · simp only [run_line, hp2, hsetup2, hb2, execute_cmd]

theorem setenv_then_printenv_example :
    run_line parser_on_blanks (kernel_with [])
        { Console.init [] std_fds with
          cmd_line := "setenv ".toList ++ "FOO".toList ++ " ".toList ++ "bar".toList }
      = .ok (true,
          { Console.init [] std_fds with
            cmd_line := "setenv ".toList ++ "FOO".toList ++ " ".toList ++ "bar".toList,
            env := setenv (Console.init [] std_fds).env "FOO".toList "bar".toList }) ∧
    run_line parser_on_blanks (kernel_with [])
        { Console.init [] std_fds with
          cmd_line := "printenv ".toList ++ "FOO".toList,
          env := setenv (Console.init [] std_fds).env "FOO".toList "bar".toList }
      = .ok (true,
          { Console.init [] std_fds with
            cmd_line := "printenv ".toList ++ "FOO".toList,
            env := setenv (Console.init [] std_fds).env "FOO".toList "bar".toList,
            out := (Console.init [] std_fds).out ++ "FOO".toList ++ "=".toList ++ "bar".toList
              ++ "\n".toList }) :=
  ⟨(setenv_then_printenv parser_on_blanks (kernel_with []) (Console.init [] std_fds)
      "FOO".toList "bar".toList "bin:.".toList (by decide) (by decide) (by decide) (by decide)
      (by decide) (by decide) (by decide) (by decide) (by decide) (by decide)
      (fun _ => rfl) (fun _ => rfl)).2.2.1,
   (setenv_then_printenv parser_on_blanks (kernel_with []) (Console.init [] std_fds)
      "FOO".toList "bar".toList "bin:.".toList (by decide) (by decide) (by decide) (by decide)
      (by decide) (by decide) (by decide) (by decide) (by decide) (by decide)
      (fun _ => rfl) (fun _ => rfl)).2.2.2.2.2⟩

/-- C12 fails on the code: with a file `bin/printenv` present, the lines `setenv FOO bar`
and `printenv FOO` add nothing but the prompts to standard output, and the second line forks
a child for `bin/printenv FOO`. `verify_cmd` has overwritten `argv[0]` with `bin/printenv`
before `execute_builtin_cmd` compares it with the literal `printenv`, so the builtin is not
recognised. Without such a file the same two lines print `FOO=bar` and fork nothing. -/
theorem printenv_hidden_by_path_file :
    (match run parser_on_blanks (kernel_with ["bin/printenv".toList]) (Console.init [] std_fds)
        ["setenv FOO bar".toList, "printenv FOO".toList] with
      | .ok sh1 => (sh1.out, sh1.procs.map Proc.argv)
      | .error _ => ([], []))
      = (get_MOTD ++ "% % % ".toList, [["bin/printenv".toList, "FOO".toList]]) ∧
    (match run parser_on_blanks (kernel_with []) (Console.init [] std_fds)
        ["setenv FOO bar".toList, "printenv FOO".toList] with
      | .ok sh1 => (sh1.out, sh1.procs.map Proc.argv)
      | .error _ => ([], []))
      = (get_MOTD ++ "% % FOO=bar\n% ".toList, []) := by
  decide

/-! ## C13: what `verify_cmd` changes -/

theorem verify_loop_rewrite (K : Kernel) (paths : List Str) (commands : List Command)
    (hargv : ∀ c ∈ commands, c.argv ≠ []) :
    ∀ (counter : Int) (commands1 : List Command) (counter1 : Int),
      verify_loop K paths counter commands = some (commands1, counter1) →
      List.Forall₂ (fun c1 c =>
          ∃ d, paths.find? (fun dir => K.access (testname dir (c.argv.headD []))) = some d ∧
            c1.argv = testname d (c.argv.headD []) :: c.argv.tail ∧
            c1.pipe_to = c.pipe_to ∧ c1.filename = c.filename)
        (commands1.take (commands.takeWhile (on_path K paths)).length)
        (commands.take (commands.takeWhile (on_path K paths)).length) ∧
      commands1.drop (commands.takeWhile (on_path K paths)).length
        = commands.drop (commands.takeWhile (on_path K paths)).length := by
  induction commands with
  | nil =>
    intro counter commands1 counter1 h
    simp only [verify_loop, Option.some.injEq, Prod.mk.injEq] at h
    rw [← h.1]
    exact ⟨by simp, rfl⟩
  | cons cmd rest ih =>
    intro counter commands1 counter1 h
    obtain ⟨a0, args, ha⟩ := List.exists_cons_of_ne_nil (hargv cmd (by simp))
    have hon : on_path K paths cmd
        = (paths.find? (fun dir => K.access (testname dir a0))).isSome := by
      simp [on_path, ha, any_eq_find_isSome]
    simp only [verify_loop, ha, verify_paths_cons] at h
    cases hf : paths.find? (fun dir => K.access (testname dir a0)) with
    | none =>
      rw [hf] at hon
      simp only [hf, Option.map_none', Option.some.injEq, Prod.mk.injEq] at h
      rw [← h.1]
      simp [List.takeWhile, hon]
    | some d =>
      rw [hf] at hon
      simp only [hf, Option.map_some'] at h
      cases hr : verify_loop K paths (counter + 1) rest with
      | none => simp [hr] at h
      | some r =>
        obtain ⟨rest1, c1⟩ := r
        simp only [hr, Option.some.injEq, Prod.mk.injEq] at h
        obtain ⟨ih1, ih2⟩ := ih (fun c hc => hargv c (by simp [hc])) _ _ _ hr
        rw [← h.1]
        simp only [List.takeWhile, hon, Option.isSome_some, List.length_cons, List.take_succ_cons,
          List.drop_succ_cons]
        refine ⟨List.Forall₂.cons ⟨d, ?_, ?_, rfl, rfl⟩ ih1, ih2⟩
        · simpa [ha] using hf
        · simp [ha]

/-- C13: with `PATH` set and every `argv` non-empty, `verify_cmd` returns the same number of
commands in the same order. With `k` the number of commands it resolves (the longest prefix
found on `PATH`): each of the first `k` has its `argv[0]` replaced by `d/name`, `name` being
the old `argv[0]` and `d` the first directory of `PATH` in which `d/name` exists, and keeps
`argv[1..]`, `pipe_to` and `filename`; the commands from position `k` on are unchanged
in every field. -/
theorem verify_cmd_rewrites_only_names (P : Parser) (K : Kernel) (sh : Console)
    (commands : List Command) (path_all : Str)
    (hpath : getenv sh.env "PATH".toList = some path_all)
    (hargv : ∀ c ∈ commands, c.argv ≠ []) :
    ∃ commands1 sh1,
      verify_cmd P K sh commands = some (commands1, sh1) ∧
      commands1.length = commands.length ∧
      List.Forall₂ (fun c1 c =>
          ∃ d, (P.split_by path_all ":".toList).find?
              (fun dir => K.access (testname dir (c.argv.headD []))) = some d ∧
            c1.argv = testname d (c.argv.headD []) :: c.argv.tail ∧
            c1.pipe_to = c.pipe_to ∧ c1.filename = c.filename)
        (commands1.take
          (commands.takeWhile (on_path K (P.split_by path_all ":".toList))).length)
        (commands.take
          (commands.takeWhile (on_path K (P.split_by path_all ":".toList))).length) ∧
      commands1.drop (commands.takeWhile (on_path K (P.split_by path_all ":".toList))).length
        = commands.drop
            (commands.takeWhile (on_path K (P.split_by path_all ":".toList))).length ∧
      List.Forall₂ (fun c1 c => c1.pipe_to = c.pipe_to ∧ c1.filename = c.filename ∧
        c1.argv.tail = c.argv.tail) commands1 commands := by
  obtain ⟨commands1, hv, hlen, _⟩ :=
    verify_loop_spec K (P.split_by path_all ":".toList) commands sh.proc_counter hargv
  obtain ⟨h1, h2⟩ := verify_loop_rewrite K _ commands hargv _ _ _ hv
  refine ⟨commands1, { sh with proc_counter := sh.proc_counter
      + (((commands.takeWhile (on_path K (P.split_by path_all ":".toList))).length : Nat) : Int) },
    ?_, hlen, h1, h2, verify_loop_frame K _ commands _ _ _ hv⟩
  unfold verify_cmd
  simp only [hpath, hv]

theorem verify_cmd_rewrites_only_names_witness :
    ∃ commands1 sh1,
      verify_cmd parser_on_blanks (kernel_with ["./ls".toList, "bin/ls".toList])
        (Console.init [] std_fds)
        [{ argv := ["ls".toList, "-l".toList], pipe_to := 1 },
         { argv := ["cat".toList], filename := "f".toList }] = some (commands1, sh1) ∧
      commands1 = [{ proc_id := 0, argv := ["bin/ls".toList, "-l".toList], pipe_to := 1 },
                   { argv := ["cat".toList], filename := "f".toList }] := by
  obtain ⟨commands1, sh1, h1, _, _, _, _⟩ :=
    verify_cmd_rewrites_only_names parser_on_blanks (kernel_with ["./ls".toList, "bin/ls".toList])
      (Console.init [] std_fds)
      [{ argv := ["ls".toList, "-l".toList], pipe_to := 1 },
       { argv := ["cat".toList], filename := "f".toList }] "bin:.".toList
      (by decide) (by decide)
  refine ⟨commands1, sh1, h1, ?_⟩
  have h2 : verify_cmd parser_on_blanks (kernel_with ["./ls".toList, "bin/ls".toList])
      (Console.init [] std_fds)
      [{ argv := ["ls".toList, "-l".toList], pipe_to := 1 },
       { argv := ["cat".toList], filename := "f".toList }]
      = some ([{ proc_id := 0, argv := ["bin/ls".toList, "-l".toList], pipe_to := 1 },
               { argv := ["cat".toList], filename := "f".toList }],
              { Console.init [] std_fds with proc_counter := 1 }) := by decide
  rw [h2] at h1
  exact (Prod.mk.inj (Option.some.inj h1)).1.symm

/-! ## C14: the index counter across runs -/

/-- C14, as stated, fails: on a fresh `Console`, after a pass of the read loop on the line
`a` (which resolves), `setup_cmd` on the segments of a second line `a` gives the command
the index 1, not 0. -/
theorem counter_not_reset_counterexample :
    (match run_line parser_on_blanks (kernel_with ["bin/a".toList])
        { Console.init [] std_fds with cmd_line := "a".toList } with
      | .ok (_, sh1) =>
        (setup_cmd parser_on_blanks (kernel_with ["bin/a".toList]) sh1 [["a".toList]]).map
          (fun r => r.1.map Command.proc_id)
      | .error _ => none)
      = some [1] := by
  decide

theorem print_env_proc_counter {sh sh1 : Console} {name : Str} {c : Prop} [Decidable c]
    (h : (if c then print_env sh name else some sh) = some sh1) :
    sh1.proc_counter = sh.proc_counter := by
  split at h
  · unfold print_env at h
    split at h
    · cases h; rfl
    · exact Option.noConfusion h
  · cases h; rfl

theorem builtin_loop_proc_counter :
    ∀ (fuel : Nat) (sh : Console) (commands : List Command) (it : Nat)
      (r : Bool × List Command × Console),
      builtin_loop fuel sh commands it = some r → r.2.2.proc_counter = sh.proc_counter := by
  intro fuel
  induction fuel with
  | zero => intro sh commands it r h; simp [builtin_loop] at h
  | succ fuel ih =>
    intro sh commands it r h
    unfold builtin_loop at h
    simp only at h
    repeat' split at h
    all_goals
      first
      | exact Option.noConfusion h
      | (cases h; try first | rfl | exact print_env_proc_counter (by assumption))
      | (rw [ih _ _ _ _ h]; try first | rfl | exact print_env_proc_counter (by assumption))

theorem unregister_pipe_proc_counter (sh : Console) (k : Int) :
    (unregister_pipe sh k).proc_counter = sh.proc_counter := by
  unfold unregister_pipe; split <;> rfl

theorem execute_proc_counter (K : Kernel) (sh sh1 : Console) (cmd : Command)
    (h : execute K sh cmd = .ok sh1) : sh1.proc_counter = sh.proc_counter := by
  unfold execute at h
  simp only at h
  split at h
  · simp at h
  · rename_i s1 hreg
    have hs1 : s1.proc_counter = sh.proc_counter := by
      split at hreg
      · unfold register_pipe at hreg
        split at hreg
        · simp only [Except.ok.injEq] at hreg; rw [← hreg]
        · split at hreg
          · simp only [Except.ok.injEq] at hreg; rw [← hreg]; rfl
          · simp at hreg
      · simp only [Except.ok.injEq] at hreg; rw [← hreg]
    split at h
    · split at h
      · simp only [Except.ok.injEq] at h
        rw [← h, execute_parent, unregister_pipe_proc_counter]
        exact hs1
      · simp at h
    · simp at h

theorem execute_cmd_proc_counter (K : Kernel) (commands : List Command) :
    ∀ (sh sh1 : Console), execute_cmd K sh commands = .ok sh1 →
      sh1.proc_counter = sh.proc_counter := by
  induction commands with
  | nil => intro sh sh1 h; simp only [execute_cmd, Except.ok.injEq] at h; rw [← h]
  | cons cmd rest ih =>
    intro sh sh1 h
    unfold execute_cmd at h
    split at h
    · split at h
      · simp at h
      · rename_i s1 hex
        rw [ih _ _ h, execute_proc_counter K _ _ _ hex]
    · split at h
      · simp at h
      · simp only [Except.ok.injEq] at h; rw [← h]

theorem setup_one_fresh (seg : List Str) (c : Command) (h : setup_one seg = some c) :
    c.proc_id = -1 := by
  unfold setup_one at h
  split at h
  · simp at h
  · simp only [Option.some.injEq] at h; rw [← h]

theorem setup_loop_mem (segs : List (List Str)) (cmds : List Command)
    (h : setup_loop segs = some cmds) :
    ∀ c ∈ cmds, ∃ seg ∈ segs, setup_one seg = some c := by
  induction segs generalizing cmds with
  | nil =>
    simp only [setup_loop, Option.some.injEq] at h
    subst h
    intro c hc; simp at hc
  | cons seg segs ih =>
    unfold setup_loop at h
    split at h
    · simp at h
    · rename_i c0 h0
      split at h
      · simp at h
      · rename_i rest hrest
        simp only [Option.some.injEq] at h
        subst h
        intro c hc
        rcases List.mem_cons.1 hc with rfl | hc
        · exact ⟨seg, by simp, h0⟩
        · obtain ⟨s, hs, hone⟩ := ih rest hrest c hc
          exact ⟨s, by simp [hs], hone⟩

/-- C14, amended: a freshly constructed `Console` has the counter at 0. In any state, on
segments that are not empty and leave a non-empty `argv`, with `PATH` set, `setup_cmd`
returns and gives the `k` commands it resolves the indices `proc_counter`,
`proc_counter + 1`, ..., `proc_counter + k - 1`, the others keeping -1, and leaves the
counter at `proc_counter + k`. Neither `execute_builtin_cmd` nor `execute_cmd` changes the
counter, so the next run starts from where this one stopped. -/
theorem proc_counter_runs_on (P : Parser) (K : Kernel) (sh : Console)
    (segs : List (List Str)) (path_all : Str)
    (hpath : getenv sh.env "PATH".toList = some path_all)
    (hseg : ∀ seg ∈ segs, seg ≠ [])
    (hargv : ∀ seg ∈ segs, ∀ c, setup_one seg = some c → c.argv ≠ []) :
    (∀ env fds, (Console.init env fds).proc_counter = 0) ∧
    (∃ cmds commands1 sh1,
      setup_loop segs = some cmds ∧
      setup_cmd P K sh segs = some (commands1, sh1) ∧
      commands1.map Command.proc_id
        = (List.range (cmds.takeWhile (on_path K (P.split_by path_all ":".toList))).length).map
            (fun (i : Nat) => sh.proc_counter + (i : Int))
          ++ List.replicate
            (segs.length - (cmds.takeWhile (on_path K (P.split_by path_all ":".toList))).length)
            (-1) ∧
      sh1.proc_counter = sh.proc_counter
        + ((cmds.takeWhile (on_path K (P.split_by path_all ":".toList))).length : Nat) ∧
      (∀ r, execute_builtin_cmd sh1 commands1 = some r →
        r.2.2.proc_counter = sh1.proc_counter)) ∧
    (∀ (cs : List Command) (s2 s3 : Console), execute_cmd K s2 cs = .ok s3 →
      s3.proc_counter = s2.proc_counter) := by
  refine ⟨fun _ _ => rfl, ?_, fun cs s2 s3 h => execute_cmd_proc_counter K cs s2 s3 h⟩
  obtain ⟨cmds, h1, h2⟩ := setup_loop_spec segs hseg
  have hmem := setup_loop_mem segs cmds h1
  have hne : ∀ c ∈ cmds, c.argv ≠ [] := by
    intro c hc
    obtain ⟨seg, hs, hone⟩ := hmem c hc
    exact hargv seg hs c hone
  have hfresh : ∀ c ∈ cmds, c.proc_id = -1 := by
    intro c hc
    obtain ⟨seg, _, hone⟩ := hmem c hc
    exact setup_one_fresh seg c hone
  obtain ⟨commands1, hv, _, h3⟩ :=
    verify_loop_spec K (P.split_by path_all ":".toList) cmds sh.proc_counter hne
  have hdrop : ∀ k, (cmds.drop k).map Command.proc_id
      = List.replicate (segs.length - k) (-1) := by
    intro k
    apply List.eq_replicate_iff.2
    refine ⟨by simp [h2.length_eq], ?_⟩
    intro x hx
    obtain ⟨c, hc, rfl⟩ := List.mem_map.1 hx
    exact hfresh c (List.mem_of_mem_drop hc)
  rw [hdrop] at h3
  refine ⟨cmds, commands1,
    { sh with proc_counter := sh.proc_counter
        + (((cmds.takeWhile (on_path K (P.split_by path_all ":".toList))).length : Nat) : Int) },
    h1, ?_, h3, rfl, ?_⟩
  · unfold setup_cmd verify_cmd
    simp only [h1, hpath, hv]
  · intro r hr
    exact builtin_loop_proc_counter _ _ _ _ r hr

theorem proc_counter_runs_on_witness :
    ∃ cmds commands1 sh1,
      setup_loop [["a".toList, "|".toList], ["a".toList]] = some cmds ∧
      setup_cmd parser_on_blanks (kernel_with ["bin/a".toList])
        { Console.init [] std_fds with proc_counter := 5 }
        [["a".toList, "|".toList], ["a".toList]] = some (commands1, sh1) ∧
      commands1.map Command.proc_id = [5, 6] ∧
      sh1.proc_counter = 7 := by
  obtain ⟨cmds, commands1, sh1, h1, h2, h3, h4, _⟩ :=
    (proc_counter_runs_on parser_on_blanks (kernel_with ["bin/a".toList])
      { Console.init [] std_fds with proc_counter := 5 }
      [["a".toList, "|".toList], ["a".toList]] "bin:.".toList
      (by decide) (by decide) (by decide)).2.1
  have hc : cmds = [{ argv := ["a".toList], pipe_to := 1 }, { argv := ["a".toList] }] := by
    have : setup_loop [["a".toList, "|".toList], ["a".toList]]
        = some [{ argv := ["a".toList], pipe_to := 1 }, { argv := ["a".toList] }] := by decide
    rw [this] at h1
    exact (Option.some.inj h1).symm
  subst hc
  refine ⟨_, commands1, sh1, h1, h2, ?_, ?_⟩
  · rw [h3]; decide
  · rw [h4]; decide

/-! ## C15, C16: the value of `pipe_to` -/

theorem to_int_range (x : Int) : -(2 ^ 31) ≤ to_int x ∧ to_int x < 2 ^ 31 := by
  unfold to_int
  norm_num
  omega

theorem atoi_range (s : Str) : -(2 ^ 31) ≤ atoi s ∧ atoi s < 2 ^ 31 := by
  unfold atoi
  split <;> exact to_int_range _

/-- C15, as stated, fails: the line `a |-1` builds a command with `pipe_to = -1`. -/
theorem negative_pipe_to_counterexample :
    (setup_loop (parse_cmd parser_on_blanks (Console.init [] std_fds) "a |-1".toList).1).map
      (fun cmds => cmds.map Command.pipe_to) = some [-1] := by
  decide

/-- C16 fails on the code: `pipe_to` is read from the last token without its first character,
not from what follows the pipe symbol. The segment `a 12|` gets `pipe_to = 2` (nothing
follows the pipe symbol: the claim gives 0), and the segment `a x|3` gets `pipe_to = 0`
(`3` follows the pipe symbol: the claim gives 3). -/
theorem pipe_to_ignores_symbol_position :
    setup_one ["a".toList, "12|".toList] = some { argv := ["a".toList], pipe_to := 2 } ∧
    setup_one ["a".toList, "x|3".toList] = some { argv := ["a".toList], pipe_to := 0 } := by
  constructor <;> decide

/-- Every segment that `parse_cmd` returns holds at least one token. -/
theorem parse_cmd_segments_nonempty (P : Parser) (sh : Console) (line : Str) :
    ∀ seg ∈ (parse_cmd P sh line).1, seg ≠ [] := by
  by_cases hline : '/' ∈ line
  · simp [parse_cmd, hline]
  · rw [parse_cmd_eq P sh line hline]
    have hcl := (parse_loop_closed (P.split line) [] [] (by simp) (by simp)).1
    have hclosed : ∀ seg ∈ (parse_loop (P.split line) [] []).1, seg ≠ [] := by
      intro seg hs hnil
      obtain ⟨⟨t, ht, _⟩, _⟩ := hcl seg hs
      rw [hnil] at ht
      simp at ht
    intro seg hs
    split at hs
    · exact hclosed seg hs
    · rename_i h2
      rcases List.mem_append.1 hs with h | h
      · exact hclosed seg h
      · simp only [List.mem_singleton] at h
        rw [h]; exact h2

theorem verify_cmd_pipe_to (P : Parser) (K : Kernel) (sh : Console) (cmds commands : List Command)
    (sh1 : Console) (h : verify_cmd P K sh cmds = some (commands, sh1)) :
    commands.map Command.pipe_to = cmds.map Command.pipe_to := by
  unfold verify_cmd at h
  split at h
  · simp at h
  · simp only at h
    split at h
    · simp at h
    · rename_i commands1 counter1 hv
      simp only [Option.some.injEq, Prod.mk.injEq] at h
      have hf := verify_loop_frame K _ cmds _ _ _ hv
      rw [← h.1]
      clear h hv
      induction hf with
      | nil => rfl
      | cons hx _ ih => simp [hx.1, ih]

/-- C15, amended: for every line (one with the path separator has no segment), each command
built from a segment of `parse_cmd` has a `pipe_to` in the range of `int`: 0 when the last token holds no pipe
symbol, 1 when it is exactly the pipe symbol, `N` when it is the pipe symbol followed by the
decimal digits of `N < 2 ^ 31`, and otherwise what `atoi` returns for the token without its
first character, which can be negative. `verify_cmd` keeps these values, and for a command
with `pipe_to ≤ 0` `execute` creates no pipe. -/
theorem pipe_to_is_atoi_result (P : Parser) (sh : Console) (line : Str) :
    ∃ cmds,
      setup_loop (parse_cmd P sh line).1 = some cmds ∧
      List.Forall₂ (fun c seg =>
          -(2 ^ 31) ≤ c.pipe_to ∧ c.pipe_to < 2 ^ 31 ∧
          (∀ back, seg.getLast? = some back → '|' ∉ back → c.pipe_to = 0) ∧
          (seg.getLast? = some "|".toList → c.pipe_to = 1) ∧
          (∀ N : Nat, N < 2 ^ 31 → seg.getLast? = some ('|' :: Nat.toDigits 10 N) →
            c.pipe_to = (N : Int)) ∧
          (∀ back, seg.getLast? = some back → '|' ∈ back → back.length ≠ 1 →
            c.pipe_to = atoi (back.drop 1)))
        cmds (parse_cmd P sh line).1 ∧
      (∀ (K : Kernel) (commands : List Command) (sh1 : Console),
        setup_cmd P K sh (parse_cmd P sh line).1 = some (commands, sh1) →
        commands.map Command.pipe_to = cmds.map Command.pipe_to) ∧
      (∀ (K : Kernel) (s : Console) (c : Command), K.no_exhaustion → c.pipe_to ≤ 0 →
        execute K s c = .ok (execute_parent K s c) ∧
        (execute_parent K s c).pipes = s.pipes) := by
  obtain ⟨cmds, h1, h2⟩ :=
    setup_loop_spec (parse_cmd P sh line).1 (parse_cmd_segments_nonempty P sh line)
  have hpair : ∀ (c : Command) (seg : List Str), setup_one seg = some c →
      -(2 ^ 31) ≤ c.pipe_to ∧ c.pipe_to < 2 ^ 31 ∧
      (∀ back, seg.getLast? = some back → '|' ∉ back → c.pipe_to = 0) ∧
      (seg.getLast? = some "|".toList → c.pipe_to = 1) ∧
      (∀ N : Nat, N < 2 ^ 31 → seg.getLast? = some ('|' :: Nat.toDigits 10 N) →
        c.pipe_to = (N : Int)) ∧
      (∀ back, seg.getLast? = some back → '|' ∈ back → back.length ≠ 1 →
        c.pipe_to = atoi (back.drop 1)) := by
    intro c seg hone
    have hseg : seg ≠ [] := by
      intro hnil
      rw [hnil] at hone
      simp [setup_one, setup_pipe] at hone
    obtain ⟨front, b, rfl⟩ := exists_snoc seg hseg
    unfold setup_one at hone
    rw [setup_pipe_concat] at hone
    simp only [Option.some.injEq] at hone
    have hpt : c.pipe_to = (if '|' ∈ b then (if b.length ≠ 1 then atoi (b.drop 1) else 1) else 0) := by
      rw [← hone]
      split <;> rfl
    simp only [List.getLast?_concat, Option.some.injEq]
    have hr := atoi_range (b.drop 1)
    refine ⟨?_, ?_, ?_, ?_, ?_, ?_⟩
    · rw [hpt]; split
      · split
        · exact hr.1
        · norm_num
      · norm_num
    · rw [hpt]; split
      · split
        · exact hr.2
        · norm_num
      · norm_num
    · intro back hb hno
      subst hb
      rw [hpt, if_neg hno]
    · intro hb
      subst hb
      rw [hpt]
      rfl
    · intro N hN hb
      subst hb
      have hlen : ('|' :: Nat.toDigits 10 N).length ≠ 1 := by
        obtain ⟨L, hL1, _, hL3, _⟩ := toDigitsCore_spec N (N + 1) (by omega)
        have hL : Nat.toDigits 10 N = L := by simpa [Nat.toDigits] using hL1 []
        rw [hL]
        simpa [List.length_eq_zero] using hL3
      rw [hpt, if_pos (by simp), if_pos hlen, List.drop_one, List.tail_cons, atoi_toDigits N hN]
    · intro back hb hin hlen
      subst hb
      rw [hpt, if_pos hin, if_pos hlen]
  refine ⟨cmds, h1, ?_, ?_, ?_⟩
  · exact h2.imp (fun c seg hx => hpair c seg hx)
  · intro K commands sh1 hs
    unfold setup_cmd at hs
    rw [h1] at hs
    exact verify_cmd_pipe_to P K sh cmds commands sh1 hs
  · intro K s c hK hle
    have hens : ensure_pipe s c = s := by
      unfold ensure_pipe
      rw [if_neg (by omega)]
    have := execute_eq K s c hK
    rw [hens] at this
    exact ⟨this, by simp [execute_parent, unregister_pipe]; split <;> rfl⟩

/-! ## C17: a command with both a pipe directive and an output file -/

/-- C17, as stated, fails: for the command of the line `a > out |` (index 0, `pipe_to = 1`,
output file `out`), launched from a fresh state, `execute` creates a pipe and leaves it in
the registry under key 0. -/
theorem file_and_pipe_counterexample :
    (match execute (kernel_with ["bin/a".toList]) (Console.init [] std_fds)
        { proc_id := 0, argv := ["bin/a".toList], pipe_to := 1, filename := "out".toList } with
      | .ok sh1 => (sh1.pipe_lookup, sh1.pipes)
      | .error _ => ([], 0))
      = ([(0, (3, 4))], 1) := by
  decide

theorem lookup_eq_none_iff_not_key (m : List (Int × (Nat × Nat))) (k : Int) :
    m.lookup k = none ↔ k ∉ m.map Prod.fst := by
  induction m with
  | nil => simp [List.lookup]
  | cons e m ih =>
    obtain ⟨k1, v⟩ := e
    by_cases h : k = k1
    · subst h
      simp [List.lookup]
    · have hb : (k == k1) = false := by rw [beq_eq_false_iff_ne]; exact h
      simp [List.lookup, hb, ih, h]

theorem lookup_filter_keys (m : List (Int × (Nat × Nat))) (k j : Int) (h : j ≠ k) :
    (m.filter (fun e => e.1 ≠ k)).lookup j = m.lookup j := by
  induction m with
  | nil => rfl
  | cons e m ih =>
    obtain ⟨k1, v⟩ := e
    by_cases hk : k1 = k
    · subst hk
      have : (j == k1) = false := by rw [beq_eq_false_iff_ne]; exact h
      simpa [List.filter, List.lookup, this] using ih
    · by_cases hj : j = k1
      · subst hj
        simp [List.filter, hk, List.lookup]
      · have : (j == k1) = false := by rw [beq_eq_false_iff_ne]; exact hj
        simpa [List.filter, hk, List.lookup, this] using ih

/-- C17, amended: a command with a non-empty output file, the kernel refusing no process,
pipe or wait. `execute` returns, whether or not the file opens. Without a pipe directive
(`pipe_to ≤ 0`) the state it forks from is the state it was called in. With one
(`pipe_to > 0`) the registry has, before forking, an entry under the key
`proc_id + pipe_to - 1`, an `int` (the sum itself when it is in the range of `int`): when
the key was there already the state is as before (no pipe is created, the keys are the
same); when it was absent one pipe is created and the key is added in front of the others,
so the keys are the same as before only when the key was present. The entry is still
registered when `execute` returns, for every `pipe_to` an `int` can hold. The child, when the
file opens, reaches `execvp` with the file as its standard output; when the file does not
open it reports that and exits with status 1. -/
theorem file_command_still_registers_pipe (K : Kernel) (sh : Console) (cmd : Command)
    (hK : K.no_exhaustion) (hfile : cmd.filename ≠ []) :
    execute K sh cmd = .ok (execute_parent K (ensure_pipe sh cmd) cmd) ∧
    (cmd.pipe_to ≤ 0 → ensure_pipe sh cmd = sh) ∧
    (cmd.pipe_to > 0 →
      (to_int (cmd.proc_id + cmd.pipe_to - 1) ∈ sh.pipe_lookup.map Prod.fst →
        ensure_pipe sh cmd = sh) ∧
      (to_int (cmd.proc_id + cmd.pipe_to - 1) ∉ sh.pipe_lookup.map Prod.fst →
        (ensure_pipe sh cmd).pipes = sh.pipes + 1 ∧
        (ensure_pipe sh cmd).pipe_lookup.map Prod.fst
          = to_int (cmd.proc_id + cmd.pipe_to - 1) :: sh.pipe_lookup.map Prod.fst) ∧
      ((ensure_pipe sh cmd).pipe_lookup.map Prod.fst = sh.pipe_lookup.map Prod.fst ↔
        to_int (cmd.proc_id + cmd.pipe_to - 1) ∈ sh.pipe_lookup.map Prod.fst) ∧
      to_int (cmd.proc_id + cmd.pipe_to - 1) ∈ (ensure_pipe sh cmd).pipe_lookup.map Prod.fst ∧
      (-(2 ^ 31) ≤ cmd.proc_id + cmd.pipe_to - 1 → cmd.proc_id + cmd.pipe_to - 1 < 2 ^ 31 →
        cmd.proc_id + cmd.pipe_to - 1 ∈ (ensure_pipe sh cmd).pipe_lookup.map Prod.fst) ∧
      (cmd.pipe_to < 2 ^ 31 →
        to_int (cmd.proc_id + cmd.pipe_to - 1)
          ∈ (execute_parent K (ensure_pipe sh cmd) cmd).pipe_lookup.map Prod.fst)) ∧
    (K.can_open cmd.filename = true →
      ∃ t, execute_child K (ensure_pipe sh cmd) cmd = exec_child K cmd t ∧
        fd_get t 1 = some (.file cmd.filename)) ∧
    (K.can_open cmd.filename = false →
      (execute_child K (ensure_pipe sh cmd) cmd).ending = .exited 1 ∧
      (execute_child K (ensure_pipe sh cmd) cmd).err = "File open failed!\n".toList) := by
  have hlen : cmd.filename.length > 0 := List.length_pos.2 hfile
  refine ⟨execute_eq K sh cmd hK, ?_, ?_, ?_, ?_⟩
  · intro h
    unfold ensure_pipe
    rw [if_neg (by omega)]
  · intro hpt
    have hin : to_int (cmd.proc_id + cmd.pipe_to - 1) ∈ sh.pipe_lookup.map Prod.fst →
        ensure_pipe sh cmd = sh := by
      intro h
      unfold ensure_pipe
      rw [if_pos hpt]
      cases hl : sh.pipe_lookup.lookup (to_int (cmd.proc_id + cmd.pipe_to - 1)) with
      | none => exact absurd h ((lookup_eq_none_iff_not_key _ _).1 hl)
      | some e => rfl
    have hout : to_int (cmd.proc_id + cmd.pipe_to - 1) ∉ sh.pipe_lookup.map Prod.fst →
        ensure_pipe sh cmd = open_pipe sh (to_int (cmd.proc_id + cmd.pipe_to - 1)) := by
      intro h
      unfold ensure_pipe
      rw [if_pos hpt, (lookup_eq_none_iff_not_key _ _).2 h]
    have hmem : to_int (cmd.proc_id + cmd.pipe_to - 1)
        ∈ (ensure_pipe sh cmd).pipe_lookup.map Prod.fst := by
      by_cases h : to_int (cmd.proc_id + cmd.pipe_to - 1) ∈ sh.pipe_lookup.map Prod.fst
      · rw [hin h]; exact h
      · rw [hout h]; simp [open_pipe]
    refine ⟨hin, ?_, ?_, hmem, ?_, ?_⟩
    · intro h
      rw [hout h]
      exact ⟨rfl, by simp [open_pipe]⟩
    · constructor
      · intro e
        by_contra h
        have h2 := congrArg List.length e
        rw [hout h] at h2
        simp [open_pipe] at h2
      · intro h
        rw [hin h]
    · intro h1 h2
      rw [← to_int_of_range _ h1 h2]
      exact hmem
    · intro hlt
      have hne : to_int (cmd.proc_id + cmd.pipe_to - 1) ≠ to_int (cmd.proc_id - 1) :=
        Ne.symm (to_int_ne _ _ (by omega) (by norm_num at hlt ⊢; omega))
      have hsome : (ensure_pipe sh cmd).pipe_lookup.lookup
          (to_int (cmd.proc_id + cmd.pipe_to - 1)) ≠ none :=
        fun e => (lookup_eq_none_iff_not_key _ _).1 e hmem
      by_contra hnot
      apply hsome
      have := (lookup_eq_none_iff_not_key _ _).2 hnot
      unfold execute_parent unregister_pipe at this
      split at this
      · exact this
      · simp only at this
        rw [lookup_filter_keys _ _ _ hne] at this
        exact this
  · intro hopen
    unfold execute_child
    simp only [hlen, decide_True, if_true, hopen]
    refine ⟨_, rfl, ?_⟩
    rw [fd_get_dup2]
    simp [fd_get_fd_set]
  · intro hopen
    unfold execute_child
    simp only [hlen, decide_True, if_true, hopen]
    exact ⟨rfl, rfl⟩

theorem file_command_still_registers_pipe_witness :
    execute { kernel_with ["bin/a".toList] with can_open := fun _ => false }
        (Console.init [] std_fds)
        { proc_id := 0, argv := ["bin/a".toList], pipe_to := 1, filename := "out".toList }
      = .ok (execute_parent { kernel_with ["bin/a".toList] with can_open := fun _ => false }
          (ensure_pipe (Console.init [] std_fds)
            { proc_id := 0, argv := ["bin/a".toList], pipe_to := 1, filename := "out".toList })
          { proc_id := 0, argv := ["bin/a".toList], pipe_to := 1, filename := "out".toList }) ∧
    (0 : Int) ∈ (execute_parent { kernel_with ["bin/a".toList] with can_open := fun _ => false }
        (ensure_pipe (Console.init [] std_fds)
          { proc_id := 0, argv := ["bin/a".toList], pipe_to := 1, filename := "out".toList })
        { proc_id := 0, argv := ["bin/a".toList], pipe_to := 1, filename := "out".toList }
      ).pipe_lookup.map Prod.fst ∧
    (execute_child { kernel_with ["bin/a".toList] with can_open := fun _ => false }
        (ensure_pipe (Console.init [] std_fds)
          { proc_id := 0, argv := ["bin/a".toList], pipe_to := 1, filename := "out".toList })
        { proc_id := 0, argv := ["bin/a".toList], pipe_to := 1, filename := "out".toList }
      ).ending = .exited 1 :=
  ⟨(file_command_still_registers_pipe
      { kernel_with ["bin/a".toList] with can_open := fun _ => false } (Console.init [] std_fds)
      { proc_id := 0, argv := ["bin/a".toList], pipe_to := 1, filename := "out".toList }
      ⟨fun _ => rfl, fun _ => rfl, fun _ => rfl⟩ (by decide)).1,
   ((file_command_still_registers_pipe
      { kernel_with ["bin/a".toList] with can_open := fun _ => false } (Console.init [] std_fds)
      { proc_id := 0, argv := ["bin/a".toList], pipe_to := 1, filename := "out".toList }
      ⟨fun _ => rfl, fun _ => rfl, fun _ => rfl⟩ (by decide)).2.2.1 (by decide)).2.2.2.2.2
      (by decide),
   ((file_command_still_registers_pipe
      { kernel_with ["bin/a".toList] with can_open := fun _ => false } (Console.init [] std_fds)
      { proc_id := 0, argv := ["bin/a".toList], pipe_to := 1, filename := "out".toList }
      ⟨fun _ => rfl, fun _ => rfl, fun _ => rfl⟩ (by decide)).2.2.2.2 rfl).1⟩

/-! ## C18: `execvp` fails -/

/-- C18 fails on the code: in a child whose `execvp` fails (the file `bin/notes` exists but
cannot be executed) nothing is written and `exit` is not called: the child leaves the branch
and returns from `execute`. The sibling failure, an output file that cannot be opened, does
write a message and call `exit(EXIT_FAILURE)`. -/
theorem exec_failure_returns_to_loop :
    execute_child { kernel_with ["bin/notes".toList] with can_exec := fun _ => false }
        (Console.init [] std_fds) { proc_id := 0, argv := ["bin/notes".toList] }
      = { argv := ["bin/notes".toList], fds := std_fds, err := [], ending := .returned } ∧
    execute_child { kernel_with ["bin/a".toList] with can_open := fun _ => false }
        (Console.init [] std_fds)
        { proc_id := 0, argv := ["bin/a".toList], filename := "out".toList }
      = { argv := ["bin/a".toList], fds := std_fds, err := "File open failed!\n".toList,
          ending := .exited 1 } := by
  constructor <;> decide

/-! ## C19: the key a stage writes to and the key a stage reads from -/

theorem open_pipe_lookup_other (s : Console) (key j : Int) (h : j ≠ key) :
    (open_pipe s key).pipe_lookup.lookup j = s.pipe_lookup.lookup j := by
  have hb : (j == key) = false := by rw [beq_eq_false_iff_ne]; exact h
  simp [open_pipe, List.lookup, hb]

theorem registry_ok_of_empty (s : Console) (hreg : s.pipe_lookup = [])
    (h0 : fd_get s.fds 0 ≠ none) (h1 : fd_get s.fds 1 ≠ none) : registry_ok s := by
  refine ⟨h0, h1, ?_, ?_⟩
  · intro k r w h; rw [hreg] at h; simp [List.lookup] at h
  · intro k1 k2 r1 w1 r2 w2 _ h; rw [hreg] at h; simp [List.lookup] at h

/-- The table left by the `open` and `dup2(filefd, 1)` of the child keeps descriptor 0. -/
theorem fd_get_file_stdin (t : FdTable) (f : Str) (h : fd_get t 0 ≠ none) :
    fd_get (dup2 (fd_set t (lowest_free t) (some (.file f))) (lowest_free t) 1) 0
      = fd_get t 0 := by
  have hlf : ¬ (0 = lowest_free t) := Ne.symm (lowest_free_ne t 0 h)
  simp [fd_get_dup2, fd_get_fd_set, hlf]

/-- The child's table `t` seen through the last step of `execute_child`: the `open` and
`dup2(filefd, 1)` when there is an output file. -/
theorem execute_child_stdin_tail (K : Kernel) (c : Command) (t : FdTable) (x : Option FileObj)
    (hx : fd_get t 0 = x) (h : x ≠ none) :
    fd_get (if decide (c.filename.length > 0) = true then
        if K.can_open c.filename = true then
          exec_child K c
            (dup2 (fd_set t (lowest_free t) (some (.file c.filename))) (lowest_free t) 1)
        else
          { argv := c.argv, fds := t, err := "File open failed!\n".toList, ending := .exited 1 }
      else exec_child K c t).fds 0 = x := by
  subst hx
  split
  · split
    · rw [exec_child_fds, fd_get_file_stdin _ _ h]
    · rfl
  · rw [exec_child_fds]

/-- The standard input of the child of `execute`, for every command: the read end of the
entry under the key `proc_id - 1` when there is one, else the standard input of the shell. -/
theorem execute_child_stdin (K : Kernel) (s : Console) (c : Command) (hok : registry_ok s) :
    fd_get (execute_child K s c).fds 0 =
      (match s.pipe_lookup.lookup (to_int (c.proc_id - 1)) with
       | some e => fd_get s.fds e.1
       | none => fd_get s.fds 0) := by
  obtain ⟨h0, h1, hent, _⟩ := hok
  unfold execute_child
  simp only []
  apply execute_child_stdin_tail
  · cases hprev : s.pipe_lookup.lookup (to_int (c.proc_id - 1)) with
    | none =>
      simp only []
      split
      · cases hnext : s.pipe_lookup.lookup (to_int (c.proc_id + c.pipe_to - 1)) with
        | none => rfl
        | some e =>
          obtain ⟨r, w⟩ := e
          obtain ⟨r0, _, w0, _, _, _, _⟩ := hent _ r w hnext
          simp only []
          split <;> simp [fd_get_close, fd_get_dup2, Ne.symm r0, Ne.symm w0]
      · rfl
    | some e0 =>
      obtain ⟨r2, w2⟩ := e0
      obtain ⟨r20, _, w20, _, _, hr2, _⟩ := hent _ r2 w2 hprev
      simp only []
      split
      · cases hnext : s.pipe_lookup.lookup (to_int (c.proc_id + c.pipe_to - 1)) with
        | none => simp [fd_get_close, fd_get_dup2, Ne.symm r20, Ne.symm w20, hr2]
        | some e =>
          obtain ⟨r, w⟩ := e
          obtain ⟨r0, _, w0, _, _, _, _⟩ := hent _ r w hnext
          simp only []
          split <;>
            simp [fd_get_close, fd_get_dup2, Ne.symm r0, Ne.symm w0, Ne.symm r20, Ne.symm w20, hr2]
      · simp [fd_get_close, fd_get_dup2, Ne.symm r20, Ne.symm w20, hr2]
  · cases hprev : s.pipe_lookup.lookup (to_int (c.proc_id - 1)) with
    | none => exact h0
    | some e0 =>
      obtain ⟨r2, w2⟩ := e0
      exact (hent _ r2 w2 hprev).2.2.2.2.2.1

/-- The standard output of the child of `execute` for a command with a pipe directive and
no output file: the write end of the entry under the key `proc_id + pipe_to - 1`. -/
theorem execute_child_stdout (K : Kernel) (s : Console) (c : Command) (r w : Nat)
    (hok : registry_ok s) (hpt : c.pipe_to > 0) (hint : c.pipe_to < 2 ^ 31)
    (hfile : c.filename = [])
    (hnext : s.pipe_lookup.lookup (to_int (c.proc_id + c.pipe_to - 1)) = some (r, w)) :
    fd_get (execute_child K s c).fds 1 = fd_get s.fds w := by
  obtain ⟨h0, h1, hent, hdis⟩ := hok
  obtain ⟨r0, r1, w0, w1, hrw, hr, hw⟩ := hent _ r w hnext
  have hne : to_int (c.proc_id - 1) ≠ to_int (c.proc_id + c.pipe_to - 1) :=
    to_int_ne _ _ (by omega) (by norm_num at hint ⊢; omega)
  have hnp : decide (c.pipe_to > 0) = true := by simpa using hpt
  have hnf : decide (c.filename.length > 0) = false := by rw [hfile]; decide
  unfold execute_child
  simp only [hnp, hnf, hnext, if_true, Bool.false_eq_true, if_false, exec_child_fds]
  cases hprev : s.pipe_lookup.lookup (to_int (c.proc_id - 1)) with
  | none =>
    simp [fd_get_close, fd_get_dup2, Ne.symm r1, hw]
  | some e0 =>
    obtain ⟨r2, w2⟩ := e0
    obtain ⟨_, _, hwr2, hww2⟩ := hdis _ _ _ _ _ _ hne hprev hnext
    obtain ⟨r20, _, w20, _, _, hr2, _⟩ := hent _ r2 w2 hprev
    simp [fd_get_close, fd_get_dup2, Ne.symm r1, hw, w0, Ne.symm hww2, hr2]

theorem lookup_filter_self (m : List (Int × (Nat × Nat))) (k : Int) :
    (m.filter (fun e => e.1 ≠ k)).lookup k = none := by
  rw [lookup_eq_none_iff_not_key]
  simp [List.mem_filter]

theorem registry_ok_open_pipe (s : Console) (key : Int) (hok : registry_ok s)
    (hnone : s.pipe_lookup.lookup key = none) : registry_ok (open_pipe s key) := by
  obtain ⟨h0, h1, hent, hdis⟩ := hok
  obtain ⟨r, w, hlk, _, _, hfds, hrw, hfresh⟩ := open_pipe_spec s key
  obtain ⟨r0, w0⟩ := hfresh 0 h0
  obtain ⟨r1, w1⟩ := hfresh 1 h1
  have hlook : ∀ j, (open_pipe s key).pipe_lookup.lookup j
      = if j = key then some (r, w) else s.pipe_lookup.lookup j := by
    intro j
    rw [hlk]
    by_cases hj : j = key
    · subst hj; simp [List.lookup]
    · have hb : (j == key) = false := by rw [beq_eq_false_iff_ne]; exact hj
      simp [List.lookup, hb, hj]
  have hold : ∀ k a b, s.pipe_lookup.lookup k = some (a, b) →
      a ≠ r ∧ a ≠ w ∧ b ≠ r ∧ b ≠ w := by
    intro k a b h
    obtain ⟨_, _, _, _, _, ha, hb⟩ := hent k a b h
    obtain ⟨ra, wa⟩ := hfresh a ha
    obtain ⟨rb, wb⟩ := hfresh b hb
    exact ⟨Ne.symm ra, Ne.symm wa, Ne.symm rb, Ne.symm wb⟩
  refine ⟨?_, ?_, ?_, ?_⟩
  · rw [hfds]; simpa [Ne.symm r0, Ne.symm w0] using h0
  · rw [hfds]; simpa [Ne.symm r1, Ne.symm w1] using h1
  · intro k a b h
    rw [hlook] at h
    split at h
    · cases h
      refine ⟨r0, r1, w0, w1, hrw, ?_, ?_⟩
      · rw [hfds]; simp [hrw]
      · rw [hfds]; simp
    · obtain ⟨a0, a1, b0, b1, hab, ha, hb⟩ := hent k a b h
      obtain ⟨ar, aw, br, bw⟩ := hold k a b h
      refine ⟨a0, a1, b0, b1, hab, ?_, ?_⟩
      · rw [hfds]; simpa [ar, aw] using ha
      · rw [hfds]; simpa [br, bw] using hb
  · intro k1 k2 a1 b1 a2 b2 hk hl1 hl2
    rw [hlook] at hl1 hl2
    split at hl1
    · rename_i e1
      rw [if_neg (fun e2 => hk (e1.trans e2.symm))] at hl2
      cases hl1
      obtain ⟨ar, aw, br, bw⟩ := hold k2 a2 b2 hl2
      exact ⟨Ne.symm ar, Ne.symm br, Ne.symm aw, Ne.symm bw⟩
    · split at hl2
      · cases hl2
        obtain ⟨ar, aw, br, bw⟩ := hold k1 a1 b1 hl1
        exact ⟨ar, aw, br, bw⟩
      · exact hdis k1 k2 a1 b1 a2 b2 hk hl1 hl2

theorem registry_ok_ensure_pipe (s : Console) (c : Command) (hok : registry_ok s) :
    registry_ok (ensure_pipe s c) := by
  unfold ensure_pipe
  split
  · cases hl : s.pipe_lookup.lookup (to_int (c.proc_id + c.pipe_to - 1)) with
    | none => exact registry_ok_open_pipe s _ hok hl
    | some e => exact hok
  · exact hok

theorem registry_ok_unregister_pipe (s : Console) (key : Int) (hok : registry_ok s) :
    registry_ok (unregister_pipe s key) := by
  obtain ⟨h0, h1, hent, hdis⟩ := hok
  unfold unregister_pipe
  cases hl : s.pipe_lookup.lookup key with
  | none => exact ⟨h0, h1, hent, hdis⟩
  | some e =>
    obtain ⟨r, w⟩ := e
    obtain ⟨r0, r1, w0, w1, hrw, hr, hw⟩ := hent key r w hl
    have hlook : ∀ j a b,
        (s.pipe_lookup.filter (fun e => e.1 ≠ key)).lookup j = some (a, b) →
        j ≠ key ∧ s.pipe_lookup.lookup j = some (a, b) := by
      intro j a b h
      by_cases hj : j = key
      · subst hj; rw [lookup_filter_self] at h; exact Option.noConfusion h
      · rw [lookup_filter_keys _ _ _ hj] at h; exact ⟨hj, h⟩
    refine ⟨?_, ?_, ?_, ?_⟩
    · simpa [fd_get_close, Ne.symm r0, Ne.symm w0] using h0
    · simpa [fd_get_close, Ne.symm r1, Ne.symm w1] using h1
    · intro k a b h
      obtain ⟨hk, h⟩ := hlook k a b h
      obtain ⟨a0, a1, b0, b1, hab, ha, hb⟩ := hent k a b h
      obtain ⟨ar, aw, br, bw⟩ := hdis k key a b r w hk h hl
      refine ⟨a0, a1, b0, b1, hab, ?_, ?_⟩
      · simpa [fd_get_close, ar, aw] using ha
      · simpa [fd_get_close, br, bw] using hb
    · intro k1 k2 a1 b1 a2 b2 hk hl1 hl2
      exact hdis k1 k2 a1 b1 a2 b2 hk (hlook _ _ _ hl1).2 (hlook _ _ _ hl2).2

theorem registry_ok_execute_parent (K : Kernel) (s : Console) (c : Command)
    (hok : registry_ok s) : registry_ok (execute_parent K s c) := by
  unfold execute_parent
  exact registry_ok_unregister_pipe _ _ hok

theorem to_int_pred_eq_iff (j a : Int) :
    to_int (j - 1) = to_int (a - 1) ↔ to_int j = to_int a := by
  unfold to_int
  norm_num
  omega

theorem unregister_pipe_lookup_other (s : Console) (key j : Int) (h : j ≠ key) :
    (unregister_pipe s key).pipe_lookup.lookup j = s.pipe_lookup.lookup j := by
  unfold unregister_pipe
  split
  · rfl
  · exact lookup_filter_keys _ _ _ h

theorem unregister_pipe_lookup_self (s : Console) (key : Int) :
    (unregister_pipe s key).pipe_lookup.lookup key = none := by
  unfold unregister_pipe
  split
  · assumption
  · exact lookup_filter_self _ _

/-- The shell's `unregister_pipe` closes only the two descriptors of the entry it removes:
the descriptors of an entry under another key stay as they are. -/
theorem unregister_pipe_fds_other (s : Console) (key j : Int) (r w : Nat)
    (hok : registry_ok s) (h : j ≠ key) (hl : s.pipe_lookup.lookup j = some (r, w)) :
    fd_get (unregister_pipe s key).fds r = fd_get s.fds r ∧
    fd_get (unregister_pipe s key).fds w = fd_get s.fds w := by
  obtain ⟨_, _, _, hdis⟩ := hok
  unfold unregister_pipe
  cases hk : s.pipe_lookup.lookup key with
  | none => exact ⟨rfl, rfl⟩
  | some e =>
    obtain ⟨r2, w2⟩ := e
    obtain ⟨a, b, c, d⟩ := hdis j key r w r2 w2 h hl hk
    simp [fd_get_close, a, b, c, d]

theorem ensure_pipe_lookup_keep (s : Console) (c : Command) (j : Int) (e : Nat × Nat)
    (hl : s.pipe_lookup.lookup j = some e) :
    (ensure_pipe s c).pipe_lookup.lookup j = some e := by
  unfold ensure_pipe
  split
  · cases hk : s.pipe_lookup.lookup (to_int (c.proc_id + c.pipe_to - 1)) with
    | some e2 => exact hl
    | none =>
      have hne : j ≠ to_int (c.proc_id + c.pipe_to - 1) := by
        intro e2; rw [e2, hk] at hl; exact Option.noConfusion hl
      simp only []
      rw [open_pipe_lookup_other _ _ _ hne]; exact hl
  · exact hl

theorem ensure_pipe_fds_keep (s : Console) (c : Command) (j : Nat)
    (h : fd_get s.fds j ≠ none) : fd_get (ensure_pipe s c).fds j = fd_get s.fds j := by
  unfold ensure_pipe
  split
  · cases hk : s.pipe_lookup.lookup (to_int (c.proc_id + c.pipe_to - 1)) with
    | some e2 => rfl
    | none =>
      obtain ⟨r, w, _, _, _, hfds, _, hfresh⟩ :=
        open_pipe_spec s (to_int (c.proc_id + c.pipe_to - 1))
      obtain ⟨hr, hw⟩ := hfresh j h
      simp only []
      rw [hfds, if_neg (Ne.symm hw), if_neg (Ne.symm hr)]
  · rfl

theorem registry_ok_execute (K : Kernel) (s s1 : Console) (c : Command)
    (hok : registry_ok s) (h : execute K s c = .ok s1) : registry_ok s1 := by
  unfold execute at h
  simp only at h
  split at h
  · simp at h
  · rename_i s2 hreg
    have hs2 : registry_ok s2 := by
      split at hreg
      · unfold register_pipe at hreg
        split at hreg
        · simp only [Except.ok.injEq] at hreg; rw [← hreg]; exact hok
        · split at hreg
          · simp only [Except.ok.injEq] at hreg
            rw [← hreg]
            exact registry_ok_open_pipe _ _ hok (by assumption)
          · simp at hreg
      · simp only [Except.ok.injEq] at hreg; rw [← hreg]; exact hok
    split at h
    · split at h
      · simp only [Except.ok.injEq] at h
        rw [← h]
        exact registry_ok_execute_parent K _ c hs2
      · simp at h
    · simp at h

/-- The launcher keeps the registry in agreement with the shell's descriptors. -/
theorem registry_ok_execute_cmd (K : Kernel) (commands : List Command) :
    ∀ (sh sh1 : Console), registry_ok sh → execute_cmd K sh commands = .ok sh1 →
      registry_ok sh1 := by
  induction commands with
  | nil => intro sh sh1 hok h; simp only [execute_cmd, Except.ok.injEq] at h; rw [← h]; exact hok
  | cons cmd rest ih =>
    intro sh sh1 hok h
    unfold execute_cmd at h
    split at h
    · split at h
      · simp at h
      · rename_i s1 hex
        exact ih _ _ (registry_ok_execute K _ _ _ hok hex) h
    · split at h
      · simp at h
      · simp only [Except.ok.injEq] at h
        rw [← h]
        exact hok

theorem read_ends_ok_of_none (s : Console)
    (h : ∀ j p, fd_get s.fds j ≠ some (.pipe_read p)) : read_ends_ok s :=
  ⟨fun j p e => absurd e (h j p), fun j1 _ p e _ => absurd e (h j1 p)⟩

theorem read_ends_ok_open_pipe (s : Console) (key : Int) (hok : read_ends_ok s) :
    read_ends_ok (open_pipe s key) := by
  obtain ⟨hfresh, huniq⟩ := hok
  obtain ⟨r, w, _, hpipes, _, hfds, hrw, _⟩ := open_pipe_spec s key
  have hcase : ∀ j p, fd_get (open_pipe s key).fds j = some (.pipe_read p) →
      (j = r ∧ p = s.pipes) ∨ (j ≠ r ∧ fd_get s.fds j = some (.pipe_read p)) := by
    intro j p h
    rw [hfds] at h
    split at h
    · simp at h
    · split at h
      · rename_i hj
        simp only [Option.some.injEq, FileObj.pipe_read.injEq] at h
        exact Or.inl ⟨hj, h.symm⟩
      · rename_i hj
        exact Or.inr ⟨hj, h⟩
  constructor
  · intro j p h
    rw [hpipes]
    rcases hcase j p h with ⟨_, hp⟩ | ⟨_, hold⟩
    · omega
    · have := hfresh j p hold; omega
  · intro j1 j2 p h1 h2
    rcases hcase j1 p h1 with ⟨e1, hp1⟩ | ⟨_, hold1⟩ <;>
      rcases hcase j2 p h2 with ⟨e2, hp2⟩ | ⟨_, hold2⟩
    · rw [e1, e2]
    · have := hfresh j2 p hold2; omega
    · have := hfresh j1 p hold1; omega
    · exact huniq j1 j2 p hold1 hold2

theorem read_ends_ok_ensure_pipe (s : Console) (c : Command) (hok : read_ends_ok s) :
    read_ends_ok (ensure_pipe s c) := by
  unfold ensure_pipe
  split
  · split
    · exact hok
    · exact read_ends_ok_open_pipe s _ hok
  · exact hok

theorem read_ends_ok_unregister_pipe (s : Console) (key : Int) (hok : read_ends_ok s) :
    read_ends_ok (unregister_pipe s key) := by
  obtain ⟨hfresh, huniq⟩ := hok
  unfold unregister_pipe
  split
  · exact ⟨hfresh, huniq⟩
  · rename_i fd0 fd1 _
    have hold : ∀ j o, fd_get (close (close s.fds fd1) fd0) j = some o →
        fd_get s.fds j = some o := by
      intro j o h
      rw [fd_get_close, fd_get_close] at h
      split at h
      · exact Option.noConfusion h
      · split at h
        · exact Option.noConfusion h
        · exact h
    exact ⟨fun j p h => hfresh j p (hold _ _ h),
      fun j1 j2 p h1 h2 => huniq j1 j2 p (hold _ _ h1) (hold _ _ h2)⟩

theorem read_ends_ok_execute_parent (K : Kernel) (s : Console) (c : Command)
    (hok : read_ends_ok s) : read_ends_ok (execute_parent K s c) := by
  unfold execute_parent
  exact read_ends_ok_unregister_pipe _ _ hok

/-- A child forked for a stage that does not read from the entry `key ↦ (r, w)` does not
have the read end of that pipe as its standard input. -/
theorem execute_child_stdin_other (K : Kernel) (s : Console) (c : Command) (key : Int)
    (r w q : Nat) (hok : registry_ok s) (hends : read_ends_ok s)
    (hl : s.pipe_lookup.lookup key = some (r, w))
    (hne : to_int (c.proc_id - 1) ≠ key) (hr : fd_get s.fds r = some (.pipe_read q)) :
    fd_get (execute_child K s c).fds 0 ≠ some (.pipe_read q) := by
  rw [execute_child_stdin K s c hok]
  intro h
  cases hp : s.pipe_lookup.lookup (to_int (c.proc_id - 1)) with
  | none =>
    rw [hp] at h
    exact (hok.2.2.1 key r w hl).1 (hends.2 _ _ q hr h)
  | some e =>
    obtain ⟨r2, w2⟩ := e
    rw [hp] at h
    exact (hok.2.2.2 _ _ _ _ _ _ hne hp hl).1 (hends.2 _ _ q h hr)

theorem read_ends_ok_init : read_ends_ok (Console.init [] std_fds) := by
  apply read_ends_ok_of_none
  intro j p
  rcases j with _ | _ | _ | j <;> simp [Console.init, std_fds, fd_get]

/-- C19: a command with index `i = proc_id` and offset `k = pipe_to > 0`, in any registry
state, the kernel refusing nothing. The key is `i + k - 1` as the code computes it, an
`int`: the number itself when it is in the range of `int`.

Registry. `execute` forks from a state whose registry holds an entry under the key: an entry
that was there is left as it is, with the whole state (no pipe is created); when the key was
absent one pipe is created and its two ends are stored under the key; entries under other
keys are the same in both cases.

Reading. Every stage, whatever its pipe directive and output file, is forked with its
standard input on the read end of the entry under its own index minus one, and on the
shell's standard input when there is no such entry (`registry_ok`: the registry agrees with
the shell's descriptors, as it does from the constructor on in a shell whose standard
input and output are open).

Writer. For an offset an `int` can hold, the key a stage reads from differs from the key it
writes to: the registration leaves the stage's inbound entry alone, its child's standard
input is not the read end of the entry it writes to, its child's standard output (no output
file) is the write end of that entry, and the entry is still registered, both ends open in
the shell, when `execute` returns.

Reader. From any state in which the entry is registered, `execute` of the stage with index
`i + k` (as an `int`) forks a child whose standard input is the read end of the entry, and
the shell drops the entry; `execute` of a stage with any other index forks a child whose
standard input is copied from another descriptor, and the entry stays, its two ends open in
the shell as before.

"Not the read end" is also meant of the pipe itself, not only of the descriptor: with
`read_ends_ok` (a read end is open at one descriptor of the shell only) the standard input
of such a child is not the read end of that pipe. -/
theorem register_before_fork (K : Kernel) (s : Console) (c : Command)
    (hK : K.no_exhaustion) (hpt : c.pipe_to > 0) :
    execute K s c = .ok (execute_parent K (ensure_pipe s c) c) ∧
    (ensure_pipe s c).pipe_lookup.lookup (to_int (c.proc_id + c.pipe_to - 1)) ≠ none ∧
    (-(2 ^ 31) ≤ c.proc_id + c.pipe_to - 1 → c.proc_id + c.pipe_to - 1 < 2 ^ 31 →
      (ensure_pipe s c).pipe_lookup.lookup (c.proc_id + c.pipe_to - 1) ≠ none) ∧
    (∀ e, s.pipe_lookup.lookup (to_int (c.proc_id + c.pipe_to - 1)) = some e →
      ensure_pipe s c = s) ∧
    (s.pipe_lookup.lookup (to_int (c.proc_id + c.pipe_to - 1)) = none →
      (ensure_pipe s c).pipes = s.pipes + 1 ∧
      ∃ r w,
        (ensure_pipe s c).pipe_lookup.lookup (to_int (c.proc_id + c.pipe_to - 1))
          = some (r, w) ∧
        fd_get (ensure_pipe s c).fds r = some (.pipe_read s.pipes) ∧
        fd_get (ensure_pipe s c).fds w = some (.pipe_write s.pipes)) ∧
    (∀ j, j ≠ to_int (c.proc_id + c.pipe_to - 1) →
      (ensure_pipe s c).pipe_lookup.lookup j = s.pipe_lookup.lookup j) ∧
    (∀ (s1 : Console) (c1 : Command) (r w : Nat), registry_ok s1 →
      s1.pipe_lookup.lookup (to_int (c1.proc_id - 1)) = some (r, w) →
      fd_get (execute_child K s1 c1).fds 0 = fd_get s1.fds r) ∧
    (∀ (s1 : Console) (c1 : Command), registry_ok s1 →
      s1.pipe_lookup.lookup (to_int (c1.proc_id - 1)) = none →
      fd_get (execute_child K s1 c1).fds 0 = fd_get s1.fds 0) ∧
    (registry_ok s → c.pipe_to < 2 ^ 31 →
      registry_ok (execute_parent K (ensure_pipe s c) c) ∧
      (ensure_pipe s c).pipe_lookup.lookup (to_int (c.proc_id - 1))
        = s.pipe_lookup.lookup (to_int (c.proc_id - 1)) ∧
      ∃ r w,
        (ensure_pipe s c).pipe_lookup.lookup (to_int (c.proc_id + c.pipe_to - 1))
          = some (r, w) ∧
        (∃ src, src ≠ r ∧
          fd_get (execute_child K (ensure_pipe s c) c).fds 0
            = fd_get (ensure_pipe s c).fds src) ∧
        (c.filename = [] →
          fd_get (execute_child K (ensure_pipe s c) c).fds 1
            = fd_get (ensure_pipe s c).fds w) ∧
        (execute_parent K (ensure_pipe s c) c).pipe_lookup.lookup
            (to_int (c.proc_id + c.pipe_to - 1)) = some (r, w) ∧
        fd_get (execute_parent K (ensure_pipe s c) c).fds r
          = fd_get (ensure_pipe s c).fds r ∧
        fd_get (execute_parent K (ensure_pipe s c) c).fds w
          = fd_get (ensure_pipe s c).fds w ∧
        fd_get (ensure_pipe s c).fds r ≠ none ∧ fd_get (ensure_pipe s c).fds w ≠ none ∧
        (read_ends_ok s →
          read_ends_ok (execute_parent K (ensure_pipe s c) c) ∧
          ∀ q, fd_get (ensure_pipe s c).fds r = some (.pipe_read q) →
            fd_get (execute_child K (ensure_pipe s c) c).fds 0 ≠ some (.pipe_read q))) ∧
    (∀ (s1 : Console) (c1 : Command) (r w : Nat), registry_ok s1 →
      s1.pipe_lookup.lookup (to_int (c.proc_id + c.pipe_to - 1)) = some (r, w) →
      (to_int c1.proc_id = to_int (c.proc_id + c.pipe_to) →
        fd_get (execute_child K (ensure_pipe s1 c1) c1).fds 0 = fd_get s1.fds r ∧
        (execute_parent K (ensure_pipe s1 c1) c1).pipe_lookup.lookup
          (to_int (c.proc_id + c.pipe_to - 1)) = none) ∧
      (to_int c1.proc_id ≠ to_int (c.proc_id + c.pipe_to) →
        (∃ src, src ≠ r ∧
          fd_get (execute_child K (ensure_pipe s1 c1) c1).fds 0
            = fd_get (ensure_pipe s1 c1).fds src) ∧
        (execute_parent K (ensure_pipe s1 c1) c1).pipe_lookup.lookup
          (to_int (c.proc_id + c.pipe_to - 1)) = some (r, w) ∧
        fd_get (execute_parent K (ensure_pipe s1 c1) c1).fds r = fd_get s1.fds r ∧
        fd_get (execute_parent K (ensure_pipe s1 c1) c1).fds w = fd_get s1.fds w ∧
        (read_ends_ok s1 → ∀ q, fd_get s1.fds r = some (.pipe_read q) →
          fd_get (execute_child K (ensure_pipe s1 c1) c1).fds 0 ≠ some (.pipe_read q)))) := by
  have hsome : ∀ e, s.pipe_lookup.lookup (to_int (c.proc_id + c.pipe_to - 1)) = some e →
      ensure_pipe s c = s := by
    intro e he
    unfold ensure_pipe
    rw [if_pos hpt, he]
  have hnone : s.pipe_lookup.lookup (to_int (c.proc_id + c.pipe_to - 1)) = none →
      ensure_pipe s c = open_pipe s (to_int (c.proc_id + c.pipe_to - 1)) := by
    intro h
    unfold ensure_pipe
    rw [if_pos hpt, h]
  have hreg : (ensure_pipe s c).pipe_lookup.lookup (to_int (c.proc_id + c.pipe_to - 1))
      ≠ none := by
    cases hl : s.pipe_lookup.lookup (to_int (c.proc_id + c.pipe_to - 1)) with
    | none => rw [hnone hl]; simp [open_pipe, List.lookup]
    | some e => rw [hsome e hl, hl]; simp
  -- the descriptor a child's standard input is copied from, when it is not the entry's
  have hsrc : ∀ (s2 : Console) (c2 : Command) (key : Int) (r w : Nat), registry_ok s2 →
      s2.pipe_lookup.lookup key = some (r, w) → to_int (c2.proc_id - 1) ≠ key →
      ∃ src, src ≠ r ∧ fd_get (execute_child K s2 c2).fds 0 = fd_get s2.fds src := by
    intro s2 c2 key r w hok hl hne
    rw [execute_child_stdin K s2 c2 hok]
    cases hp : s2.pipe_lookup.lookup (to_int (c2.proc_id - 1)) with
    | none => exact ⟨0, Ne.symm (hok.2.2.1 key r w hl).1, rfl⟩
    | some e =>
      obtain ⟨r2, w2⟩ := e
      exact ⟨r2, (hok.2.2.2 _ _ _ _ _ _ hne hp hl).1, rfl⟩
  refine ⟨execute_eq K s c hK, hreg, ?_, hsome, ?_, ?_, ?_, ?_, ?_, ?_⟩
  · intro h1 h2
    rw [← to_int_of_range _ h1 h2]
    exact hreg
  · intro hl
    rw [hnone hl]
    obtain ⟨r, w, hlk, hpipes, _, hfds, hrw, _⟩ :=
      open_pipe_spec s (to_int (c.proc_id + c.pipe_to - 1))
    refine ⟨hpipes, r, w, by rw [hlk]; simp [List.lookup], ?_, ?_⟩
    · rw [hfds]; simp [hrw]
    · rw [hfds]; simp
  · intro j hj
    cases hl : s.pipe_lookup.lookup (to_int (c.proc_id + c.pipe_to - 1)) with
    | none => rw [hnone hl]; exact open_pipe_lookup_other s _ j hj
    | some e => rw [hsome e hl]
  · intro s1 c1 r w hok hl
    rw [execute_child_stdin K s1 c1 hok, hl]
  · intro s1 c1 hok hl
    rw [execute_child_stdin K s1 c1 hok, hl]
  · intro hok hint
    have hne : to_int (c.proc_id - 1) ≠ to_int (c.proc_id + c.pipe_to - 1) :=
      to_int_ne _ _ (by omega) (by norm_num at hint ⊢; omega)
    have hok1 := registry_ok_ensure_pipe s c hok
    refine ⟨registry_ok_execute_parent K _ c hok1, ?_, ?_⟩
    · cases hl : s.pipe_lookup.lookup (to_int (c.proc_id + c.pipe_to - 1)) with
      | none => rw [hnone hl]; exact open_pipe_lookup_other s _ _ hne
      | some e => rw [hsome e hl]
    · cases hl : (ensure_pipe s c).pipe_lookup.lookup (to_int (c.proc_id + c.pipe_to - 1)) with
      | none => exact absurd hl hreg
      | some e =>
        obtain ⟨r, w⟩ := e
        obtain ⟨_, _, _, _, _, hr, hw⟩ := hok1.2.2.1 _ r w hl
        obtain ⟨hfr, hfw⟩ := unregister_pipe_fds_other
          { ensure_pipe s c with
            procs := (ensure_pipe s c).procs ++ [execute_child K (ensure_pipe s c) c] }
          (to_int (c.proc_id - 1)) _ r w hok1 (Ne.symm hne) hl
        refine ⟨r, w, rfl, hsrc _ c _ r w hok1 hl hne, ?_, ?_, hfr, hfw, hr, hw, ?_⟩
        · intro hfile
          exact execute_child_stdout K _ c r w hok1 hpt hint hfile hl
        · unfold execute_parent
          rw [unregister_pipe_lookup_other _ _ _ (Ne.symm hne)]
          exact hl
        · intro hends
          have hends1 := read_ends_ok_ensure_pipe s c hends
          exact ⟨read_ends_ok_execute_parent K _ c hends1,
            fun q hq => execute_child_stdin_other K _ c _ r w q hok1 hends1 hl hne hq⟩
  · intro s1 c1 r w hok hl
    have hok1 := registry_ok_ensure_pipe s1 c1 hok
    have hl1 := ensure_pipe_lookup_keep s1 c1 _ _ hl
    obtain ⟨_, _, _, _, _, hr, hw⟩ := hok.2.2.1 _ r w hl
    constructor
    · intro hj
      have hkey : to_int (c1.proc_id - 1) = to_int (c.proc_id + c.pipe_to - 1) :=
        (to_int_pred_eq_iff _ _).2 hj
      refine ⟨?_, ?_⟩
      · rw [execute_child_stdin K _ c1 hok1, hkey, hl1]
        exact ensure_pipe_fds_keep s1 c1 r hr
      · unfold execute_parent
        rw [hkey]
        exact unregister_pipe_lookup_self _ _
    · intro hj
      have hkey : to_int (c1.proc_id - 1) ≠ to_int (c.proc_id + c.pipe_to - 1) :=
        fun e => hj ((to_int_pred_eq_iff _ _).1 e)
      obtain ⟨hfr, hfw⟩ := unregister_pipe_fds_other
        { ensure_pipe s1 c1 with
          procs := (ensure_pipe s1 c1).procs ++ [execute_child K (ensure_pipe s1 c1) c1] }
        (to_int (c1.proc_id - 1)) _ r w hok1 (Ne.symm hkey) hl1
      refine ⟨hsrc _ c1 _ r w hok1 hl1 hkey, ?_, ?_, ?_, ?_⟩
      · unfold execute_parent
        rw [unregister_pipe_lookup_other _ _ _ (Ne.symm hkey)]
        exact hl1
      · exact hfr.trans (ensure_pipe_fds_keep s1 c1 r hr)
      · exact hfw.trans (ensure_pipe_fds_keep s1 c1 w hw)
      · intro hends q hq
        exact execute_child_stdin_other K _ c1 _ r w q hok1
          (read_ends_ok_ensure_pipe s1 c1 hends) hl1 hkey
          (by rw [ensure_pipe_fds_keep s1 c1 r hr]; exact hq)

theorem register_before_fork_witness :
    execute (kernel_with ["bin/a".toList]) { Console.init [] std_fds with proc_counter := 3 }
        { proc_id := 2, argv := ["bin/a".toList], pipe_to := 2147483647 }
      = .ok (execute_parent (kernel_with ["bin/a".toList])
          (ensure_pipe { Console.init [] std_fds with proc_counter := 3 }
            { proc_id := 2, argv := ["bin/a".toList], pipe_to := 2147483647 })
          { proc_id := 2, argv := ["bin/a".toList], pipe_to := 2147483647 }) ∧
    (ensure_pipe { Console.init [] std_fds with proc_counter := 3 }
        { proc_id := 2, argv := ["bin/a".toList], pipe_to := 2147483647 }).pipe_lookup.lookup
      (-2147483648) ≠ none ∧
    registry_ok (execute_parent (kernel_with ["bin/a".toList])
      (ensure_pipe { Console.init [] std_fds with proc_counter := 3 }
        { proc_id := 2, argv := ["bin/a".toList], pipe_to := 2147483647 })
      { proc_id := 2, argv := ["bin/a".toList], pipe_to := 2147483647 }) :=
  ⟨(register_before_fork (kernel_with ["bin/a".toList])
      { Console.init [] std_fds with proc_counter := 3 }
      { proc_id := 2, argv := ["bin/a".toList], pipe_to := 2147483647 }
      ⟨fun _ => rfl, fun _ => rfl, fun _ => rfl⟩ (by decide)).1,
   (register_before_fork (kernel_with ["bin/a".toList])
      { Console.init [] std_fds with proc_counter := 3 }
      { proc_id := 2, argv := ["bin/a".toList], pipe_to := 2147483647 }
      ⟨fun _ => rfl, fun _ => rfl, fun _ => rfl⟩ (by decide)).2.1,
   ((register_before_fork (kernel_with ["bin/a".toList])
      { Console.init [] std_fds with proc_counter := 3 }
      { proc_id := 2, argv := ["bin/a".toList], pipe_to := 2147483647 }
      ⟨fun _ => rfl, fun _ => rfl, fun _ => rfl⟩ (by decide)).2.2.2.2.2.2.2.2.1
      (registry_ok_of_empty _ rfl (by decide) (by decide)) (by decide)).1⟩

/-! ## C20: a segment that is only a pipe directive -/

/-- C20 fails on the code: the line `|` is parsed into the one segment `|`, from which
`setup_cmd` builds a command with an empty `argv`; `verify_cmd` then evaluates `argv[0]`
of an empty vector, which is undefined. -/
theorem bare_pipe_has_empty_argv :
    (parse_cmd parser_on_blanks (Console.init [] std_fds) "|".toList).1 = [["|".toList]] ∧
    setup_loop [["|".toList]] = some [{ argv := [], pipe_to := 1 }] ∧
    setup_cmd parser_on_blanks (kernel_with []) (Console.init [] std_fds) [["|".toList]]
      = none ∧
    run_line parser_on_blanks (kernel_with [])
        { Console.init [] std_fds with cmd_line := "|".toList }
      = .error .undefined := by
  refine ⟨by decide, by decide, by decide, rfl⟩

end RAS
